import Mathlib

/-!
# binpat: a declarative binary struct codec

A shallow embedding of `binpat.go` and a verification of its specification.

Conventions of the embedding.

* The platform is a 64-bit little-endian one: `int` and `uint` are 64 bits wide
  and `binary.NativeEndian` lays bytes out as `binary.LittleEndian` does.
* A Go `panic` and a returned `error` are the two constructors of `Failure`;
  the panics of `binpat.go` are the configuration errors of the specification.
* An `io.Reader` is the list of bytes still to be read (the behaviour of a
  `bytes.Reader`); an `io.Writer` is a buffer that never fails (a
  `bytes.Buffer`), represented by the bytes appended to it.
* Go values are self-describing (`Val`): a record carries the name, the
  visibility and the `binpat` directive of each field next to the field's
  value, a slice or array carries the zero value of its element type.
  Pointers, maps, interfaces, channels, functions and complex numbers are
  outside the universe; floating point numbers are carried as their IEEE bit
  patterns, which is all that `encoding/binary` looks at.
* Field names and directives are Lean strings; splitting a Go string at the
  ASCII separators `,` and `=` gives the same on characters as on UTF-8 bytes.
* `encoding/binary` is not part of the repository; `binaryRead` and
  `binaryWrite` describe what the standard library does on the universe above.
* In `read` and `write` the fast path of the type switch and the final `else`
  both hand the value to `encoding/binary`, and a record is never on the fast
  path, so the embedding has one case for records and one for everything else.
* The runtime refuses an allocation of more than `maxAlloc` bytes with a panic
  (`makeslice`, `newarray`); an allocation within that limit succeeds. Types
  have the sizes and alignments that the `gc` compiler gives them on a 64-bit
  platform.
-/

namespace Binpat

/-! ## Basic data -/

/-- The three byte orders of `encoding/binary`. -/
inductive ByteOrder where
  | LittleEndian
  | BigEndian
  | NativeEndian
  deriving DecidableEq, Repr

/-- How a call can fail: by a Go panic (a configuration error), or by
returning an error value. The payload is the message. -/
inductive Failure where
  | goPanic (msg : String)
  | goError (msg : String)
  deriving DecidableEq, Repr

/-- The subset of `reflect.Kind` that occurs in the universe of values
(`reflect.Bool`, `reflect.Int`, ... in lower case). -/
inductive Kind where
  | bool | int | int8 | int16 | int32 | int64
  | uint | uint8 | uint16 | uint32 | uint64
  | float32 | float64
  | array | slice | string | struct
  deriving DecidableEq, Repr

/-- One field of a record: what `reflect.StructField` says about it (name,
`IsExported`, the value of the `binpat` key of its tag, empty when the key is
absent) together with the field's current value. -/
structure Field (α : Type) where
  Name : String
  Exported : Bool
  Tag : String
  Value : α

/-- Go values. `scalar k x` is a value of the scalar kind `k` (a boolean is 0
or 1, a float is its bit pattern); `str` is a Go string, a sequence of bytes;
`slice` and `array` carry the zero value of their element type, which is what
`reflect.MakeSlice` fills a fresh slice with. -/
inductive Val where
  | scalar (k : Kind) (x : Int)
  | str (s : List Nat)
  | slice (elemZero : Val) (elems : List Val)
  | array (elemZero : Val) (elems : List Val)
  | struct (fields : List (Field Val))

/-- The `reflect.Kind` of a value. -/
def Val.kind : Val → Kind
  | .scalar k _ => k
  | .str _ => Kind.string
  | .slice _ _ => Kind.slice
  | .array _ _ => Kind.array
  | .struct _ => Kind.struct

/-- The per-field encoding context of `binpat.go`. -/
structure context where
  TagStr : String
  Order : ByteOrder
  SkipThis : Bool
  LenField : String
  NullTerm : Bool
  deriving DecidableEq, Repr

/-- A Go map, with `none` for an absent key. -/
abbrev GoMap (κ ν : Type) := κ → Option ν

/-- The empty map, `make(map[K]V)`. -/
def GoMap.empty {κ ν : Type} : GoMap κ ν := fun _ => none

/-- The assignment `m[k] = v`. -/
def GoMap.set {κ ν : Type} [DecidableEq κ] (m : GoMap κ ν) (k : κ) (v : ν) : GoMap κ ν :=
  fun j => if j = k then some v else m j

/-! ## Strings -/

/-- The call `strings.Cut(s, sep)` for a one-character separator: the text
before the first separator, the text after it, and whether there was one. -/
def cutChars (sep : Char) : List Char → List Char × List Char × Bool
  | [] => ([], [], false)
  | c :: cs =>
    if c = sep then ([], cs, true)
    else
      let r := cutChars sep cs
      (c :: r.1, r.2.1, r.2.2)

/-- The call `strings.Split(s, sep)` for a one-character separator. -/
def splitChars (sep : Char) : List Char → List (List Char)
  | [] => [[]]
  | c :: cs =>
    if c = sep then [] :: splitChars sep cs
    else
      match splitChars sep cs with
      | [] => [[c]]
      | t :: ts => (c :: t) :: ts

/-- The call `strings.Cut(s, "=")` and its kin. -/
def Cut (s : String) (sep : Char) : String × String × Bool :=
  let r := cutChars sep s.data
  (String.mk r.1, String.mk r.2.1, r.2.2)

/-- The call `strings.Split(s, ",")` and its kin. -/
def Split (s : String) (sep : Char) : List String :=
  (splitChars sep s.data).map String.mk

/-! ## The directive parser -/

/-- The body of the loop of `contextFromTag` over the items of the tag. -/
def contextFromTagItem (tag : String) (ctx : context) (item : String) : Except Failure context :=
  let key := (Cut item '=').1
  let val := (Cut item '=').2.1
  let hasVal := (Cut item '=').2.2
  let sw : Except Failure (context × Bool) :=
    if key = "le" then .ok ({ ctx with Order := ByteOrder.LittleEndian }, false)
    else if key = "be" then .ok ({ ctx with Order := ByteOrder.BigEndian }, false)
    else if key = "ne" then .ok ({ ctx with Order := ByteOrder.NativeEndian }, false)
    else if key = "nt" then .ok ({ ctx with NullTerm := true }, false)
    else if key = "len" then .ok ({ ctx with LenField := val }, true)
    else if key = "-" then .ok ({ ctx with SkipThis := true }, false)
    else .error (Failure.goPanic ("binpat: \"" ++ tag ++ "\": unrecognized key " ++ key))
  match sw with
  | .error e => .error e
  | .ok (ctx1, shouldHaveVal) =>
    if shouldHaveVal && !hasVal then
      .error (Failure.goPanic ("binpat: \"" ++ tag ++ "\": " ++ key ++ " needs a value"))
    else if !shouldHaveVal && hasVal then
      .error (Failure.goPanic ("binpat: \"" ++ tag ++ "\": " ++ key ++ " cannot have a value"))
    else .ok ctx1

/-- The loop of `contextFromTag` over the items of the tag. -/
def contextFromTagLoop (tag : String) : List String → context → Except Failure context
  | [], ctx => .ok ctx
  | item :: items, ctx =>
    match contextFromTagItem tag ctx item with
    | .error e => .error e
    | .ok ctx1 => contextFromTagLoop tag items ctx1

/-- The function `contextFromTag`: inherits the byte order from the parent. -/
def contextFromTag (parent : context) (tag : String) : Except Failure context :=
  let ctx : context :=
    { TagStr := tag, Order := parent.Order, SkipThis := false, LenField := "", NullTerm := false }
  if tag = "" then .ok ctx
  else contextFromTagLoop tag (Split tag ',') ctx

/-! ## The context validator -/

/-- The method `context.fieldMustValid`. -/
def context.fieldMustValid (c : context) (kind : Kind) (fieldName : String) : Except Failure Unit :=
  if c.SkipThis && c.TagStr != "-" then
    .error (Failure.goPanic ("binpat: \"" ++ c.TagStr ++ "\": if \"-\" is used, no other tags may be used"))
  else if c.NullTerm && c.LenField != "" then
    .error (Failure.goPanic ("binpat: \"" ++ c.TagStr ++ "\": can only have one of len or nt"))
  else if c.LenField != "" && (kind != Kind.slice && kind != Kind.string) then
    .error (Failure.goPanic ("binpat: \"" ++ c.TagStr ++ "\": len tag must be applied to a slice or string"))
  else if c.NullTerm && kind != Kind.string then
    .error (Failure.goPanic ("binpat: \"" ++ c.TagStr ++ "\": nt tag must be applied to a string"))
  else if kind == Kind.string && (!c.NullTerm && c.LenField == "") then
    .error (Failure.goPanic ("binpat: string field " ++ fieldName ++ " must have a len or nt property"))
  else if kind == Kind.slice && c.LenField == "" then
    .error (Failure.goPanic ("binpat.Read: slice field " ++ fieldName ++ " must have a len property"))
  else .ok ()

/-! ## The record schema -/

/-- The zero value of `context`, with which `make([]context, n)` fills the
slice of child contexts. In Go its byte order is the nil interface; both
walkers leave an unexported field before they look at its context, so the
order written here is never consulted. -/
def context.zero : context :=
  { TagStr := "", Order := ByteOrder.LittleEndian, SkipThis := false, LenField := "", NullTerm := false }

/-- The four results of `getStructFieldInfo`. -/
structure StructFieldInfo where
  childCtxs : List context
  fieldIdxs : GoMap String Nat
  unexportedFields : GoMap String Unit
  isLenField : GoMap Nat Unit

/-- The first loop of `getStructFieldInfo`, from field `i` on. -/
def getStructFieldInfoLoop {α : Type} (ctx : context) :
    List (Field α) → Nat → StructFieldInfo → Except Failure StructFieldInfo
  | [], _, acc => .ok acc
  | f :: rest, i, acc =>
    if !f.Exported then
      getStructFieldInfoLoop ctx rest (i + 1)
        { acc with unexportedFields := acc.unexportedFields.set f.Name () }
    else
      match contextFromTag ctx f.Tag with
      | .error e => .error e
      | .ok c =>
        getStructFieldInfoLoop ctx rest (i + 1)
          { acc with childCtxs := acc.childCtxs.set i c, fieldIdxs := acc.fieldIdxs.set f.Name i }

/-- The second loop of `getStructFieldInfo`: once per field it marks the
position `fieldIdxs[ctx.LenField]`, where `ctx` is the parameter of the
function (the variable of the same name declared in the first loop is out of
scope here) and a missing key reads as 0. -/
def markLenFields (ctx : context) (fieldIdxs : GoMap String Nat) (numField : Nat) : GoMap Nat Unit :=
  (List.range numField).foldl
    (fun m _ => m.set ((fieldIdxs ctx.LenField).getD 0) ()) GoMap.empty

/-- The function `getStructFieldInfo`. -/
def getStructFieldInfo {α : Type} (ctx : context) (fields : List (Field α)) :
    Except Failure StructFieldInfo :=
  match getStructFieldInfoLoop ctx fields 0
      { childCtxs := List.replicate fields.length context.zero,
        fieldIdxs := GoMap.empty, unexportedFields := GoMap.empty, isLenField := GoMap.empty } with
  | .error e => .error e
  | .ok acc => .ok { acc with isLenField := markLenFields ctx acc.fieldIdxs fields.length }

/-! ## The length resolver -/

/-- The method `reflect.Value.CanInt`, by kind. -/
def Kind.CanInt : Kind → Bool
  | .int | .int8 | .int16 | .int32 | .int64 => true
  | _ => false

/-- The method `reflect.Value.CanUint`, by kind. -/
def Kind.CanUint : Kind → Bool
  | .uint | .uint8 | .uint16 | .uint32 | .uint64 => true
  | _ => false

/-- The constant `math.MaxInt` of a 64-bit platform. -/
def MaxInt : Int := 2 ^ 63 - 1

/-- The constant `math.MinInt` of a 64-bit platform. -/
def MinInt : Int := -(2 ^ 63)

/-- The constant `math.MaxUint` of a 64-bit platform. -/
def MaxUint : Int := 2 ^ 64 - 1

/-- The conversion `int(x)` of a 64-bit integer: the value modulo 2^64, read
as a signed number. -/
def toInt (x : Int) : Int := (x + 2 ^ 63) % 2 ^ 64 - 2 ^ 63

/-- The name of a scalar kind, as `reflect.Type.String` prints it. -/
def Kind.name : Kind → String
  | .bool => "bool" | .int => "int" | .int8 => "int8" | .int16 => "int16"
  | .int32 => "int32" | .int64 => "int64" | .uint => "uint" | .uint8 => "uint8"
  | .uint16 => "uint16" | .uint32 => "uint32" | .uint64 => "uint64"
  | .float32 => "float32" | .float64 => "float64"
  | .array => "array" | .slice => "slice" | .string => "string" | .struct => "struct"

/-- The text of `v.Type().String()`, used in messages only. A record type
prints as its declared name in Go, which a value of the embedding does not
carry: it is rendered as `struct`. -/
def Val.typeString : Val → String
  | .scalar k _ => k.name
  | .str _ => "string"
  | .slice z _ => "[]" ++ z.typeString
  | .array z elems => "[" ++ toString elems.length ++ "]" ++ z.typeString
  | .struct _ => "struct"

/-- The function `lenFieldToInt`. -/
def lenFieldToInt (v : Val) : Except Failure Int :=
  match v with
  | .scalar k x =>
    if k.CanInt then
      if x > MaxInt ∨ x < MinInt then
        .error (Failure.goError "binpat.Read: slice length too large / small")
      else if x ≥ 0 then .ok (toInt x)
      else .ok 0
    else if k.CanUint then
      if x > MaxUint then .error (Failure.goError "binpat.Read: slice length too large")
      else .ok (toInt x)
    else .error (Failure.goError ("binpat.Read: invalid length type " ++ v.typeString))
  | _ => .error (Failure.goError ("binpat.Read: invalid length type " ++ v.typeString))

/-- The function `getSliceFieldLen`. -/
def getSliceFieldLen (ctx : context) (sliceFieldIdx : Nat) (fieldIdxs : GoMap String Nat)
    (unexportedFields : GoMap String Unit) (lenFieldVals : GoMap Nat Int) : Except Failure Int :=
  if ctx.LenField = "" then
    .error (Failure.goPanic "getSliceFieldLen called on slice field without len")
  else if (unexportedFields ctx.LenField).isSome then
    .error (Failure.goPanic ("binpat: \"" ++ ctx.TagStr ++ "\": referenced field " ++ ctx.LenField ++ " is not exported"))
  else
    match fieldIdxs ctx.LenField with
    | none =>
      .error (Failure.goPanic ("binpat: \"" ++ ctx.TagStr ++ "\": field " ++ ctx.LenField ++ " does not exist"))
    | some lenFieldIdx =>
      if lenFieldIdx ≥ sliceFieldIdx then
        .error (Failure.goPanic ("binpat: \"" ++ ctx.TagStr ++ "\": len field " ++ ctx.LenField ++ " must come before value field"))
      else .ok ((lenFieldVals lenFieldIdx).getD 0)

/-! ## The primitive codec: `encoding/binary` -/

/-- Whether a byte order puts the least significant byte first. -/
def ByteOrder.little : ByteOrder → Bool
  | .BigEndian => false
  | _ => true

/-- The bytes of the `n`-byte unsigned number `x` (`PutUint16` and its kin). -/
def putUint (order : ByteOrder) (n : Nat) (x : Nat) : List Nat :=
  let le := (List.range n).map (fun i => x / 256 ^ i % 256)
  if order.little then le else le.reverse

/-- The unsigned number that the bytes spell (`Uint16` and its kin). -/
def getUint (order : ByteOrder) (bs : List Nat) : Nat :=
  (if order.little then bs else bs.reverse).foldr (fun b acc => b % 256 + 256 * acc) 0

/-- The size in bytes of a scalar kind that `encoding/binary` supports. -/
def Kind.size : Kind → Option Nat
  | .bool | .int8 | .uint8 => some 1
  | .int16 | .uint16 => some 2
  | .int32 | .uint32 | .float32 => some 4
  | .int64 | .uint64 | .float64 => some 8
  | _ => none

mutual
/-- The function `sizeof` of `encoding/binary`, on the type of a value; `none`
is its result -1. -/
def sizeof : Val → Option Nat
  | .scalar k _ => k.size
  | .str _ => none
  | .slice _ _ => none
  | .array z elems =>
    match sizeof z with
    | some s => some (s * elems.length)
    | none => none
  | .struct fs => sizeofFields fs
/-- The sum of `sizeof` over the fields of a record type. -/
def sizeofFields : List (Field Val) → Option Nat
  | [] => some 0
  | ⟨_, _, _, v⟩ :: rest =>
    match sizeof v with
    | none => none
    | some s =>
      match sizeofFields rest with
      | none => none
      | some t => some (s + t)
end

/-- The function `dataSize` of `encoding/binary`. -/
def dataSize : Val → Option Nat
  | .slice z elems =>
    match sizeof z with
    | some s => some (s * elems.length)
    | none => none
  | v => sizeof v

/-- The bytes of one scalar. -/
def encodeScalar (order : ByteOrder) (k : Kind) (x : Int) : List Nat :=
  match k.size with
  | none => []
  | some n =>
    if k = Kind.bool then [if x = 0 then 0 else 1]
    else putUint order n (x % 2 ^ (8 * n)).toNat

/-- The scalar that the bytes spell. -/
def decodeScalar (order : ByteOrder) (k : Kind) (bs : List Nat) : Int :=
  if k = Kind.bool then (if bs.headD 0 = 0 then 0 else 1)
  else if k.CanInt then
    (if getUint order bs ≥ 2 ^ (8 * bs.length - 1) then (getUint order bs : Int) - 2 ^ (8 * bs.length)
     else (getUint order bs : Int))
  else (getUint order bs : Int)

mutual
/-- The method `encoder.value`. -/
def encodeValue (order : ByteOrder) : Val → List Nat
  | .scalar k x => encodeScalar order k x
  | .str _ => []
  | .slice _ elems => encodeValues order elems
  | .array _ elems => encodeValues order elems
  | .struct fs => encodeFields order fs
/-- The loop of `encoder.value` over the elements of a sequence. -/
def encodeValues (order : ByteOrder) : List Val → List Nat
  | [] => []
  | v :: vs => encodeValue order v ++ encodeValues order vs
/-- The loop of `encoder.value` over the fields of a record: every field is
written, a blank one as zero bytes. -/
def encodeFields (order : ByteOrder) : List (Field Val) → List Nat
  | [] => []
  | ⟨nm, _, _, v⟩ :: rest =>
    (if nm = "_" then List.replicate ((sizeof v).getD 0) 0 else encodeValue order v)
      ++ encodeFields order rest
end

mutual
/-- The method `decoder.value`: the failure if any, the value after the call
and the bytes not yet decoded. With `ro` the value was reached through an
unexported field, and setting a scalar panics. -/
def decodeValue (order : ByteOrder) (ro : Bool) (bs : List Nat) : Val → Option Failure × Val × List Nat
  | .scalar k x =>
    match k.size with
    | none => (none, .scalar k x, bs)
    | some n =>
      if ro then
        (some (Failure.goPanic "reflect: value obtained using unexported field"), .scalar k x, bs.drop n)
      else (none, .scalar k (decodeScalar order k (bs.take n)), bs.drop n)
  | .str s => (none, .str s, bs)
  | .slice z elems =>
    let r := decodeValues order ro bs elems
    (r.1, .slice z r.2.1, r.2.2)
  | .array z elems =>
    let r := decodeValues order ro bs elems
    (r.1, .array z r.2.1, r.2.2)
  | .struct fs =>
    let r := decodeFields order ro bs fs
    (r.1, .struct r.2.1, r.2.2)
/-- The loop of `decoder.value` over the elements of a sequence. -/
def decodeValues (order : ByteOrder) (ro : Bool) (bs : List Nat) :
    List Val → Option Failure × List Val × List Nat
  | [] => (none, [], bs)
  | v :: vs =>
    match decodeValue order ro bs v with
    | (some e, v1, bs1) => (some e, v1 :: vs, bs1)
    | (none, v1, bs1) =>
      let r := decodeValues order ro bs1 vs
      (r.1, v1 :: r.2.1, r.2.2)
/-- The loop of `decoder.value` over the fields of a record: a blank field is
skipped, every other one is decoded. -/
def decodeFields (order : ByteOrder) (ro : Bool) (bs : List Nat) :
    List (Field Val) → Option Failure × List (Field Val) × List Nat
  | [] => (none, [], bs)
  | ⟨nm, ex, tg, v⟩ :: rest =>
    if nm = "_" then
      let r := decodeFields order ro (bs.drop ((sizeof v).getD 0)) rest
      (r.1, ⟨nm, ex, tg, v⟩ :: r.2.1, r.2.2)
    else
      match decodeValue order (ro || !ex) bs v with
      | (some e, v1, bs1) => (some e, ⟨nm, ex, tg, v1⟩ :: rest, bs1)
      | (none, v1, bs1) =>
        let r := decodeFields order ro bs1 rest
        (r.1, ⟨nm, ex, tg, v1⟩ :: r.2.1, r.2.2)
end

/-- What a read leaves behind: the failure if any, the value now stored in
the destination, and the bytes still in the stream. -/
structure ReadResult where
  err : Option Failure
  data : Val
  r : List Nat

/-- What a write leaves behind: the failure if any and the bytes that reached
the writer. -/
structure WriteResult where
  err : Option Failure
  w : List Nat
  deriving DecidableEq

/-- The call `io.ReadFull(r, buf)` with a buffer of `n` bytes: the bytes read,
or the failure, and the stream afterwards. -/
def ReadFull (r : List Nat) (n : Nat) : Except Failure (List Nat) × List Nat :=
  if n ≤ r.length then (.ok (r.take n), r.drop n)
  else if r = [] then (.error (Failure.goError "EOF"), [])
  else (.error (Failure.goError "unexpected EOF"), [])

/-- The function `binary.Read` on a pointer to `data` (or on `data` itself
when it is a slice). -/
def binaryRead (r : List Nat) (order : ByteOrder) (data : Val) : ReadResult :=
  match dataSize data with
  | none => ⟨some (Failure.goError ("binary.Read: invalid type " ++ data.typeString)), data, r⟩
  | some n =>
    match ReadFull r n with
    | (.error e, r1) => ⟨some e, data, r1⟩
    | (.ok bs, r1) =>
      let d := decodeValue order false bs data
      ⟨d.1, d.2.1, r1⟩

/-- The function `binary.Write`. -/
def binaryWrite (order : ByteOrder) (data : Val) : WriteResult :=
  match dataSize data with
  | none => ⟨some (Failure.goError ("binary.Write: invalid type " ++ data.typeString)), []⟩
  | some _ => ⟨none, encodeValue order data⟩

/-! ## The record walker: read -/

/-- The loop of `read` over the elements of a fresh slice of `n` zero values
`z`, where `rd` reads one element from the stream. Elements after a failing
one are left at zero. -/
def readElems (rd : List Nat → ReadResult) (z : Val) : Nat → List Nat → Option Failure × List Val × List Nat
  | 0, r => (none, [], r)
  | n + 1, r =>
    match (rd r).err with
    | some e => (some e, (rd r).data :: List.replicate n z, (rd r).r)
    | none =>
      let res := readElems rd z n (rd r).r
      (res.1, (rd r).data :: res.2.1, res.2.2)

/-- The loop of `read` that collects a null-terminated string one byte at a
time: the bytes before the first zero byte, or the failure of `io.ReadFull`,
and the stream afterwards. -/
def readNullTerm : List Nat → Except Failure (List Nat) × List Nat
  | [] => (.error (Failure.goError "EOF"), [])
  | b :: r =>
    if b = 0 then (.ok [], r)
    else
      match readNullTerm r with
      | (.ok s, r1) => (.ok (b :: s), r1)
      | (.error e, r1) => (.error e, r1)

/-- What the head of the loop body of `read` and of `write` decides for a
field: `continue`, a panic of the validator, or to go on with the context of
the field. -/
inductive FieldGate where
  | skip
  | fail (e : Failure)
  | go (ctx : context)

/-- The head of the loop body of `read` and of `write` for field `i`, of name
`nm`, visibility `ex` and kind `kind`: an unexported field is left at once;
the context of an exported one is validated, and the field is left if the
context says to skip it. -/
def fieldGate (info : StructFieldInfo) (i : Nat) (nm : String) (ex : Bool) (kind : Kind) : FieldGate :=
  if !ex then FieldGate.skip
  else
    match (info.childCtxs.getD i context.zero).fieldMustValid kind nm with
    | .error e => FieldGate.fail e
    | .ok _ =>
      if (info.childCtxs.getD i context.zero).SkipThis then FieldGate.skip
      else FieldGate.go (info.childCtxs.getD i context.zero)

/-- The tail of the loop body of `read` for field `i`, once its value `fV` has
been read: a field marked as length source has its value recorded. -/
def recordLenField (info : StructFieldInfo) (lenFieldVals : GoMap Nat Int) (i : Nat) (fV : Val) :
    Except Failure (GoMap Nat Int) :=
  if (info.isLenField i).isSome then
    match lenFieldToInt fV with
    | .error e => .error e
    | .ok val => .ok (lenFieldVals.set i val)
  else .ok lenFieldVals

/-- The size in memory of a value of a scalar kind (`unsafe.Sizeof`). -/
def Kind.memSize : Kind → Nat
  | .bool | .int8 | .uint8 => 1
  | .int16 | .uint16 => 2
  | .int32 | .uint32 | .float32 => 4
  | .int64 | .uint64 | .float64 | .int | .uint => 8
  | _ => 0

/-- The least multiple of `a` that is at least `n`. -/
def roundUp (n a : Nat) : Nat := (n + a - 1) / a * a

mutual
/-- The alignment in memory of the type of a value (`unsafe.Alignof`): that of
a word for a string or a slice header, that of the element for an array, the
largest among the fields for a record. -/
def memAlign : Val → Nat
  | .scalar k _ => max 1 k.memSize
  | .str _ => 8
  | .slice _ _ => 8
  | .array z _ => memAlign z
  | .struct fs => memAlignFields fs
/-- The largest alignment among the fields of a record type. -/
def memAlignFields : List (Field Val) → Nat
  | [] => 1
  | ⟨_, _, _, v⟩ :: rest => max (memAlign v) (memAlignFields rest)
end

mutual
/-- The size in memory of the type of a value (`unsafe.Sizeof`, the field
`Size_` of the runtime type): two words for a string, three for a slice
header, the elements of an array, and for a record the end of its last field
rounded up to the alignment of the record. -/
def memSize : Val → Nat
  | .scalar k _ => k.memSize
  | .str _ => 16
  | .slice _ _ => 24
  | .array z elems => elems.length * memSize z
  | .struct fs => roundUp (memEnd 0 fs) (memAlignFields fs)
/-- The offset at which the fields of a record end, when they are laid out
from offset `off` on, each at the next multiple of its alignment. A record of
non-zero size that ends in a field of size zero gets one more byte. -/
def memEnd (off : Nat) : List (Field Val) → Nat
  | [] => off
  | ⟨_, _, _, v⟩ :: [] =>
    if roundUp off (memAlign v) + memSize v > 0 ∧ memSize v = 0 then
      roundUp off (memAlign v) + memSize v + 1
    else roundUp off (memAlign v) + memSize v
  | ⟨_, _, _, v⟩ :: f :: rest => memEnd (roundUp off (memAlign v) + memSize v) (f :: rest)
end

/-- The limit `maxAlloc` of the Go runtime on the size of one allocation:
2^48 bytes where addresses have 48 bits. -/
def maxAlloc : Nat := 2 ^ 48

/-- The case `reflect.String` of the switch of `read`, for field `i` with
context `ctx` and current value `s`. The buffer `make([]byte, sliceLen)` is
allocated before any byte is read; `makeslice` panics for a negative length
and for one above `maxAlloc`. -/
def readString (info : StructFieldInfo) (lenFieldVals : GoMap Nat Int) (i : Nat) (r : List Nat)
    (ctx : context) (s : List Nat) : ReadResult :=
  if ctx.NullTerm then
    match readNullTerm r with
    | (.error e, r1) => ⟨some e, .str s, r1⟩
    | (.ok t, r1) => ⟨none, .str t, r1⟩
  else if ctx.LenField != "" then
    match getSliceFieldLen ctx i info.fieldIdxs info.unexportedFields lenFieldVals with
    | .error e => ⟨some e, .str s, r⟩
    | .ok sliceLen =>
      if sliceLen < 0 ∨ sliceLen.toNat > maxAlloc then
        ⟨some (Failure.goPanic "runtime error: makeslice: len out of range"), .str s, r⟩
      else
        match ReadFull r sliceLen.toNat with
        | (.error e, r1) => ⟨some e, .str s, r1⟩
        | (.ok bs, r1) => ⟨none, .str bs, r1⟩
  else ⟨none, .str s, r⟩

/-- The case `reflect.Slice` of the switch of `read`, for field `i` with
context `ctx`, where `rd` reads one element: the length is resolved, a slice of
that many zero values is stored in the field, and the elements are read.
`reflect.MakeSlice` panics for a negative length; the allocation of its
elements (`newarray`) panics when there is more than one element and their
total size is above `maxAlloc`. Both happen before any element is read. -/
def readSlice (info : StructFieldInfo) (lenFieldVals : GoMap Nat Int) (i : Nat) (r : List Nat)
    (ctx : context) (z : Val) (elems : List Val) (rd : List Nat → ReadResult) : ReadResult :=
  match getSliceFieldLen ctx i info.fieldIdxs info.unexportedFields lenFieldVals with
  | .error e => ⟨some e, .slice z elems, r⟩
  | .ok sliceLen =>
    if sliceLen < 0 then
      ⟨some (Failure.goPanic "reflect.MakeSlice: negative len"), .slice z elems, r⟩
    else if sliceLen ≠ 1 ∧ sliceLen.toNat * memSize z > maxAlloc then
      ⟨some (Failure.goPanic "runtime: allocation size out of range"), .slice z elems, r⟩
    else
      ⟨(readElems rd z sliceLen.toNat r).1, .slice z (readElems rd z sliceLen.toNat r).2.1,
        (readElems rd z sliceLen.toNat r).2.2⟩

/-- What the loop of `read` over the fields leaves behind: the failure if any,
the fields, the stream and the table of length values. -/
abbrev FieldsRead := Option Failure × List (Field Val) × List Nat × GoMap Nat Int

/-- The body of the loop of `read` for field `i` (name `nm`, visibility `ex`,
directive `tg`, value `fV`), followed by the rest of the loop. `body` is the
case of `switch fV.Kind()` that applies to the field, `cont` the loop over the
fields after it. -/
def readStep (info : StructFieldInfo) (lenFieldVals : GoMap Nat Int) (i : Nat) (r : List Nat)
    (nm : String) (ex : Bool) (tg : String) (fV : Val) (rest : List (Field Val))
    (body : context → ReadResult) (cont : List Nat → GoMap Nat Int → FieldsRead) : FieldsRead :=
  match fieldGate info i nm ex fV.kind with
  | .fail e => (some e, ⟨nm, ex, tg, fV⟩ :: rest, r, lenFieldVals)
  | .skip => ((cont r lenFieldVals).1, ⟨nm, ex, tg, fV⟩ :: (cont r lenFieldVals).2.1, (cont r lenFieldVals).2.2)
  | .go ctx =>
    match (body ctx).err with
    | some e => (some e, ⟨nm, ex, tg, (body ctx).data⟩ :: rest, (body ctx).r, lenFieldVals)
    | none =>
      match recordLenField info lenFieldVals i (body ctx).data with
      | .error e => (some e, ⟨nm, ex, tg, (body ctx).data⟩ :: rest, (body ctx).r, lenFieldVals)
      | .ok lenFieldVals1 =>
        ((cont (body ctx).r lenFieldVals1).1,
          ⟨nm, ex, tg, (body ctx).data⟩ :: (cont (body ctx).r lenFieldVals1).2.1,
          (cont (body ctx).r lenFieldVals1).2.2)

mutual
/-- The method `Binpat.read`, on a pointer to `data`. A record is walked
field by field; every other value goes to `binary.Read`, by the fast path of
the type switch or by the final `else` alike. -/
def read (ctx : context) (r : List Nat) : Val → ReadResult
  | .struct fields =>
    match getStructFieldInfo ctx fields with
    | .error e => ⟨some e, .struct fields, r⟩
    | .ok info =>
      ⟨(readFields info GoMap.empty 0 r fields).1, .struct (readFields info GoMap.empty 0 r fields).2.1,
        (readFields info GoMap.empty 0 r fields).2.2.1⟩
  | .scalar k x => binaryRead r ctx.Order (.scalar k x)
  | .str s => binaryRead r ctx.Order (.str s)
  | .slice z elems => binaryRead r ctx.Order (.slice z elems)
  | .array z elems => binaryRead r ctx.Order (.array z elems)
/-- The loop of `read` over the fields of a record, from field `i` on. The
`switch fV.Kind()` is the choice of the body handed to `readStep`. -/
def readFields (info : StructFieldInfo) (lenFieldVals : GoMap Nat Int) (i : Nat) (r : List Nat) :
    List (Field Val) → FieldsRead
  | [] => (none, [], r, lenFieldVals)
  | ⟨nm, ex, tg, .slice z elems⟩ :: rest =>
    readStep info lenFieldVals i r nm ex tg (.slice z elems) rest
      (fun ctx => readSlice info lenFieldVals i r ctx z elems (fun r0 => read ctx r0 z))
      (fun r1 lenFieldVals1 => readFields info lenFieldVals1 (i + 1) r1 rest)
  | ⟨nm, ex, tg, .str s⟩ :: rest =>
    readStep info lenFieldVals i r nm ex tg (.str s) rest
      (fun ctx => readString info lenFieldVals i r ctx s)
      (fun r1 lenFieldVals1 => readFields info lenFieldVals1 (i + 1) r1 rest)
  | ⟨nm, ex, tg, .scalar k x⟩ :: rest =>
    readStep info lenFieldVals i r nm ex tg (.scalar k x) rest
      (fun ctx => read ctx r (.scalar k x))
      (fun r1 lenFieldVals1 => readFields info lenFieldVals1 (i + 1) r1 rest)
  | ⟨nm, ex, tg, .array z elems⟩ :: rest =>
    readStep info lenFieldVals i r nm ex tg (.array z elems) rest
      (fun ctx => read ctx r (.array z elems))
      (fun r1 lenFieldVals1 => readFields info lenFieldVals1 (i + 1) r1 rest)
  | ⟨nm, ex, tg, .struct fs⟩ :: rest =>
    readStep info lenFieldVals i r nm ex tg (.struct fs) rest
      (fun ctx => read ctx r (.struct fs))
      (fun r1 lenFieldVals1 => readFields info lenFieldVals1 (i + 1) r1 rest)
end

/-- The root context `context{Order: order}` of `Read` and `Write`. -/
def rootContext (order : ByteOrder) : context :=
  { TagStr := "", Order := order, SkipThis := false, LenField := "", NullTerm := false }

/-- The method `Binpat.Read` and the function `Read`. -/
def Read (r : List Nat) (order : ByteOrder) (data : Val) : ReadResult :=
  read (rootContext order) r data

/-! ## The record walker: write -/

/-- The pre-pass of `write`, from field `i` on: the value of every field
marked as length source is converted and stored. -/
def writePrepass (info : StructFieldInfo) :
    List (Field Val) → Nat → GoMap Nat Int → Except Failure (GoMap Nat Int)
  | [], _, lenFieldVals => .ok lenFieldVals
  | f :: rest, i, lenFieldVals =>
    if (info.isLenField i).isSome then
      match lenFieldToInt f.Value with
      | .error e => .error e
      | .ok val => writePrepass info rest (i + 1) (lenFieldVals.set i val)
    else writePrepass info rest (i + 1) lenFieldVals

/-- The length check of `write` for field `i` of name `nm`, a slice or string
(`what`) of `len` elements:
`ctx.LenField != "" && getSliceFieldLen(...) != fV.Len()` and the error
returned when it holds. -/
def checkLen (info : StructFieldInfo) (lenFieldVals : GoMap Nat Int) (i : Nat) (ctx : context)
    (what nm : String) (len : Nat) : Option Failure :=
  if ctx.LenField != "" then
    match getSliceFieldLen ctx i info.fieldIdxs info.unexportedFields lenFieldVals with
    | .error e => some e
    | .ok n =>
      if n != (len : Int) then
        some (Failure.goError ("binpat: " ++ what ++ " " ++ nm ++ " must have len of " ++ ctx.LenField))
      else none
  else none

/-- The body of the main loop of `write` for a field of name `nm`, visibility
`ex` and kind `kind` at position `i`, followed by the rest of the loop. `body`
is the case of `switch fV.Kind()` that applies to the field, `cont` the result
of the loop over the fields after it. -/
def writeStep (info : StructFieldInfo) (i : Nat) (nm : String) (ex : Bool) (kind : Kind)
    (body : context → WriteResult) (cont : WriteResult) : WriteResult :=
  match fieldGate info i nm ex kind with
  | .fail e => ⟨some e, []⟩
  | .skip => cont
  | .go ctx =>
    match (body ctx).err with
    | some e => ⟨some e, (body ctx).w⟩
    | none => ⟨cont.err, (body ctx).w ++ cont.w⟩

/-- The case `reflect.String` of the switch of `write`. -/
def writeString (info : StructFieldInfo) (lenFieldVals : GoMap Nat Int) (i : Nat) (ctx : context)
    (nm : String) (s : List Nat) : WriteResult :=
  match checkLen info lenFieldVals i ctx "string" nm s.length with
  | some e => ⟨some e, []⟩
  | none => ⟨none, s ++ (if ctx.NullTerm then [0] else [])⟩

mutual
/-- The method `Binpat.write`. A record is walked field by field; every other
value goes to `binary.Write`, by the fast path of the type switch or by the
final `else` alike. -/
def write (ctx : context) : Val → WriteResult
  | .struct fields =>
    match getStructFieldInfo ctx fields with
    | .error e => ⟨some e, []⟩
    | .ok info =>
      match writePrepass info fields 0 GoMap.empty with
      | .error e => ⟨some e, []⟩
      | .ok lenFieldVals => writeFields info lenFieldVals 0 fields
  | .scalar k x => binaryWrite ctx.Order (.scalar k x)
  | .str s => binaryWrite ctx.Order (.str s)
  | .slice z elems => binaryWrite ctx.Order (.slice z elems)
  | .array z elems => binaryWrite ctx.Order (.array z elems)
/-- The main loop of `write` over the fields of a record, from field `i` on.
The `switch fV.Kind()` is the choice of the body handed to `writeStep`. -/
def writeFields (info : StructFieldInfo) (lenFieldVals : GoMap Nat Int) (i : Nat) :
    List (Field Val) → WriteResult
  | [] => ⟨none, []⟩
  | ⟨nm, ex, _, .slice _ elems⟩ :: rest =>
    writeStep info i nm ex Kind.slice
      (fun ctx =>
        match checkLen info lenFieldVals i ctx "slice" nm elems.length with
        | some e => ⟨some e, []⟩
        | none => writeElems ctx elems)
      (writeFields info lenFieldVals (i + 1) rest)
  | ⟨nm, ex, _, .str s⟩ :: rest =>
    writeStep info i nm ex Kind.string
      (fun ctx => writeString info lenFieldVals i ctx nm s)
      (writeFields info lenFieldVals (i + 1) rest)
  | ⟨nm, ex, _, .scalar k x⟩ :: rest =>
    writeStep info i nm ex k
      (fun ctx => write ctx (.scalar k x))
      (writeFields info lenFieldVals (i + 1) rest)
  | ⟨nm, ex, _, .array z elems⟩ :: rest =>
    writeStep info i nm ex Kind.array
      (fun ctx => write ctx (.array z elems))
      (writeFields info lenFieldVals (i + 1) rest)
  | ⟨nm, ex, _, .struct fs⟩ :: rest =>
    writeStep info i nm ex Kind.struct
      (fun ctx => write ctx (.struct fs))
      (writeFields info lenFieldVals (i + 1) rest)
/-- The loop of `write` over the elements of a slice field. -/
def writeElems (ctx : context) : List Val → WriteResult
  | [] => ⟨none, []⟩
  | v :: vs =>
    match (write ctx v).err with
    | some e => ⟨some e, (write ctx v).w⟩
    | none => ⟨(writeElems ctx vs).err, (write ctx v).w ++ (writeElems ctx vs).w⟩
end

/-- The method `Binpat.Write` and the function `Write`. -/
def Write (order : ByteOrder) (data : Val) : WriteResult :=
  write (rootContext order) data

/-! ## Equality of values -/

mutual
/-- A boolean test for the equality of two values. -/
def Val.beq : Val → Val → Bool
  | .scalar k x, .scalar k2 x2 => decide (k = k2) && decide (x = x2)
  | .str s, .str t => decide (s = t)
  | .slice z es, .slice z2 es2 => Val.beq z z2 && Val.beqList es es2
  | .array z es, .array z2 es2 => Val.beq z z2 && Val.beqList es es2
  | .struct fs, .struct gs => Val.beqFields fs gs
  | _, _ => false
/-- A boolean test for the equality of two lists of values. -/
def Val.beqList : List Val → List Val → Bool
  | [], [] => true
  | a :: as, b :: bs => Val.beq a b && Val.beqList as bs
  | _, _ => false
/-- A boolean test for the equality of two lists of fields. -/
def Val.beqFields : List (Field Val) → List (Field Val) → Bool
  | [], [] => true
  | ⟨n, e, t, v⟩ :: fs, ⟨n2, e2, t2, v2⟩ :: gs =>
    decide (n = n2) && decide (e = e2) && decide (t = t2) && Val.beq v v2 && Val.beqFields fs gs
  | _, _ => false
end

/-! ## Notions of the specification -/

/-- A token that the directive grammar does not admit: its key is none of
`le`, `be`, `ne`, `nt`, `len`, `-`, or it is `len` without `=value`, or it is
one of the keys that take no value, given with `=value`. -/
def badToken (item : String) : Prop :=
  (Cut item '=').1 ∉ ["le", "be", "ne", "nt", "len", "-"]
    ∨ ((Cut item '=').1 = "len" ∧ (Cut item '=').2.2 = false)
    ∨ ((Cut item '=').1 ∈ ["le", "be", "ne", "nt", "-"] ∧ (Cut item '=').2.2 = true)

/-- The child contexts `cs` hold, from position `i` on, the parsed directive of
every exported field of `fs`. -/
def ctxsResolve {α : Type} (ctx : context) (cs : List context) : Nat → List (Field α) → Prop
  | _, [] => True
  | i, f :: rest =>
    (f.Exported = true → contextFromTag ctx f.Tag = .ok (cs.getD i context.zero))
      ∧ ctxsResolve ctx cs (i + 1) rest

/-- The bytes of one field in the layout of a record: nothing for a field
that is not visible or is marked skip, else what `body` gives for the resolved
context of the field. -/
def layoutField (ctx : context) (ex : Bool) (tg : String) (body : context → List Nat) : List Nat :=
  if !ex then []
  else
    match contextFromTag ctx tg with
    | .error _ => []
    | .ok c => if c.SkipThis then [] else body c

mutual
/-- The byte layout of a value that is handed to the primitive codec as a
whole, in the byte order `order`: a scalar is its fixed-width encoding, an
array or a slice its elements in order, and a record all of its fields in
declaration order, hidden and skip-marked ones included, whatever their
directives say; a field of the blank name `_` is as many zero bytes as its
type is wide. A string has no encoding. -/
def codecLayout (order : ByteOrder) : Val → List Nat
  | .scalar k x => encodeScalar order k x
  | .str _ => []
  | .slice _ es => codecLayoutElems order es
  | .array _ es => codecLayoutElems order es
  | .struct fs => codecLayoutFields order fs
/-- The layout of a sequence of values handed to the primitive codec. -/
def codecLayoutElems (order : ByteOrder) : List Val → List Nat
  | [] => []
  | v :: vs => codecLayout order v ++ codecLayoutElems order vs
/-- The layout of the fields of a record handed to the primitive codec. -/
def codecLayoutFields (order : ByteOrder) : List (Field Val) → List Nat
  | [] => []
  | ⟨nm, _, _, v⟩ :: rest =>
    (if nm = "_" then List.replicate ((sizeof v).getD 0) 0 else codecLayout order v)
      ++ codecLayoutFields order rest
end

mutual
/-- The byte layout of a value that the walker meets as a whole (the value
handed to `Write`, a nested record, an element of a slice field): a record
is laid out field by field, a scalar in the byte order of the context, and an
array or a sequence (met as an element of a slice field) as the primitive
codec lays it out in that order. -/
def layout (ctx : context) : Val → List Nat
  | .struct fs => layoutFields ctx fs
  | .scalar k x => encodeScalar ctx.Order k x
  | .str s => codecLayout ctx.Order (.str s)
  | .slice z es => codecLayout ctx.Order (.slice z es)
  | .array z es => codecLayout ctx.Order (.array z es)
/-- The byte layout of the fields of a record: the concatenation, in
declaration order, of the encodings of its visible fields not marked skip; a
slice is its elements in order, a string its bytes followed by one zero byte
if and only if it is null-terminated, a nested record its own layout. -/
def layoutFields (ctx : context) : List (Field Val) → List Nat
  | [] => []
  | ⟨_, ex, tg, .slice _ es⟩ :: rest =>
    layoutField ctx ex tg (fun c => layoutElems c es) ++ layoutFields ctx rest
  | ⟨_, ex, tg, .str s⟩ :: rest =>
    layoutField ctx ex tg (fun c => s ++ (if c.NullTerm then [0] else [])) ++ layoutFields ctx rest
  | ⟨_, ex, tg, .scalar k x⟩ :: rest =>
    layoutField ctx ex tg (fun c => layout c (.scalar k x)) ++ layoutFields ctx rest
  | ⟨_, ex, tg, .array z es⟩ :: rest =>
    layoutField ctx ex tg (fun c => layout c (.array z es)) ++ layoutFields ctx rest
  | ⟨_, ex, tg, .struct fs⟩ :: rest =>
    layoutField ctx ex tg (fun c => layout c (.struct fs)) ++ layoutFields ctx rest
/-- The byte layout of the elements of a slice field, in order. -/
def layoutElems (ctx : context) : List Val → List Nat
  | [] => []
  | v :: vs => layout ctx v ++ layoutElems ctx vs
end

/-- The bytes of a field of value `fV` and resolved context `c` in
`layoutFields`. -/
def fieldLayout (c : context) : Val → List Nat
  | .slice _ es => layoutElems c es
  | .str s => s ++ (if c.NullTerm then [0] else [])
  | .scalar k x => layout c (.scalar k x)
  | .array z es => layout c (.array z es)
  | .struct fs => layout c (.struct fs)

mutual
/-- The byte layout that the specification words give to a value: the rule
for records, visible fields not marked skip in declaration order, applied to
every record wherever it occurs, also as an element of an array or of a
sequence inside a slice; a sequence is its elements in order, a scalar its
encoding in the byte order of the context. -/
def visibleLayout (ctx : context) : Val → List Nat
  | .struct fs => visibleLayoutFields ctx fs
  | .scalar k x => encodeScalar ctx.Order k x
  | .str s => s
  | .slice _ es => visibleLayoutElems ctx es
  | .array _ es => visibleLayoutElems ctx es
/-- The layout of the specification for the fields of a record. -/
def visibleLayoutFields (ctx : context) : List (Field Val) → List Nat
  | [] => []
  | ⟨_, ex, tg, .slice _ es⟩ :: rest =>
    layoutField ctx ex tg (fun c => visibleLayoutElems c es) ++ visibleLayoutFields ctx rest
  | ⟨_, ex, tg, .str s⟩ :: rest =>
    layoutField ctx ex tg (fun c => s ++ (if c.NullTerm then [0] else []))
      ++ visibleLayoutFields ctx rest
  | ⟨_, ex, tg, .scalar k x⟩ :: rest =>
    layoutField ctx ex tg (fun c => visibleLayout c (.scalar k x)) ++ visibleLayoutFields ctx rest
  | ⟨_, ex, tg, .array _ es⟩ :: rest =>
    layoutField ctx ex tg (fun c => visibleLayoutElems c es) ++ visibleLayoutFields ctx rest
  | ⟨_, ex, tg, .struct fs⟩ :: rest =>
    layoutField ctx ex tg (fun c => visibleLayout c (.struct fs)) ++ visibleLayoutFields ctx rest
/-- The layout of the specification for the elements of a sequence. -/
def visibleLayoutElems (ctx : context) : List Val → List Nat
  | [] => []
  | v :: vs => visibleLayout ctx v ++ visibleLayoutElems ctx vs
end

/-- The byte order that a token of a directive names, if it names one. -/
def tokenOrder (item : String) : Option ByteOrder :=
  if (Cut item '=').1 = "le" then some ByteOrder.LittleEndian
  else if (Cut item '=').1 = "be" then some ByteOrder.BigEndian
  else if (Cut item '=').1 = "ne" then some ByteOrder.NativeEndian
  else none

/-- The byte order named by the last order token among the items, if any. -/
def itemsOrder : List String → Option ByteOrder
  | [] => none
  | item :: items =>
    match itemsOrder items with
    | some o => some o
    | none => tokenOrder item

/-- The byte order that a directive names, that of its last token `le`, `be`
or `ne`; `none` when it has no such token. -/
def tagOrder (tag : String) : Option ByteOrder :=
  itemsOrder (Split tag ',')

/-! ## Records used as examples -/

/-- A value of type `byte`. -/
def byteVal (x : Int) : Val := .scalar Kind.uint8 x

/-- The fields of the record `{Size uint32; Data []byte "len=Size"; S string "nt"}`
of the examples of the repository. -/
def sizedFields (size : Int) (data : List Val) (s : List Nat) : List (Field Val) :=
  [⟨"Size", true, "", .scalar Kind.uint32 size⟩,
    ⟨"Data", true, "len=Size", .slice (byteVal 0) data⟩,
    ⟨"S", true, "nt", .str s⟩]

/-- The record `{Size uint32; Data []byte "len=Size"; S string "nt"}`. -/
def sizedRecord (size : Int) (data : List Val) (s : List Nat) : Val :=
  .struct (sizedFields size data s)

/-- The bytes `00 00 00 08 00 01 02 03 04 05 06 07 48 65 6C 6C 6F 00`. -/
def sizedBytes : List Nat :=
  [0, 0, 0, 8, 0, 1, 2, 3, 4, 5, 6, 7, 0x48, 0x65, 0x6C, 0x6C, 0x6F, 0]

/-- The value `{Size: 8, Data: [0,1,2,3,4,5,6,7], S: "Hello"}`. -/
def sizedValue : Val :=
  sizedRecord 8 [byteVal 0, byteVal 1, byteVal 2, byteVal 3, byteVal 4, byteVal 5, byteVal 6,
    byteVal 7] [0x48, 0x65, 0x6C, 0x6C, 0x6F]

/-- The record `{A uint8; N uint8; D []byte "len=N"}`, whose length field is
not the first field. -/
def lateLenRecord (a n : Int) (d : List Val) : Val :=
  .struct [⟨"A", true, "", byteVal a⟩, ⟨"N", true, "", byteVal n⟩,
    ⟨"D", true, "len=N", .slice (byteVal 0) d⟩]

/-- The record `{S string "nt"}`. -/
def ntRecord (s : List Nat) : Val :=
  .struct [⟨"S", true, "nt", .str s⟩]

/-- The record `{Ignore int32 "-"; S string "nt"}`. -/
def skipNtRecord (ignore : Int) (s : List Nat) : Val :=
  .struct [⟨"Ignore", true, "-", .scalar Kind.int32 ignore⟩, ⟨"S", true, "nt", .str s⟩]

/-- The record `{Ignore uint8 "-"; N uint8; D []byte "len=N"}`. -/
def skipLenRecord (ignore n : Int) (d : List Val) : Val :=
  .struct [⟨"Ignore", true, "-", byteVal ignore⟩, ⟨"N", true, "", byteVal n⟩,
    ⟨"D", true, "len=N", .slice (byteVal 0) d⟩]

/-- The record `{N uint8; D []byte "len=N"}`. -/
def lenRecord (n : Int) (d : List Val) : Val :=
  .struct [⟨"N", true, "", byteVal n⟩, ⟨"D", true, "len=N", .slice (byteVal 0) d⟩]

/-- The record `{hidden string; N uint8}`, whose first field is unexported. -/
def hiddenFirstRecord (hidden : List Nat) (n : Int) : Val :=
  .struct [⟨"hidden", false, "", .str hidden⟩, ⟨"N", true, "", byteVal n⟩]

/-- The record `{hidden uint8; S string "nt"}`. -/
def hiddenIntRecord (hidden : Int) (s : List Nat) : Val :=
  .struct [⟨"hidden", false, "", byteVal hidden⟩, ⟨"S", true, "nt", .str s⟩]

/-- The record `{N uint8; S string}`, whose string has neither `len=` nor `nt`. -/
def untaggedStringRecord (n : Int) (s : List Nat) : Val :=
  .struct [⟨"N", true, "", byteVal n⟩, ⟨"S", true, "", .str s⟩]

/-- The record `{N uint8}`. -/
def byteRecord (n : Int) : Val :=
  .struct [⟨"N", true, "", byteVal n⟩]

/-- The fields of the record `{A int32; B int32 "le"; C int32}`. -/
def orderFields (a b c : Int) : List (Field Val) :=
  [⟨"A", true, "", .scalar Kind.int32 a⟩, ⟨"B", true, "le", .scalar Kind.int32 b⟩,
    ⟨"C", true, "", .scalar Kind.int32 c⟩]

/-! ## Further notions of the specification -/

/-- Whether the validator has a reason to reject a field of kind `kind` with
context `c`: one of the six illegal combinations of the specification. -/
def illegalCombination (c : context) (kind : Kind) : Prop :=
  (c.SkipThis = true ∧ c.TagStr ≠ "-")
    ∨ (c.NullTerm = true ∧ c.LenField ≠ "")
    ∨ (c.LenField ≠ "" ∧ kind ≠ Kind.slice ∧ kind ≠ Kind.string)
    ∨ (c.NullTerm = true ∧ kind ≠ Kind.string)
    ∨ (kind = Kind.string ∧ c.NullTerm = false ∧ c.LenField = "")
    ∨ (kind = Kind.slice ∧ c.LenField = "")

/-- The record `{N int8; D []byte "len=N"}`, with a signed length field. -/
def signedLenRecord (n : Int) (d : List Val) : Val :=
  .struct [⟨"N", true, "", .scalar Kind.int8 n⟩, ⟨"D", true, "len=N", .slice (byteVal 0) d⟩]

/-- The record `{N uint64; D []byte "len=N"}`, with a 64-bit unsigned length
field. -/
def wideLenRecord (n : Int) (d : List Val) : Val :=
  .struct [⟨"N", true, "", .scalar Kind.uint64 n⟩, ⟨"D", true, "len=N", .slice (byteVal 0) d⟩]

/-- A value of type `int32`. -/
def int32Val (x : Int) : Val := .scalar Kind.int32 x

/-- The array `[4]int32{a, b, c, d}`. -/
def int32Array (a b c d : Int) : Val :=
  .array (int32Val 0) [int32Val a, int32Val b, int32Val c, int32Val d]

/-- The bytes `00 00 00 01 00 00 00 02 00 00 00 03 00 00 00 04`. -/
def int32ArrayBytes : List Nat :=
  [0, 0, 0, 1, 0, 0, 0, 2, 0, 0, 0, 3, 0, 0, 0, 4]

/-- Whether a directive has the token `-`. -/
def tagSkip (tag : String) : Bool :=
  (Split tag ',').any (fun item => decide ((Cut item '=').1 = "-"))

/-- Whether a directive has the token `nt`. -/
def tagNullTerm (tag : String) : Bool :=
  (Split tag ',').any (fun item => decide ((Cut item '=').1 = "nt"))

/-- The value of the last token `len=...` among the items, if any. -/
def itemsLenField : List String → Option String
  | [] => none
  | item :: items =>
    match itemsLenField items with
    | some v => some v
    | none => if (Cut item '=').1 = "len" then some (Cut item '=').2.1 else none

/-- The length-field name that a directive gives: the value of its last token
`len=...`, empty when it has none. -/
def tagLenField (tag : String) : String :=
  (itemsLenField (Split tag ',')).getD ""

/-- The position of the last visible field of name `n` among `fs`, whose
first field has position `i`; in Go the names of the visible fields of a
record are distinct, so that it is the position of the visible field of that
name. -/
def visibleIdx {α : Type} (n : String) : List (Field α) → Nat → Option Nat
  | [], _ => none
  | f :: rest, i =>
    match visibleIdx n rest (i + 1) with
    | some j => some j
    | none => if f.Exported = true ∧ f.Name = n then some i else none

/-- The fields of the record `{A uint8; N uint8; D []byte "len=N"}`. -/
def lateLenFields (a n : Int) (d : List Val) : List (Field Val) :=
  [⟨"A", true, "", byteVal a⟩, ⟨"N", true, "", byteVal n⟩,
    ⟨"D", true, "len=N", .slice (byteVal 0) d⟩]

/-- The `switch fV.Kind()` of `read` for field `i` with context `ctx` and
value `fV`: what the loop body reads into the field. -/
def readSwitch (info : StructFieldInfo) (lenFieldVals : GoMap Nat Int) (i : Nat) (r : List Nat)
    (ctx : context) : Val → ReadResult
  | .slice z elems => readSlice info lenFieldVals i r ctx z elems (fun r0 => read ctx r0 z)
  | .str s => readString info lenFieldVals i r ctx s
  | .scalar k x => read ctx r (.scalar k x)
  | .array z elems => read ctx r (.array z elems)
  | .struct fs => read ctx r (.struct fs)

/-- The record `{N uint8; S string "-"}`, whose string is marked skip. -/
def skippedStringRecord (n : Int) (s : List Nat) : Val :=
  .struct [⟨"N", true, "", byteVal n⟩, ⟨"S", true, "-", .str s⟩]

/-- The failure of a read that met the end of the stream: `io.EOF`, or
`io.ErrUnexpectedEOF` when some but not all of the bytes asked for were
there. -/
def endOfStream (e : Option Failure) : Prop :=
  e = some (Failure.goError "EOF") ∨ e = some (Failure.goError "unexpected EOF")

/-- What a reader `rd` of one value does with the stream: when it succeeds on
`r` it has consumed a prefix `used` of `r`; it gives the same value on every
stream that starts with `used`; and on every stream that stops within `used`
it fails at the end of the stream. -/
def Consumes (rd : List Nat → ReadResult) : Prop :=
  ∀ r, (rd r).err = none →
    ∃ used, r = used ++ (rd r).r
      ∧ (∀ t, rd (used ++ t) = ⟨none, (rd r).data, t⟩)
      ∧ (∀ k, k < used.length → endOfStream (rd (used.take k)).err)

/-- What a loop `rd` over the fields `fs` of a record does with the stream:
as `Consumes`, and on a stream that stops within the bytes consumed there
is a field `j` such that the fields before it hold what the complete read
decodes for them and the fields after it are as they were. -/
def ConsumesFields (rd : List Nat → FieldsRead) (fs : List (Field Val)) : Prop :=
  ∀ r, (rd r).1 = none →
    ∃ used, r = used ++ (rd r).2.2.1
      ∧ (∀ t, rd (used ++ t) = (none, (rd r).2.1, t, (rd r).2.2.2))
      ∧ (∀ k, k < used.length →
          endOfStream (rd (used.take k)).1
            ∧ ∃ j, j < fs.length
              ∧ (rd (used.take k)).2.1.take j = (rd r).2.1.take j
              ∧ (rd (used.take k)).2.1.drop (j + 1) = fs.drop (j + 1)
              ∧ (rd (used.take k)).2.1.length = fs.length)

/-- The fields of the record `{X uint8; Y uint8 "-"; h uint8; W uint16 "le"}`,
with a skip-marked field, a hidden field and a little-endian field. -/
def mixedFields (x y h w : Int) : List (Field Val) :=
  [⟨"X", true, "", byteVal x⟩, ⟨"Y", true, "-", byteVal y⟩, ⟨"h", false, "", byteVal h⟩,
    ⟨"W", true, "le", .scalar Kind.uint16 w⟩]

/-- The record `{A uint8; Arr [1]M}`, where `M` is the record type of
`mixedFields`. -/
def arrayOfRecords (a x y h w : Int) : Val :=
  .struct [⟨"A", true, "", byteVal a⟩,
    ⟨"Arr", true, "", .array (.struct (mixedFields 0 0 0 0)) [.struct (mixedFields x y h w)]⟩]

/-- The record `{A uint8; In M}`, where `M` is the record type of
`mixedFields`. -/
def recordInRecord (a x y h w : Int) : Val :=
  .struct [⟨"A", true, "", byteVal a⟩, ⟨"In", true, "", .struct (mixedFields x y h w)⟩]

/-- The record `{N uint8; D [][]M "len=N"}`, where `M` is the record type of
`mixedFields`, with one element in `D`, a slice of one record. -/
def sliceOfSlices (n x y h w : Int) : Val :=
  .struct [⟨"N", true, "", byteVal n⟩,
    ⟨"D", true, "len=N", .slice (.slice (.struct (mixedFields 0 0 0 0)) [])
      [.slice (.struct (mixedFields 0 0 0 0)) [.struct (mixedFields x y h w)]]⟩]

/-- The fields of the record `{W uint16 "le"}`. -/
def wordFields (w : Int) : List (Field Val) :=
  [⟨"W", true, "le", .scalar Kind.uint16 w⟩]

/-- The record `{A uint8; Arr [1]struct{W uint16 "le"}}`. -/
def arrayOfWords (a w : Int) : Val :=
  .struct [⟨"A", true, "", byteVal a⟩,
    ⟨"Arr", true, "", .array (.struct (wordFields 0)) [.struct (wordFields w)]⟩]

/-- The record `{A uint8; In struct{W uint16 "le"}}`. -/
def wordInRecord (a w : Int) : Val :=
  .struct [⟨"A", true, "", byteVal a⟩, ⟨"In", true, "", .struct (wordFields w)⟩]


/-! ## The directive parser: when it fails -/

theorem contextFromTagItem_error_iff (tag : String) (ctx : context) (item : String) :
    (∃ e, contextFromTagItem tag ctx item = .error e) ↔ badToken item := by
  unfold contextFromTagItem badToken
  generalize (Cut item '=').1 = key
  generalize (Cut item '=').2.2 = hasVal
  by_cases h1 : key = "le"
  · subst h1; cases hasVal <;> simp
  by_cases h2 : key = "be"
  · subst h2; cases hasVal <;> simp
  by_cases h3 : key = "ne"
  · subst h3; cases hasVal <;> simp
  by_cases h4 : key = "nt"
  · subst h4; cases hasVal <;> simp
  by_cases h5 : key = "len"
  · subst h5; cases hasVal <;> simp
  by_cases h6 : key = "-"
  · subst h6; cases hasVal <;> simp
  simp [h1, h2, h3, h4, h5, h6]


theorem contextFromTagItem_ok_or_error (tag : String) (ctx : context) (item : String) :
    (∃ c, contextFromTagItem tag ctx item = .ok c) ∨ (∃ e, contextFromTagItem tag ctx item = .error e) := by
  cases h : contextFromTagItem tag ctx item with
  | ok c => exact Or.inl ⟨c, rfl⟩
  | error e => exact Or.inr ⟨e, rfl⟩

theorem contextFromTagLoop_error_iff (tag : String) (items : List String) :
    ∀ ctx : context,
      (∃ e, contextFromTagLoop tag items ctx = .error e) ↔ ∃ item ∈ items, badToken item := by
  induction items with
  | nil => intro ctx; simp [contextFromTagLoop]
  | cons item items ih =>
    intro ctx
    have hitem := contextFromTagItem_error_iff tag ctx item
    cases h : contextFromTagItem tag ctx item with
    | error e =>
      have hb : badToken item := hitem.mp ⟨e, h⟩
      simp only [contextFromTagLoop, h]
      constructor
      · intro _; exact ⟨item, List.mem_cons_self _ _, hb⟩
      · intro _; exact ⟨e, rfl⟩
    | ok c =>
      have hb : ¬ badToken item := by
        intro hb
        obtain ⟨e, he⟩ := hitem.mpr hb
        rw [h] at he
        cases he
      simp only [contextFromTagLoop, h]
      rw [ih c]
      constructor
      · rintro ⟨it, hmem, hbad⟩
        exact ⟨it, List.mem_cons_of_mem _ hmem, hbad⟩
      · rintro ⟨it, hmem, hbad⟩
        rcases List.mem_cons.mp hmem with heq | hmem
        · subst heq; exact absurd hbad hb
        · exact ⟨it, hmem, hbad⟩

/-- C10 (directive parser failure condition). For every parent context and
every directive, `contextFromTag` fails if and only if the directive is not
empty and, after splitting on `,` and cutting each token at its first `=`,
some token has a key other than `le`, `be`, `ne`, `nt`, `len`, `-`, or is the
key `len` without `=value`, or is one of `le`, `be`, `ne`, `nt`, `-` given with
`=value`; for every other directive it returns a context. -/
theorem contextFromTag_fails_iff (parent : context) (tag : String) :
    ((∃ e, contextFromTag parent tag = .error e) ↔
        (tag ≠ "" ∧ ∃ item ∈ Split tag ',', badToken item))
    ∧ ((∃ c, contextFromTag parent tag = .ok c) ↔
        ¬ (tag ≠ "" ∧ ∃ item ∈ Split tag ',', badToken item)) := by
  have key : (∃ e, contextFromTag parent tag = .error e) ↔
      (tag ≠ "" ∧ ∃ item ∈ Split tag ',', badToken item) := by
    unfold contextFromTag
    by_cases ht : tag = ""
    · simp [ht]
    · simp only [ht, if_false, ne_eq, not_false_eq_true, true_and]
      exact contextFromTagLoop_error_iff tag _ _
  refine ⟨key, ?_⟩
  rw [← key]
  cases h : contextFromTag parent tag with
  | ok c => simp
  | error e => simp


theorem ctxsResolve_congr {α : Type} (ctx : context) (cs cs' : List context) :
    ∀ (fs : List (Field α)) (i : Nat),
      (∀ k, i ≤ k → cs'.getD k context.zero = cs.getD k context.zero) →
      ctxsResolve ctx cs i fs → ctxsResolve ctx cs' i fs := by
  intro fs
  induction fs with
  | nil => intro i _ _; trivial
  | cons f rest ih =>
    intro i h hr
    refine ⟨?_, ih (i + 1) (fun k hk => h k (by omega)) hr.2⟩
    intro hex
    rw [h i (le_refl i)]
    exact hr.1 hex

theorem getStructFieldInfoLoop_spec {α : Type} (ctx : context) :
    ∀ (fs : List (Field α)) (i : Nat) (acc acc' : StructFieldInfo),
      getStructFieldInfoLoop ctx fs i acc = .ok acc' →
      i + fs.length ≤ acc.childCtxs.length →
      ctxsResolve ctx acc'.childCtxs i fs
        ∧ acc'.childCtxs.length = acc.childCtxs.length
        ∧ ∀ k, k < i → acc'.childCtxs.getD k context.zero = acc.childCtxs.getD k context.zero := by
  intro fs
  induction fs with
  | nil =>
    intro i acc acc' h _
    simp only [getStructFieldInfoLoop] at h
    cases h
    exact ⟨trivial, rfl, fun _ _ => rfl⟩
  | cons f rest ih =>
    intro i acc acc' h hlen
    simp only [List.length_cons] at hlen
    unfold getStructFieldInfoLoop at h
    by_cases hex : f.Exported = true
    · simp only [hex, Bool.not_true, Bool.false_eq_true, if_false] at h
      cases hc : contextFromTag ctx f.Tag with
      | error e => rw [hc] at h; cases h
      | ok c =>
        rw [hc] at h
        simp only at h
        have hlen' : i + 1 + rest.length ≤
            ({ acc with childCtxs := acc.childCtxs.set i c,
                        fieldIdxs := acc.fieldIdxs.set f.Name i } : StructFieldInfo).childCtxs.length := by
          simp only [List.length_set]; omega
        obtain ⟨h1, h2, h3⟩ := ih (i + 1) _ acc' h hlen'
        simp only [List.length_set] at h2
        refine ⟨⟨?_, h1⟩, h2, ?_⟩
        · intro _
          rw [h3 i (by omega)]
          have hi : i < acc.childCtxs.length := by omega
          simp [List.getD_eq_getElem?_getD, List.getElem?_set, hi, hc]
        · intro k hk
          rw [h3 k (by omega)]
          have hne : i ≠ k := by omega
          simp [List.getD_eq_getElem?_getD, List.getElem?_set, hne]
    · simp only [Bool.not_eq_true] at hex
      simp only [hex, Bool.not_false, if_true] at h
      obtain ⟨h1, h2, h3⟩ := ih (i + 1) _ acc' h (by simpa using (by omega : i + 1 + rest.length ≤ acc.childCtxs.length))
      refine ⟨⟨?_, h1⟩, h2, ?_⟩
      · intro h'; rw [hex] at h'; cases h'
      · intro k hk
        exact h3 k (by omega)

theorem getStructFieldInfo_resolve {α : Type} (ctx : context) (fs : List (Field α))
    (info : StructFieldInfo) (h : getStructFieldInfo ctx fs = .ok info) :
    ctxsResolve ctx info.childCtxs 0 fs := by
  unfold getStructFieldInfo at h
  split at h
  · cases h
  · rename_i acc hacc
    cases h
    exact (getStructFieldInfoLoop_spec ctx fs 0 _ acc hacc (by simp)).1

/-! ## Equality of values, decided -/

mutual
theorem Val.eq_of_beq : ∀ (a b : Val), Val.beq a b = true → a = b
  | .scalar k x, .scalar k2 x2, h => by
    simp only [Val.beq, Bool.and_eq_true, decide_eq_true_eq] at h
    rw [h.1, h.2]
  | .scalar _ _, .str _, h => by simp [Val.beq] at h
  | .scalar _ _, .slice _ _, h => by simp [Val.beq] at h
  | .scalar _ _, .array _ _, h => by simp [Val.beq] at h
  | .scalar _ _, .struct _, h => by simp [Val.beq] at h
  | .str _, .scalar _ _, h => by simp [Val.beq] at h
  | .str s, .str s2, h => by
    simp only [Val.beq, decide_eq_true_eq] at h
    rw [h]
  | .str _, .slice _ _, h => by simp [Val.beq] at h
  | .str _, .array _ _, h => by simp [Val.beq] at h
  | .str _, .struct _, h => by simp [Val.beq] at h
  | .slice _ _, .scalar _ _, h => by simp [Val.beq] at h
  | .slice _ _, .str _, h => by simp [Val.beq] at h
  | .slice z es, .slice z2 es2, h => by
    simp only [Val.beq, Bool.and_eq_true] at h
    rw [Val.eq_of_beq z z2 h.1, Val.eq_of_beqList es es2 h.2]
  | .slice _ _, .array _ _, h => by simp [Val.beq] at h
  | .slice _ _, .struct _, h => by simp [Val.beq] at h
  | .array _ _, .scalar _ _, h => by simp [Val.beq] at h
  | .array _ _, .str _, h => by simp [Val.beq] at h
  | .array _ _, .slice _ _, h => by simp [Val.beq] at h
  | .array z es, .array z2 es2, h => by
    simp only [Val.beq, Bool.and_eq_true] at h
    rw [Val.eq_of_beq z z2 h.1, Val.eq_of_beqList es es2 h.2]
  | .array _ _, .struct _, h => by simp [Val.beq] at h
  | .struct _, .scalar _ _, h => by simp [Val.beq] at h
  | .struct _, .str _, h => by simp [Val.beq] at h
  | .struct _, .slice _ _, h => by simp [Val.beq] at h
  | .struct _, .array _ _, h => by simp [Val.beq] at h
  | .struct fs, .struct fs2, h => by
    simp only [Val.beq] at h
    rw [Val.eq_of_beqFields fs fs2 h]
theorem Val.eq_of_beqList : ∀ (a b : List Val), Val.beqList a b = true → a = b
  | [], [], _ => rfl
  | [], _ :: _, h => by simp [Val.beqList] at h
  | _ :: _, [], h => by simp [Val.beqList] at h
  | a :: as, b :: bs, h => by
    simp only [Val.beqList, Bool.and_eq_true] at h
    rw [Val.eq_of_beq a b h.1, Val.eq_of_beqList as bs h.2]
theorem Val.eq_of_beqFields : ∀ (a b : List (Field Val)), Val.beqFields a b = true → a = b
  | [], [], _ => rfl
  | [], _ :: _, h => by simp [Val.beqFields] at h
  | _ :: _, [], h => by simp [Val.beqFields] at h
  | ⟨n, e, t, v⟩ :: fs, ⟨n2, e2, t2, v2⟩ :: gs, h => by
    simp only [Val.beqFields, Bool.and_eq_true, decide_eq_true_eq] at h
    obtain ⟨⟨⟨⟨h1, h2⟩, h3⟩, h4⟩, h5⟩ := h
    rw [h1, h2, h3, Val.eq_of_beq v v2 h4, Val.eq_of_beqFields fs gs h5]
end

/-! ## The gate of the loop body -/

theorem fieldGate_unexported (info : StructFieldInfo) (i : Nat) (nm : String) (kind : Kind) :
    fieldGate info i nm false kind = FieldGate.skip := by
  simp [fieldGate]

theorem fieldGate_invalid (info : StructFieldInfo) (i : Nat) (nm : String) (kind : Kind) (e : Failure)
    (hv : (info.childCtxs.getD i context.zero).fieldMustValid kind nm = .error e) :
    fieldGate info i nm true kind = FieldGate.fail e := by
  unfold fieldGate
  simp only [Bool.not_true, Bool.false_eq_true, if_false, hv]

theorem fieldGate_skip (info : StructFieldInfo) (i : Nat) (nm : String) (kind : Kind) (u : Unit)
    (hv : (info.childCtxs.getD i context.zero).fieldMustValid kind nm = .ok u)
    (hs : (info.childCtxs.getD i context.zero).SkipThis = true) :
    fieldGate info i nm true kind = FieldGate.skip := by
  unfold fieldGate
  simp only [Bool.not_true, Bool.false_eq_true, if_false, if_true, hv, hs]

theorem fieldGate_go (info : StructFieldInfo) (i : Nat) (nm : String) (kind : Kind) (u : Unit)
    (hv : (info.childCtxs.getD i context.zero).fieldMustValid kind nm = .ok u)
    (hs : (info.childCtxs.getD i context.zero).SkipThis = false) :
    fieldGate info i nm true kind = FieldGate.go (info.childCtxs.getD i context.zero) := by
  unfold fieldGate
  simp only [Bool.not_true, Bool.false_eq_true, if_false, if_true, hv, hs]


/-! ## The byte layout of a write -/

mutual
theorem encodeValue_eq_codecLayout (order : ByteOrder) : ∀ (v : Val),
    encodeValue order v = codecLayout order v
  | .scalar k x => by simp only [encodeValue, codecLayout]
  | .str s => by simp only [encodeValue, codecLayout]
  | .slice z es => by
    simp only [encodeValue, codecLayout]
    exact encodeValues_eq_codecLayoutElems order es
  | .array z es => by
    simp only [encodeValue, codecLayout]
    exact encodeValues_eq_codecLayoutElems order es
  | .struct fs => by
    simp only [encodeValue, codecLayout]
    exact encodeFields_eq_codecLayoutFields order fs
theorem encodeValues_eq_codecLayoutElems (order : ByteOrder) : ∀ (vs : List Val),
    encodeValues order vs = codecLayoutElems order vs
  | [] => by simp only [encodeValues, codecLayoutElems]
  | v :: vs => by
    simp only [encodeValues, codecLayoutElems]
    rw [encodeValue_eq_codecLayout order v, encodeValues_eq_codecLayoutElems order vs]
theorem encodeFields_eq_codecLayoutFields (order : ByteOrder) : ∀ (fs : List (Field Val)),
    encodeFields order fs = codecLayoutFields order fs
  | [] => by simp only [encodeFields, codecLayoutFields]
  | ⟨nm, ex, tg, v⟩ :: rest => by
    simp only [encodeFields, codecLayoutFields]
    rw [encodeValue_eq_codecLayout order v, encodeFields_eq_codecLayoutFields order rest]
end

theorem binaryWrite_ok (order : ByteOrder) (v : Val) (w : List Nat)
    (h : binaryWrite order v = ⟨none, w⟩) : w = codecLayout order v := by
  unfold binaryWrite at h
  split at h
  · simp at h
  · simp only [WriteResult.mk.injEq, true_and] at h
    rw [← encodeValue_eq_codecLayout]
    exact h.symm

theorem writeStep_layout (ctx : context) (info : StructFieldInfo) (i : Nat) (nm : String)
    (ex : Bool) (kind : Kind) (tg : String) (body : context → WriteResult) (cont : WriteResult)
    (lbody : context → List Nat) (lcont w : List Nat)
    (hc : ex = true → contextFromTag ctx tg = .ok (info.childCtxs.getD i context.zero))
    (hb : ∀ c w1, body c = ⟨none, w1⟩ → w1 = lbody c)
    (hk : ∀ w2, cont = ⟨none, w2⟩ → w2 = lcont)
    (h : writeStep info i nm ex kind body cont = ⟨none, w⟩) :
    w = layoutField ctx ex tg lbody ++ lcont := by
  unfold writeStep at h
  unfold layoutField
  cases ex with
  | false =>
    rw [fieldGate_unexported] at h
    simp only [Bool.not_false, if_true, List.nil_append]
    exact hk w h
  | true =>
    simp only [Bool.not_true, Bool.false_eq_true, if_false, hc rfl]
    cases hv : (info.childCtxs.getD i context.zero).fieldMustValid kind nm with
    | error e => rw [fieldGate_invalid info i nm kind e hv] at h; simp at h
    | ok u =>
      cases hs : (info.childCtxs.getD i context.zero).SkipThis with
      | true =>
        rw [fieldGate_skip info i nm kind u hv hs] at h
        simp only [if_true, List.nil_append]
        exact hk w h
      | false =>
        rw [fieldGate_go info i nm kind u hv hs] at h
        simp only [Bool.false_eq_true, if_false]
        cases hbe : (body (info.childCtxs.getD i context.zero)).err with
        | some e => simp only [hbe] at h; cases h
        | none =>
          simp only [hbe, WriteResult.mk.injEq] at h
          have h1 := hb (info.childCtxs.getD i context.zero)
            (body (info.childCtxs.getD i context.zero)).w (by rw [← hbe])
          have h2 := hk cont.w (by rw [← h.1])
          rw [← h.2, ← h1, ← h2]

mutual
theorem write_layout (ctx : context) : ∀ (v : Val) (w : List Nat),
    write ctx v = ⟨none, w⟩ → w = layout ctx v
  | .struct fs, w, h => by
    simp only [write] at h
    simp only [layout]
    split at h
    · simp at h
    · rename_i info hinfo
      split at h
      · simp at h
      · rename_i lv _
        exact writeFields_layout ctx fs info lv 0 w (getStructFieldInfo_resolve ctx fs info hinfo) h
  | .scalar k x, w, h => by
    simp only [write] at h
    simp only [layout]
    have := binaryWrite_ok _ _ _ h
    simpa only [codecLayout] using this
  | .str s, w, h => by
    simp only [write] at h
    simp only [layout]
    exact binaryWrite_ok _ _ _ h
  | .slice z es, w, h => by
    simp only [write] at h
    simp only [layout]
    exact binaryWrite_ok _ _ _ h
  | .array z es, w, h => by
    simp only [write] at h
    simp only [layout]
    exact binaryWrite_ok _ _ _ h
theorem writeFields_layout (ctx : context) : ∀ (fs : List (Field Val)) (info : StructFieldInfo)
    (lv : GoMap Nat Int) (i : Nat) (w : List Nat),
    ctxsResolve ctx info.childCtxs i fs → writeFields info lv i fs = ⟨none, w⟩ →
    w = layoutFields ctx fs
  | [], info, lv, i, w, _, h => by
    simp only [writeFields, WriteResult.mk.injEq, true_and] at h
    simp only [layoutFields]
    exact h.symm
  | ⟨nm, ex, tg, .slice z es⟩ :: rest, info, lv, i, w, hres, h => by
    simp only [writeFields] at h
    simp only [layoutFields]
    refine writeStep_layout ctx info i nm ex _ tg _ _ _ _ w hres.1 ?_
      (fun w2 h2 => writeFields_layout ctx rest info lv (i + 1) w2 hres.2 h2) h
    intro c w1 h1
    split at h1
    · simp at h1
    · exact writeElems_layout c es w1 h1
  | ⟨nm, ex, tg, .str s⟩ :: rest, info, lv, i, w, hres, h => by
    simp only [writeFields] at h
    simp only [layoutFields]
    refine writeStep_layout ctx info i nm ex _ tg _ _ _ _ w hres.1 ?_
      (fun w2 h2 => writeFields_layout ctx rest info lv (i + 1) w2 hres.2 h2) h
    intro c w1 h1
    unfold writeString at h1
    split at h1
    · simp at h1
    · simp only [WriteResult.mk.injEq, true_and] at h1
      exact h1.symm
  | ⟨nm, ex, tg, .scalar k x⟩ :: rest, info, lv, i, w, hres, h => by
    simp only [writeFields] at h
    simp only [layoutFields]
    exact writeStep_layout ctx info i nm ex _ tg _ _ _ _ w hres.1
      (fun c w1 h1 => write_layout c (.scalar k x) w1 h1)
      (fun w2 h2 => writeFields_layout ctx rest info lv (i + 1) w2 hres.2 h2) h
  | ⟨nm, ex, tg, .array z es⟩ :: rest, info, lv, i, w, hres, h => by
    simp only [writeFields] at h
    simp only [layoutFields]
    exact writeStep_layout ctx info i nm ex _ tg _ _ _ _ w hres.1
      (fun c w1 h1 => write_layout c (.array z es) w1 h1)
      (fun w2 h2 => writeFields_layout ctx rest info lv (i + 1) w2 hres.2 h2) h
  | ⟨nm, ex, tg, .struct fs⟩ :: rest, info, lv, i, w, hres, h => by
    simp only [writeFields] at h
    simp only [layoutFields]
    exact writeStep_layout ctx info i nm ex _ tg _ _ _ _ w hres.1
      (fun c w1 h1 => write_layout c (.struct fs) w1 h1)
      (fun w2 h2 => writeFields_layout ctx rest info lv (i + 1) w2 hres.2 h2) h
theorem writeElems_layout (ctx : context) : ∀ (vs : List Val) (w : List Nat),
    writeElems ctx vs = ⟨none, w⟩ → w = layoutElems ctx vs
  | [], w, h => by
    simp only [writeElems, WriteResult.mk.injEq, true_and] at h
    simp only [layoutElems]
    exact h.symm
  | v :: vs, w, h => by
    simp only [writeElems] at h
    simp only [layoutElems]
    split at h
    · simp at h
    · rename_i he
      simp only [WriteResult.mk.injEq] at h
      have h1 := write_layout ctx v (write ctx v).w (by rw [← he])
      have h2 := writeElems_layout ctx vs (writeElems ctx vs).w (by rw [← h.1])
      rw [← h.2, ← h1, ← h2]
end

/-! ## The byte order of a field -/

theorem contextFromTagItem_order (tag : String) (ctx c : context) (item : String)
    (h : contextFromTagItem tag ctx item = .ok c) :
    c.Order = (tokenOrder item).getD ctx.Order := by
  unfold contextFromTagItem at h
  unfold tokenOrder
  generalize (Cut item '=').1 = key at h ⊢
  generalize (Cut item '=').2.2 = hasVal at h
  generalize (Cut item '=').2.1 = val at h
  by_cases h1 : key = "le"
  · subst h1; cases hasVal <;> simp at h ⊢; rw [← h]
  by_cases h2 : key = "be"
  · subst h2; cases hasVal <;> simp at h ⊢; rw [← h]
  by_cases h3 : key = "ne"
  · subst h3; cases hasVal <;> simp at h ⊢; rw [← h]
  by_cases h4 : key = "nt"
  · subst h4; cases hasVal <;> simp at h ⊢; rw [← h]
  by_cases h5 : key = "len"
  · subst h5; cases hasVal <;> simp at h ⊢; rw [← h]
  by_cases h6 : key = "-"
  · subst h6; cases hasVal <;> simp at h ⊢; rw [← h]
  simp [h1, h2, h3, h4, h5, h6] at h

theorem contextFromTagLoop_order (tag : String) (items : List String) :
    ∀ (ctx c : context), contextFromTagLoop tag items ctx = .ok c →
      c.Order = (itemsOrder items).getD ctx.Order := by
  induction items with
  | nil =>
    intro ctx c h
    simp only [contextFromTagLoop, Except.ok.injEq] at h
    simp [itemsOrder, h]
  | cons item items ih =>
    intro ctx c h
    simp only [contextFromTagLoop] at h
    cases h1 : contextFromTagItem tag ctx item with
    | error e => rw [h1] at h; cases h
    | ok c1 =>
      rw [h1] at h
      have hi := contextFromTagItem_order tag ctx c1 item h1
      have hl := ih c1 c h
      simp only [itemsOrder]
      cases ho : itemsOrder items with
      | some o => simp [hl, ho]
      | none => simp [hl, ho, hi]

theorem contextFromTag_order (parent c : context) (tag : String)
    (h : contextFromTag parent tag = .ok c) :
    c.Order = (tagOrder tag).getD parent.Order := by
  unfold contextFromTag at h
  by_cases ht : tag = ""
  · subst ht
    simp only [if_true, Except.ok.injEq] at h
    rw [← h]
    rfl
  · simp only [ht, if_false] at h
    have := contextFromTagLoop_order tag _ _ c h
    simpa [tagOrder] using this

theorem ctxsResolve_get {α : Type} (ctx : context) (cs : List context) :
    ∀ (fs : List (Field α)) (k j : Nat) (hj : j < fs.length),
      ctxsResolve ctx cs k fs → (fs.get ⟨j, hj⟩).Exported = true →
      contextFromTag ctx (fs.get ⟨j, hj⟩).Tag = .ok (cs.getD (k + j) context.zero) := by
  intro fs
  induction fs with
  | nil => intro k j hj; simp at hj
  | cons f rest ih =>
    intro k j hj hres hex
    cases j with
    | zero => exact hres.1 hex
    | succ j =>
      have := ih (k + 1) j (by simpa using hj) hres.2 hex
      rw [show k + (j + 1) = k + 1 + j by omega]
      exact this

theorem fieldGate_go_eq (info : StructFieldInfo) (i : Nat) (nm : String) (ex : Bool) (kind : Kind)
    (c : context) (h : fieldGate info i nm ex kind = FieldGate.go c) :
    ex = true ∧ c = info.childCtxs.getD i context.zero
      ∧ c.fieldMustValid kind nm = .ok () ∧ c.SkipThis = false := by
  cases ex with
  | false => rw [fieldGate_unexported] at h; cases h
  | true =>
    cases hv : (info.childCtxs.getD i context.zero).fieldMustValid kind nm with
    | error e => rw [fieldGate_invalid info i nm kind e hv] at h; cases h
    | ok u =>
      cases hs : (info.childCtxs.getD i context.zero).SkipThis with
      | true => rw [fieldGate_skip info i nm kind u hv hs] at h; cases h
      | false =>
        rw [fieldGate_go info i nm kind u hv hs] at h
        cases h
        exact ⟨rfl, rfl, hv, hs⟩


/-! ## The walk over a prefix of the fields -/

theorem readStep_append (info : StructFieldInfo) (lv : GoMap Nat Int) (i : Nat) (r : List Nat)
    (nm : String) (ex : Bool) (tg : String) (fV : Val) (pre1 rest : List (Field Val))
    (body : context → ReadResult) (cont1 cont2 K : List Nat → GoMap Nat Int → FieldsRead)
    (out : List (Field Val)) (r' : List Nat) (lv' : GoMap Nat Int)
    (hcont : ∀ r1 lv1 out1 r2 lv2, cont1 r1 lv1 = (none, out1, r2, lv2) →
      cont2 r1 lv1 = ((K r2 lv2).1, out1 ++ (K r2 lv2).2.1, (K r2 lv2).2.2))
    (h : readStep info lv i r nm ex tg fV pre1 body cont1 = (none, out, r', lv')) :
    readStep info lv i r nm ex tg fV (pre1 ++ rest) body cont2
      = ((K r' lv').1, out ++ (K r' lv').2.1, (K r' lv').2.2) := by
  unfold readStep at h ⊢
  cases hg : fieldGate info i nm ex fV.kind with
  | fail e => rw [hg] at h; simp at h
  | skip =>
    rw [hg] at h
    simp only [Prod.mk.injEq] at h
    obtain ⟨h1, h2, h3⟩ := h
    have hc := hcont r lv (cont1 r lv).2.1 r' lv' (by
      rw [← h1, ← h3])
    simp only [hc, ← h2, List.cons_append]
  | go c =>
    rw [hg] at h
    simp only at h ⊢
    cases hb : (body c).err with
    | some e => rw [hb] at h; simp at h
    | none =>
      rw [hb] at h
      simp only at h ⊢
      cases hl : recordLenField info lv i (body c).data with
      | error e => rw [hl] at h; simp at h
      | ok lv1 =>
        rw [hl] at h
        simp only [Prod.mk.injEq] at h
        obtain ⟨h1, h2, h3⟩ := h
        have hc := hcont (body c).r lv1 (cont1 (body c).r lv1).2.1 r' lv' (by
          rw [← h1, ← h3])
        simp only [hc, ← h2, List.cons_append]

theorem readFields_append (info : StructFieldInfo) (rest : List (Field Val)) :
    ∀ (pre : List (Field Val)) (lv : GoMap Nat Int) (i : Nat) (r : List Nat)
      (pre' : List (Field Val)) (r' : List Nat) (lv' : GoMap Nat Int),
      readFields info lv i r pre = (none, pre', r', lv') →
      readFields info lv i r (pre ++ rest)
        = ((readFields info lv' (i + pre.length) r' rest).1,
            pre' ++ (readFields info lv' (i + pre.length) r' rest).2.1,
            (readFields info lv' (i + pre.length) r' rest).2.2) := by
  intro pre
  induction pre with
  | nil =>
    intro lv i r pre' r' lv' h
    simp only [readFields, Prod.mk.injEq, true_and] at h
    obtain ⟨h1, h2, h3⟩ := h
    subst h1 h2 h3
    simp
  | cons f pre1 ih =>
    intro lv i r pre' r' lv' h
    obtain ⟨nm, ex, tg, v⟩ := f
    have hK : ∀ r1 lv1 out1 r2 lv2,
        readFields info lv1 (i + 1) r1 pre1 = (none, out1, r2, lv2) →
        readFields info lv1 (i + 1) r1 (pre1 ++ rest)
          = ((readFields info lv2 (i + (pre1.length + 1)) r2 rest).1,
              out1 ++ (readFields info lv2 (i + (pre1.length + 1)) r2 rest).2.1,
              (readFields info lv2 (i + (pre1.length + 1)) r2 rest).2.2) := by
      intro r1 lv1 out1 r2 lv2 h1
      have := ih lv1 (i + 1) r1 out1 r2 lv2 h1
      rw [show i + 1 + pre1.length = i + (pre1.length + 1) by omega] at this
      exact this
    cases v with
    | scalar k x =>
      simp only [readFields, List.cons_append, List.length_cons] at h ⊢
      exact readStep_append info lv i r nm ex tg _ pre1 rest _ _ _
        (fun r2 lv2 => readFields info lv2 (i + (pre1.length + 1)) r2 rest) pre' r' lv' hK h
    | str s =>
      simp only [readFields, List.cons_append, List.length_cons] at h ⊢
      exact readStep_append info lv i r nm ex tg _ pre1 rest _ _ _
        (fun r2 lv2 => readFields info lv2 (i + (pre1.length + 1)) r2 rest) pre' r' lv' hK h
    | slice z es =>
      simp only [readFields, List.cons_append, List.length_cons] at h ⊢
      exact readStep_append info lv i r nm ex tg _ pre1 rest _ _ _
        (fun r2 lv2 => readFields info lv2 (i + (pre1.length + 1)) r2 rest) pre' r' lv' hK h
    | array z es =>
      simp only [readFields, List.cons_append, List.length_cons] at h ⊢
      exact readStep_append info lv i r nm ex tg _ pre1 rest _ _ _
        (fun r2 lv2 => readFields info lv2 (i + (pre1.length + 1)) r2 rest) pre' r' lv' hK h
    | struct fs =>
      simp only [readFields, List.cons_append, List.length_cons] at h ⊢
      exact readStep_append info lv i r nm ex tg _ pre1 rest _ _ _
        (fun r2 lv2 => readFields info lv2 (i + (pre1.length + 1)) r2 rest) pre' r' lv' hK h

theorem writeStep_append (info : StructFieldInfo) (i : Nat) (nm : String) (ex : Bool) (kind : Kind)
    (body : context → WriteResult) (cont1 cont2 K : WriteResult) (w : List Nat)
    (hcont : ∀ w1, cont1 = ⟨none, w1⟩ → cont2 = ⟨K.err, w1 ++ K.w⟩)
    (h : writeStep info i nm ex kind body cont1 = ⟨none, w⟩) :
    writeStep info i nm ex kind body cont2 = ⟨K.err, w ++ K.w⟩ := by
  unfold writeStep at h ⊢
  cases hg : fieldGate info i nm ex kind with
  | fail e => rw [hg] at h; simp at h
  | skip =>
    rw [hg] at h
    exact hcont w h
  | go c =>
    rw [hg] at h
    simp only at h ⊢
    cases hb : (body c).err with
    | some e => rw [hb] at h; simp at h
    | none =>
      rw [hb] at h
      simp only [WriteResult.mk.injEq] at h ⊢
      have hc := hcont cont1.w (by rw [← h.1])
      rw [hc, ← h.2]
      simp

theorem writeFields_append (info : StructFieldInfo) (lv : GoMap Nat Int) (rest : List (Field Val)) :
    ∀ (pre : List (Field Val)) (i : Nat) (w : List Nat),
      writeFields info lv i pre = ⟨none, w⟩ →
      writeFields info lv i (pre ++ rest)
        = ⟨(writeFields info lv (i + pre.length) rest).err,
            w ++ (writeFields info lv (i + pre.length) rest).w⟩ := by
  intro pre
  induction pre with
  | nil =>
    intro i w h
    simp only [writeFields, WriteResult.mk.injEq, true_and] at h
    subst h
    simp
  | cons f pre1 ih =>
    intro i w h
    obtain ⟨nm, ex, tg, v⟩ := f
    have hK : ∀ w1, writeFields info lv (i + 1) pre1 = ⟨none, w1⟩ →
        writeFields info lv (i + 1) (pre1 ++ rest)
          = ⟨(writeFields info lv (i + (pre1.length + 1)) rest).err,
              w1 ++ (writeFields info lv (i + (pre1.length + 1)) rest).w⟩ := by
      intro w1 h1
      have := ih (i + 1) w1 h1
      rw [show i + 1 + pre1.length = i + (pre1.length + 1) by omega] at this
      exact this
    cases v with
    | scalar k x =>
      simp only [writeFields, List.cons_append, List.length_cons] at h ⊢
      exact writeStep_append info i nm ex _ _ _ _ _ w hK h
    | str s =>
      simp only [writeFields, List.cons_append, List.length_cons] at h ⊢
      exact writeStep_append info i nm ex _ _ _ _ _ w hK h
    | slice z es =>
      simp only [writeFields, List.cons_append, List.length_cons] at h ⊢
      exact writeStep_append info i nm ex _ _ _ _ _ w hK h
    | array z es =>
      simp only [writeFields, List.cons_append, List.length_cons] at h ⊢
      exact writeStep_append info i nm ex _ _ _ _ _ w hK h
    | struct fs =>
      simp only [writeFields, List.cons_append, List.length_cons] at h ⊢
      exact writeStep_append info i nm ex _ _ _ _ _ w hK h


/-! ## The step at a skipped field -/

theorem skip_field_step (info : StructFieldInfo) (lv : GoMap Nat Int) (i : Nat) (r : List Nat)
    (nm tg : String) (fV : Val) (rest : List (Field Val)) (u : Unit)
    (hv : (info.childCtxs.getD i context.zero).fieldMustValid fV.kind nm = .ok u)
    (hs : (info.childCtxs.getD i context.zero).SkipThis = true) :
    readFields info lv i r (⟨nm, true, tg, fV⟩ :: rest)
        = ((readFields info lv (i + 1) r rest).1,
            ⟨nm, true, tg, fV⟩ :: (readFields info lv (i + 1) r rest).2.1,
            (readFields info lv (i + 1) r rest).2.2)
      ∧ writeFields info lv i (⟨nm, true, tg, fV⟩ :: rest) = writeFields info lv (i + 1) rest := by
  have hg := fieldGate_skip info i nm fV.kind u hv hs
  constructor
  · cases fV <;> simp only [readFields, readStep, hg]
  · cases fV <;> simp only [Val.kind] at hg <;> simp only [writeFields, writeStep, hg]

/-! ## The claims -/

/-- C1 (round trip), evaluated where it fails. The record
`{A uint8; N uint8; D []byte "len=N"}` with value `{0, 2, [5, 6]}` satisfies
the schema invariant (`D` has as many elements as `N` says), yet `Write`
returns the length error after the bytes of `A` and `N`: only position 0 is
ever taken as a length source, so the length of `D` is compared with 0. -/
theorem roundtrip_fails_late_length_field :
    Write ByteOrder.BigEndian (lateLenRecord 0 2 [byteVal 5, byteVal 6])
      = ⟨some (Failure.goError "binpat: slice D must have len of N"), [0, 2]⟩ := by
  decide!

/-- C2 (length-driven read), evaluated where it fails. Reading the bytes
`00 02 05 06` into `{A uint8; N uint8; D []byte "len=N"}` succeeds, decodes
`N = 2`, and gives `D` no element at all, leaving `05 06` unread. -/
theorem read_ignores_late_length_field :
    (Read [0, 2, 5, 6] ByteOrder.BigEndian (lateLenRecord 0 0 [])).err = none
      ∧ (Read [0, 2, 5, 6] ByteOrder.BigEndian (lateLenRecord 0 0 [])).data = lateLenRecord 0 2 []
      ∧ (Read [0, 2, 5, 6] ByteOrder.BigEndian (lateLenRecord 0 0 [])).r = [5, 6] :=
  ⟨by decide!, Val.eq_of_beq _ _ (by decide!), by decide!⟩

/-- C3 (exact byte layout on write), evaluated where it fails. On
`{A uint8; Arr [1]M}` with `M = {X uint8; Y uint8 "-"; h uint8; W uint16 "le"}`
and the value `{1, [{2, 3, 4, 5}]}`, `Write` succeeds under big-endian and
emits `01 02 03 04 00 05`: the skip-marked `Y` and the hidden `h` are written,
and `W` is big-endian. The concatenation of the encodings of the visible
fields not marked skip, nested records taken recursively, is `01 02 05 00`,
which is what `Write` emits when the same record is a field, `{A uint8; In M}`.
It is the same for a record in a sequence inside a slice,
`{N uint8; D [][]M "len=N"}` with the value `{1, [[{2, 3, 4, 5}]]}`. -/
theorem write_array_of_records_all_fields :
    Write ByteOrder.BigEndian (arrayOfRecords 1 2 3 4 5) = ⟨none, [1, 2, 3, 4, 0, 5]⟩
      ∧ visibleLayout (rootContext ByteOrder.BigEndian) (arrayOfRecords 1 2 3 4 5) = [1, 2, 5, 0]
      ∧ Write ByteOrder.BigEndian (recordInRecord 1 2 3 4 5) = ⟨none, [1, 2, 5, 0]⟩
      ∧ visibleLayout (rootContext ByteOrder.BigEndian) (recordInRecord 1 2 3 4 5) = [1, 2, 5, 0]
      ∧ Write ByteOrder.BigEndian (sliceOfSlices 1 2 3 4 5) = ⟨none, [1, 2, 3, 4, 0, 5]⟩
      ∧ visibleLayout (rootContext ByteOrder.BigEndian) (sliceOfSlices 1 2 3 4 5)
        = [1, 2, 5, 0] := by
  decide!

/-- C3, amended. Whenever `write` succeeds on a record, in any enclosing
context, the bytes emitted are the layout of the record: the concatenation, in
declaration order, of the encodings of its visible fields not marked skip,
each scalar in the resolved byte order of its field, each slice as its
elements in order, each string as its bytes followed by one zero byte if and
only if it is null-terminated, each nested record recursively. An array, and a
sequence that is an element of a slice, is laid out as the primitive codec
lays it out in the resolved byte order of the field: its elements in order,
and of a record inside it every field, hidden and skip-marked ones included,
whatever their directives, a field of the blank name as zero bytes. The example
of the repository encodes to
`00 00 00 08 00 01 02 03 04 05 06 07 48 65 6C 6C 6F 00` under big-endian, and
those bytes decode to the value. -/
theorem write_exact_layout :
    (∀ (ctx : context) (fields : List (Field Val)) (w : List Nat),
        write ctx (.struct fields) = ⟨none, w⟩ → w = layoutFields ctx fields)
      ∧ Write ByteOrder.BigEndian sizedValue = ⟨none, sizedBytes⟩
      ∧ (Read sizedBytes ByteOrder.BigEndian (sizedRecord 0 [] [])).err = none
      ∧ (Read sizedBytes ByteOrder.BigEndian (sizedRecord 0 [] [])).data = sizedValue
      ∧ (Read sizedBytes ByteOrder.BigEndian (sizedRecord 0 [] [])).r = [] := by
  refine ⟨?_, by decide!, by decide!, Val.eq_of_beq _ _ (by decide!), by decide!⟩
  intro ctx fields w h
  have := write_layout ctx (.struct fields) w h
  simpa only [layout] using this

/-- C3, at the example of the repository, and at the record
`{A uint8; Arr [1]M}` with an array of records. -/
theorem write_exact_layout_witness :
    write (rootContext ByteOrder.BigEndian)
        (.struct (sizedFields 2 [byteVal 7, byteVal 9] [0x48, 0x69]))
        = ⟨none, [0, 0, 0, 2, 7, 9, 0x48, 0x69, 0]⟩
      ∧ [0, 0, 0, 2, 7, 9, 0x48, 0x69, 0]
          = layoutFields (rootContext ByteOrder.BigEndian)
              (sizedFields 2 [byteVal 7, byteVal 9] [0x48, 0x69])
      ∧ layout (rootContext ByteOrder.BigEndian) (arrayOfRecords 1 2 3 4 5)
        = [1, 2, 3, 4, 0, 5] :=
  ⟨by decide!, write_exact_layout.1 _ _ _ (by decide!), by decide!⟩

/-- C4 (length mismatch detection on write), evaluated where it fails. In
`{A uint8; N uint8; D []byte "len=N"}` with value `{0, 2, []}` the slice `D`
has 0 elements while its length field `N` holds 2, yet `Write` succeeds and
emits the bytes of `A` and `N`. -/
theorem write_misses_length_mismatch :
    Write ByteOrder.BigEndian (lateLenRecord 0 2 []) = ⟨none, [0, 2]⟩ := by
  decide!

/-- C5 (null-terminated strings), evaluated where it fails. With the
null-terminated string as the first field, `{S string "nt"}`, `Write` of
`"Hi"` fails before any byte is emitted, and `Read` of `48 69 00` fails after
the string has been read: the first field of a record is always converted as
a length, which a string is not. -/
theorem null_terminated_first_field_fails :
    Write ByteOrder.BigEndian (ntRecord [0x48, 0x69])
        = ⟨some (Failure.goError "binpat.Read: invalid length type string"), []⟩
      ∧ (Read [0x48, 0x69, 0] ByteOrder.BigEndian (ntRecord [])).err
        = some (Failure.goError "binpat.Read: invalid length type string")
      ∧ (Read [0x48, 0x69, 0] ByteOrder.BigEndian (ntRecord [])).data = ntRecord [0x48, 0x69]
      ∧ (Read [0x48, 0x69, 0] ByteOrder.BigEndian (ntRecord [])).r = [] :=
  ⟨by decide!, by decide!, Val.eq_of_beq _ _ (by decide!), by decide!⟩

/-- C6 (skip fields), evaluated where it fails. The bytes written and read
are not those of the same record without the skip field: `Write` succeeds
on `{Ignore int32 "-"; S string "nt"}` and fails on `{S string "nt"}`; `Read`
of `02 05 06` into `{Ignore uint8 "-"; N uint8; D []byte "len=N"}` consumes
one byte and leaves `D` empty, into `{N uint8; D []byte "len=N"}` it consumes
all three. -/
theorem skip_field_changes_bytes :
    Write ByteOrder.BigEndian (skipNtRecord 5 [0x48, 0x69]) = ⟨none, [0x48, 0x69, 0]⟩
      ∧ Write ByteOrder.BigEndian (ntRecord [0x48, 0x69])
        = ⟨some (Failure.goError "binpat.Read: invalid length type string"), []⟩
      ∧ (Read [2, 5, 6] ByteOrder.BigEndian (skipLenRecord 9 0 [])).err = none
      ∧ (Read [2, 5, 6] ByteOrder.BigEndian (skipLenRecord 9 0 [])).data = skipLenRecord 9 2 []
      ∧ (Read [2, 5, 6] ByteOrder.BigEndian (skipLenRecord 9 0 [])).r = [5, 6]
      ∧ (Read [2, 5, 6] ByteOrder.BigEndian (lenRecord 0 [])).err = none
      ∧ (Read [2, 5, 6] ByteOrder.BigEndian (lenRecord 0 [])).data
        = lenRecord 2 [byteVal 5, byteVal 6]
      ∧ (Read [2, 5, 6] ByteOrder.BigEndian (lenRecord 0 [])).r = [] :=
  ⟨by decide!, by decide!, by decide!, Val.eq_of_beq _ _ (by decide!), by decide!, by decide!,
    Val.eq_of_beq _ _ (by decide!), by decide!⟩

/-- C8 (visibility rule), evaluated where it fails. `Write` fails on
`{hidden string; N uint8}` although it succeeds on the visible field alone,
`{N uint8}`: the pre-pass converts the first field as a length without asking
whether it is exported. Conversely `Read` and `Write` succeed on
`{hidden uint8; S string "nt"}` and fail on `{S string "nt"}`. -/
theorem unexported_first_field_breaks_write :
    Write ByteOrder.BigEndian (hiddenFirstRecord [0x78] 1)
        = ⟨some (Failure.goError "binpat.Read: invalid length type string"), []⟩
      ∧ Write ByteOrder.BigEndian (byteRecord 1) = ⟨none, [1]⟩
      ∧ Write ByteOrder.BigEndian (hiddenIntRecord 3 [0x48, 0x69]) = ⟨none, [0x48, 0x69, 0]⟩
      ∧ (Read [0x48, 0x69, 0] ByteOrder.BigEndian (hiddenIntRecord 3 [])).err = none
      ∧ (Write ByteOrder.BigEndian (ntRecord [0x48, 0x69])).err
        = some (Failure.goError "binpat.Read: invalid length type string")
      ∧ (Read [0x48, 0x69, 0] ByteOrder.BigEndian (ntRecord [])).err
        = some (Failure.goError "binpat.Read: invalid length type string") := by
  decide!


/-! ## Where a configuration error surfaces -/

theorem ctxsResolve_append {α : Type} (ctx : context) (cs : List context) (rest : List (Field α)) :
    ∀ (pre : List (Field α)) (k : Nat),
      ctxsResolve ctx cs k (pre ++ rest) → ctxsResolve ctx cs (k + pre.length) rest := by
  intro pre
  induction pre with
  | nil => intro k h; simpa using h
  | cons f pre1 ih =>
    intro k h
    have := ih (k + 1) h.2
    rw [show k + 1 + pre1.length = k + (f :: pre1).length by simp; omega] at this
    exact this

theorem readFields_invalid (info : StructFieldInfo) (lv : GoMap Nat Int) (i : Nat) (r : List Nat)
    (nm : String) (ex : Bool) (tg : String) (fV : Val) (rest : List (Field Val)) (e : Failure)
    (hg : fieldGate info i nm ex fV.kind = FieldGate.fail e) :
    readFields info lv i r (⟨nm, ex, tg, fV⟩ :: rest) = (some e, ⟨nm, ex, tg, fV⟩ :: rest, r, lv) := by
  cases fV <;> simp only [readFields, readStep, hg]

theorem writeFields_invalid (info : StructFieldInfo) (lv : GoMap Nat Int) (i : Nat)
    (nm : String) (ex : Bool) (tg : String) (fV : Val) (rest : List (Field Val)) (e : Failure)
    (hg : fieldGate info i nm ex fV.kind = FieldGate.fail e) :
    writeFields info lv i (⟨nm, ex, tg, fV⟩ :: rest) = ⟨some e, []⟩ := by
  cases fV <;> simp only [Val.kind] at hg <;> simp only [writeFields, writeStep, hg]

/-- C9 (configuration errors), evaluated where it fails. In
`{N uint8; S string}` the string has neither `len=` nor `nt`; `Read` of
`07 08` consumes the byte of `N` before it panics at `S`, and `Write` emits
the byte of `N` before it panics. -/
theorem config_error_after_bytes :
    (Read [7, 8] ByteOrder.BigEndian (untaggedStringRecord 0 [])).err
        = some (Failure.goPanic "binpat: string field S must have a len or nt property")
      ∧ (Read [7, 8] ByteOrder.BigEndian (untaggedStringRecord 0 [])).r = [8]
      ∧ Write ByteOrder.BigEndian (untaggedStringRecord 7 [])
        = ⟨some (Failure.goPanic "binpat: string field S must have a len or nt property"), [7]⟩ := by
  decide!

/-- C9, amended. The validator runs field by field, inside the walk. For
every record whose directives all parse and every visible field whose
directive and kind the validator rejects: when the walk over the fields
before it has not failed, `read` fails with the validator's configuration
error having consumed exactly the bytes of the fields before the offending
one, which keep the values read for them, and `write` fails with it having
emitted exactly the bytes of the fields before it (given that the pre-pass over
the length sources has not failed); no byte of the offending field or of a
later field is consumed or emitted, so none at all when the offending field
is the first. -/
theorem config_error_at_field (ctx c : context) (pre post : List (Field Val)) (nm tg : String)
    (fV : Val) (info : StructFieldInfo) (e : Failure)
    (hinfo : getStructFieldInfo ctx (pre ++ ⟨nm, true, tg, fV⟩ :: post) = .ok info)
    (hparse : contextFromTag ctx tg = .ok c)
    (hbad : c.fieldMustValid fV.kind nm = .error e) :
    (∀ r : List Nat, (readFields info GoMap.empty 0 r pre).1 = none →
        read ctx r (.struct (pre ++ ⟨nm, true, tg, fV⟩ :: post))
          = ⟨some e, .struct ((readFields info GoMap.empty 0 r pre).2.1 ++ ⟨nm, true, tg, fV⟩ :: post),
              (readFields info GoMap.empty 0 r pre).2.2.1⟩)
      ∧ (∀ lv : GoMap Nat Int,
          writePrepass info (pre ++ ⟨nm, true, tg, fV⟩ :: post) 0 GoMap.empty = .ok lv →
          (writeFields info lv 0 pre).err = none →
          write ctx (.struct (pre ++ ⟨nm, true, tg, fV⟩ :: post))
            = ⟨some e, (writeFields info lv 0 pre).w⟩) := by
  have hres := getStructFieldInfo_resolve ctx _ info hinfo
  have hat := (ctxsResolve_append ctx info.childCtxs _ pre 0 hres).1 rfl
  rw [hparse] at hat
  have hc : c = info.childCtxs.getD (0 + pre.length) context.zero := Except.ok.inj hat
  have hg : fieldGate info (0 + pre.length) nm true fV.kind = FieldGate.fail e :=
    fieldGate_invalid info _ nm fV.kind e (by rw [← hc]; exact hbad)
  constructor
  · intro r hpre
    have happ := readFields_append info (⟨nm, true, tg, fV⟩ :: post) pre GoMap.empty 0 r
      (readFields info GoMap.empty 0 r pre).2.1 (readFields info GoMap.empty 0 r pre).2.2.1
      (readFields info GoMap.empty 0 r pre).2.2.2 (by rw [← hpre])
    rw [readFields_invalid info _ _ _ nm true tg fV post e hg] at happ
    simp only [read, hinfo, happ]
  · intro lv hpp hpre
    have happ := writeFields_append info lv (⟨nm, true, tg, fV⟩ :: post) pre 0
      (writeFields info lv 0 pre).w (by rw [← hpre])
    rw [writeFields_invalid info lv _ nm true tg fV post e hg] at happ
    simp only [write, hinfo, hpp, happ, List.append_nil]

/-- C9 amended, at the record `{N uint8; S string}` and at the record
`{S string}`, where the offending field is the first and no byte is consumed. -/
theorem config_error_at_field_witness :
    (∃ info,
      getStructFieldInfo (rootContext ByteOrder.BigEndian)
          ([⟨"N", true, "", byteVal 0⟩] ++ ⟨"S", true, "", .str []⟩ :: []) = .ok info
        ∧ contextFromTag (rootContext ByteOrder.BigEndian) "" = .ok (rootContext ByteOrder.BigEndian)
        ∧ (rootContext ByteOrder.BigEndian).fieldMustValid (Val.str []).kind "S"
          = .error (Failure.goPanic "binpat: string field S must have a len or nt property")
        ∧ (readFields info GoMap.empty 0 [7, 8] [⟨"N", true, "", byteVal 0⟩]).1 = none
        ∧ read (rootContext ByteOrder.BigEndian) [7, 8]
            (.struct ([⟨"N", true, "", byteVal 0⟩] ++ ⟨"S", true, "", .str []⟩ :: []))
          = ⟨some (Failure.goPanic "binpat: string field S must have a len or nt property"),
              .struct ((readFields info GoMap.empty 0 [7, 8] [⟨"N", true, "", byteVal 0⟩]).2.1
                ++ ⟨"S", true, "", .str []⟩ :: []),
              (readFields info GoMap.empty 0 [7, 8] [⟨"N", true, "", byteVal 0⟩]).2.2.1⟩)
      ∧ (Read [7, 8] ByteOrder.BigEndian (.struct [⟨"S", true, "", .str []⟩])).r = [7, 8] :=
  ⟨⟨_, rfl, rfl, rfl, rfl,
      (config_error_at_field (rootContext ByteOrder.BigEndian) (rootContext ByteOrder.BigEndian)
        [⟨"N", true, "", byteVal 0⟩] [] "S" "" (.str []) _ _ rfl rfl rfl).1 [7, 8] rfl⟩,
    by decide!⟩



/-! ## The context validator: when it rejects -/

/-- C11 (context validator). For every field context and field kind,
`fieldMustValid` rejects the field, with a panic, if and only if at least one
of these holds: skip is set and the raw directive is not exactly `-`;
nullTerminated and lengthFieldName are both set; lengthFieldName is set and
the kind is neither slice nor string; nullTerminated is set and the kind is
not string; the kind is string and neither nullTerminated nor lengthFieldName
is set; the kind is slice and lengthFieldName is not set. Otherwise it
returns. -/
theorem fieldMustValid_rejects_iff (c : context) (kind : Kind) (fieldName : String) :
    ((∃ msg, c.fieldMustValid kind fieldName = .error (Failure.goPanic msg))
        ↔ illegalCombination c kind)
      ∧ (c.fieldMustValid kind fieldName = .ok () ↔ ¬ illegalCombination c kind) := by
  obtain ⟨tagStr, order, skip, lenField, nullTerm⟩ := c
  unfold context.fieldMustValid illegalCombination
  by_cases hl : lenField = "" <;> by_cases ht : tagStr = "-" <;>
    cases skip <;> cases nullTerm <;> cases kind <;> simp [hl, ht]



/-! ## The conversion of a length -/

/-- C13 (negative lengths), evaluated where it fails. The signed value -1
is not rejected: `lenFieldToInt` returns the length 0. `Read` of the byte `FF`
into `{N int8; D []byte "len=N"}` succeeds with `N = -1` and `D` empty, and
`Write` of that value succeeds. -/
theorem negative_length_accepted :
    lenFieldToInt (.scalar Kind.int8 (-1)) = .ok 0
      ∧ (Read [0xFF] ByteOrder.BigEndian (signedLenRecord 0 [])).err = none
      ∧ (Read [0xFF] ByteOrder.BigEndian (signedLenRecord 0 [])).data = signedLenRecord (-1) []
      ∧ Write ByteOrder.BigEndian (signedLenRecord (-1) []) = ⟨none, [0xFF]⟩ :=
  ⟨rfl, by decide!, Val.eq_of_beq _ _ (by decide!), by decide!⟩

/-- C13, amended. A negative length is not rejected but read as 0: for every
signed integer kind and every negative value of it (a 64-bit value at most),
`lenFieldToInt` returns the length 0, so `read` records 0 for a length source
that holds it and the pre-pass of `write` stores 0 for it. The range error is
returned exactly for the values outside the range of `int`, which no 64-bit
value is. -/
theorem negative_length_is_zero (k : Kind) (x : Int) (hk : k.CanInt = true) (hneg : x < 0)
    (hmin : MinInt ≤ x) :
    lenFieldToInt (.scalar k x) = .ok 0
      ∧ (∀ (info : StructFieldInfo) (lv : GoMap Nat Int) (i : Nat),
          (info.isLenField i).isSome = true →
          recordLenField info lv i (.scalar k x) = .ok (lv.set i 0))
      ∧ (∀ (info : StructFieldInfo) (lv : GoMap Nat Int) (i : Nat) (nm tg : String) (ex : Bool)
          (rest : List (Field Val)),
          (info.isLenField i).isSome = true →
          writePrepass info (⟨nm, ex, tg, .scalar k x⟩ :: rest) i lv
            = writePrepass info rest (i + 1) (lv.set i 0))
      ∧ (∀ y : Int, (∃ msg, lenFieldToInt (.scalar k y) = .error (Failure.goError msg))
          ↔ (y > MaxInt ∨ y < MinInt)) := by
  have hmax : ¬ x > MaxInt := by unfold MaxInt; omega
  have h0 : lenFieldToInt (.scalar k x) = .ok 0 := by
    unfold lenFieldToInt
    simp only [hk, if_true]
    have h1 : ¬ (x > MaxInt ∨ x < MinInt) := by
      intro h; rcases h with h | h
      · exact hmax h
      · omega
    have h2 : ¬ x ≥ 0 := by omega
    simp only [h1, h2, if_false]
  refine ⟨h0, ?_, ?_, ?_⟩
  · intro info lv i hi
    unfold recordLenField
    simp only [hi, if_true, h0]
  · intro info lv i nm tg ex rest hi
    simp only [writePrepass, hi, if_true, h0]
  · intro y
    unfold lenFieldToInt
    simp only [hk, if_true]
    by_cases hy : y > MaxInt ∨ y < MinInt
    · simp [hy]
    · by_cases hy0 : y ≥ 0 <;> simp [hy, hy0]

/-- C13 amended, at the value -128 of kind `int8`. -/
theorem negative_length_is_zero_witness :
    Kind.int8.CanInt = true ∧ (-128 : Int) < 0 ∧ MinInt ≤ -128
      ∧ lenFieldToInt (.scalar Kind.int8 (-128)) = .ok 0 :=
  ⟨rfl, by decide, by decide,
    (negative_length_is_zero Kind.int8 (-128) rfl (by decide) (by decide)).1⟩

/-- C14 (bounded non-negative lengths), evaluated where it fails. The
unsigned 64-bit value 2^63, above the maximum of `int`, is not rejected:
`lenFieldToInt` returns it wrapped to -2^63, because the value is compared
with `math.MaxUint` and not with `math.MaxInt`. `Read` of `80 00 00 00 00 00
00 00` into `{N uint64; D []byte "len=N"}` then panics in `reflect.MakeSlice`. -/
theorem unsigned_length_wraps :
    lenFieldToInt (.scalar Kind.uint64 (2 ^ 63)) = .ok (-(2 ^ 63))
      ∧ (Read [0x80, 0, 0, 0, 0, 0, 0, 0] ByteOrder.BigEndian (wideLenRecord 0 [])).err
        = some (Failure.goPanic "reflect.MakeSlice: negative len") :=
  ⟨rfl, by decide!⟩

/-! ## Values that are not records -/

/-- C17 (primitive pass-through). For every value that is not a record and
every byte order, `Write` is `binary.Write` on the value in that order and
`Read` is `binary.Read`, whatever the context says apart from its order: no
directive is involved. When the primitive codec accepts the value, the bytes
written are its encoding of the value. Under big-endian the array
`[1, 2, 3, 4]` of `int32` is the 16 bytes
`00 00 00 01 00 00 00 02 00 00 00 03 00 00 00 04` in both directions. -/
theorem primitive_pass_through :
    (∀ (order : ByteOrder) (data : Val), (∀ fields, data ≠ .struct fields) →
        Write order data = binaryWrite order data
          ∧ (∀ r, Read r order data = binaryRead r order data)
          ∧ (∀ ctx : context, write ctx data = binaryWrite ctx.Order data)
          ∧ (∀ (ctx : context) r, read ctx r data = binaryRead r ctx.Order data)
          ∧ (∀ n, dataSize data = some n → Write order data = ⟨none, encodeValue order data⟩))
      ∧ Write ByteOrder.BigEndian (int32Array 1 2 3 4) = ⟨none, int32ArrayBytes⟩
      ∧ (Read int32ArrayBytes ByteOrder.BigEndian (int32Array 0 0 0 0)).err = none
      ∧ (Read int32ArrayBytes ByteOrder.BigEndian (int32Array 0 0 0 0)).data = int32Array 1 2 3 4
      ∧ (Read int32ArrayBytes ByteOrder.BigEndian (int32Array 0 0 0 0)).r = [] := by
  refine ⟨?_, by decide!, by decide!, Val.eq_of_beq _ _ (by decide!), by decide!⟩
  intro order data hdata
  have hw : ∀ ctx : context, write ctx data = binaryWrite ctx.Order data := by
    intro ctx
    cases data with
    | struct fs => exact absurd rfl (hdata fs)
    | scalar k x => simp only [write]
    | str s => simp only [write]
    | slice z es => simp only [write]
    | array z es => simp only [write]
  have hr : ∀ (ctx : context) r, read ctx r data = binaryRead r ctx.Order data := by
    intro ctx r
    cases data with
    | struct fs => exact absurd rfl (hdata fs)
    | scalar k x => simp only [read]
    | str s => simp only [read]
    | slice z es => simp only [read]
    | array z es => simp only [read]
  refine ⟨hw _, fun r => hr _ r, hw, hr, ?_⟩
  intro n hn
  have := hw (rootContext order)
  unfold Write
  rw [this]
  unfold binaryWrite
  simp only [hn, rootContext]

/-- C17, at the value `uint8(7)` under little-endian. -/
theorem primitive_pass_through_witness :
    (∀ fields, byteVal 7 ≠ .struct fields)
      ∧ Write ByteOrder.LittleEndian (byteVal 7) = binaryWrite ByteOrder.LittleEndian (byteVal 7) :=
  ⟨fun _ h => Val.noConfusion h,
    (primitive_pass_through.1 ByteOrder.LittleEndian (byteVal 7) (fun _ h => Val.noConfusion h)).1⟩



/-! ## What a context inherits -/

theorem contextFromTagItem_fields (tag : String) (ctx c : context) (item : String)
    (h : contextFromTagItem tag ctx item = .ok c) :
    c.SkipThis = (ctx.SkipThis || decide ((Cut item '=').1 = "-"))
      ∧ c.NullTerm = (ctx.NullTerm || decide ((Cut item '=').1 = "nt"))
      ∧ c.LenField = (if (Cut item '=').1 = "len" then (Cut item '=').2.1 else ctx.LenField)
      ∧ c.TagStr = ctx.TagStr := by
  unfold contextFromTagItem at h
  generalize (Cut item '=').1 = key at h ⊢
  generalize (Cut item '=').2.2 = hasVal at h
  generalize (Cut item '=').2.1 = val at h ⊢
  by_cases h1 : key = "le"
  · subst h1; cases hasVal <;> simp at h ⊢; rw [← h]; simp
  by_cases h2 : key = "be"
  · subst h2; cases hasVal <;> simp at h ⊢; rw [← h]; simp
  by_cases h3 : key = "ne"
  · subst h3; cases hasVal <;> simp at h ⊢; rw [← h]; simp
  by_cases h4 : key = "nt"
  · subst h4; cases hasVal <;> simp at h ⊢; rw [← h]; simp
  by_cases h5 : key = "len"
  · subst h5; cases hasVal <;> simp at h ⊢; rw [← h]; simp
  by_cases h6 : key = "-"
  · subst h6; cases hasVal <;> simp at h ⊢; rw [← h]; simp
  simp [h1, h2, h3, h4, h5, h6] at h

theorem contextFromTagLoop_fields (tag : String) (items : List String) :
    ∀ (ctx c : context), contextFromTagLoop tag items ctx = .ok c →
      c.SkipThis = (ctx.SkipThis || items.any (fun item => decide ((Cut item '=').1 = "-")))
        ∧ c.NullTerm = (ctx.NullTerm || items.any (fun item => decide ((Cut item '=').1 = "nt")))
        ∧ c.LenField = (itemsLenField items).getD ctx.LenField
        ∧ c.TagStr = ctx.TagStr := by
  induction items with
  | nil =>
    intro ctx c h
    simp only [contextFromTagLoop, Except.ok.injEq] at h
    subst h
    simp [itemsLenField]
  | cons item items ih =>
    intro ctx c h
    simp only [contextFromTagLoop] at h
    cases h1 : contextFromTagItem tag ctx item with
    | error e => rw [h1] at h; cases h
    | ok c1 =>
      rw [h1] at h
      obtain ⟨i1, i2, i3, i4⟩ := contextFromTagItem_fields tag ctx c1 item h1
      obtain ⟨l1, l2, l3, l4⟩ := ih c1 c h
      refine ⟨?_, ?_, ?_, ?_⟩
      · rw [l1, i1, List.any_cons, Bool.or_assoc]
      · rw [l2, i2, List.any_cons, Bool.or_assoc]
      · rw [l3, i3]
        simp only [itemsLenField]
        cases ho : itemsLenField items with
        | some v => simp
        | none =>
          by_cases hk : (Cut item '=').1 = "len" <;> simp [hk]
      · rw [l4, i4]

theorem contextFromTag_fields (parent c : context) (tag : String)
    (h : contextFromTag parent tag = .ok c) :
    c.SkipThis = tagSkip tag ∧ c.NullTerm = tagNullTerm tag ∧ c.LenField = tagLenField tag
      ∧ c.TagStr = tag := by
  unfold contextFromTag at h
  by_cases ht : tag = ""
  · subst ht
    simp only [if_true, Except.ok.injEq] at h
    subst h
    exact ⟨rfl, rfl, rfl, rfl⟩
  · simp only [ht, if_false] at h
    have := contextFromTagLoop_fields tag _ _ c h
    simpa [tagSkip, tagNullTerm, tagLenField] using this

theorem contextFromTag_accepts_any_parent (parent parent2 c : context) (tag : String)
    (h : contextFromTag parent tag = .ok c) : ∃ c2, contextFromTag parent2 tag = .ok c2 := by
  cases h2 : contextFromTag parent2 tag with
  | ok c2 => exact ⟨c2, rfl⟩
  | error e =>
    exfalso
    unfold contextFromTag at h h2
    by_cases ht : tag = ""
    · simp [ht] at h2
    · simp only [ht, if_false] at h h2
      have hbad := (contextFromTagLoop_error_iff tag _ _).mp ⟨e, h2⟩
      obtain ⟨e1, he1⟩ := (contextFromTagLoop_error_iff tag (Split tag ',')
        { TagStr := tag, Order := parent.Order, SkipThis := false, LenField := "",
          NullTerm := false }).mpr hbad
      rw [h] at he1
      cases he1

/-- C16 (context inheritance). For every parent context and every directive
that `contextFromTag` accepts, the byte order of the resulting context is the
one set by the last token `le`, `be` or `ne` of the directive, or the byte
order of the parent if the directive has none; its skip, lengthFieldName and
nullTerminated are given by the directive alone (the presence of `-`, the
value of the last `len=`, the presence of `nt`): the same directive under any
other parent is accepted too and gives the same three, and the empty
directive gives unset, empty and false. -/
theorem context_inheritance (parent c : context) (tag : String)
    (h : contextFromTag parent tag = .ok c) :
    c.Order = (tagOrder tag).getD parent.Order
      ∧ c.SkipThis = tagSkip tag ∧ c.LenField = tagLenField tag ∧ c.NullTerm = tagNullTerm tag
      ∧ c.TagStr = tag
      ∧ (∀ parent2 : context, ∃ c2, contextFromTag parent2 tag = .ok c2
          ∧ c2.SkipThis = c.SkipThis ∧ c2.LenField = c.LenField ∧ c2.NullTerm = c.NullTerm
          ∧ c2.Order = (tagOrder tag).getD parent2.Order)
      ∧ contextFromTag parent ""
        = .ok { TagStr := "", Order := parent.Order, SkipThis := false, LenField := "",
                NullTerm := false } := by
  obtain ⟨f1, f2, f3, f4⟩ := contextFromTag_fields parent c tag h
  refine ⟨contextFromTag_order parent c tag h, f1, f3, f2, f4, ?_, ?_⟩
  · intro parent2
    obtain ⟨c2, hc2⟩ := contextFromTag_accepts_any_parent parent parent2 c tag h
    obtain ⟨g1, g2, g3, _⟩ := contextFromTag_fields parent2 c2 tag hc2
    exact ⟨c2, hc2, by rw [g1, f1], by rw [g3, f3], by rw [g2, f2],
      contextFromTag_order parent2 c2 tag hc2⟩
  · simp [contextFromTag]

/-- C16, at the directive `le,len=N,be` under a parent that is native-endian,
skipped, null-terminated and sized by `M`. -/
theorem context_inheritance_witness :
    contextFromTag
        { TagStr := "-", Order := ByteOrder.NativeEndian, SkipThis := true, LenField := "M",
          NullTerm := true } "le,len=N,be"
        = .ok { TagStr := "le,len=N,be", Order := ByteOrder.BigEndian, SkipThis := false,
                LenField := "N", NullTerm := false }
      ∧ (tagOrder "le,len=N,be").getD ByteOrder.NativeEndian = ByteOrder.BigEndian
      ∧ tagSkip "le,len=N,be" = false ∧ tagLenField "le,len=N,be" = "N"
      ∧ tagNullTerm "le,len=N,be" = false
      ∧ ByteOrder.BigEndian = (tagOrder "le,len=N,be").getD ByteOrder.NativeEndian :=
  ⟨rfl, by decide, by decide, by decide, by decide,
    (context_inheritance
      { TagStr := "-", Order := ByteOrder.NativeEndian, SkipThis := true, LenField := "M",
        NullTerm := true }
      { TagStr := "le,len=N,be", Order := ByteOrder.BigEndian, SkipThis := false,
        LenField := "N", NullTerm := false } "le,len=N,be" rfl).1⟩



/-! ## The maps of the record schema -/

theorem visibleIdx_some {α : Type} (n : String) :
    ∀ (fs : List (Field α)) (i j : Nat), visibleIdx n fs i = some j →
      ∃ (k : Nat) (hk : k < fs.length), j = i + k ∧ (fs.get ⟨k, hk⟩).Name = n
        ∧ (fs.get ⟨k, hk⟩).Exported = true := by
  intro fs
  induction fs with
  | nil => intro i j h; simp [visibleIdx] at h
  | cons f rest ih =>
    intro i j h
    simp only [visibleIdx] at h
    cases hr : visibleIdx n rest (i + 1) with
    | some j1 =>
      rw [hr] at h
      simp only [Option.some.injEq] at h
      subst h
      obtain ⟨k, hk, h1, h2, h3⟩ := ih (i + 1) j1 hr
      exact ⟨k + 1, by simp; omega, by omega, by simpa using h2, by simpa using h3⟩
    | none =>
      rw [hr] at h
      by_cases hf : f.Exported = true ∧ f.Name = n
      · simp only [hf, and_self, if_true, Option.some.injEq] at h
        subst h
        exact ⟨0, by simp, by omega, by simpa using hf.2, by simpa using hf.1⟩
      · simp only [hf, if_false] at h
        cases h

theorem visibleIdx_none {α : Type} (n : String) :
    ∀ (fs : List (Field α)) (i : Nat), visibleIdx n fs i = none →
      ∀ f ∈ fs, f.Exported = true → f.Name ≠ n := by
  intro fs
  induction fs with
  | nil => intro i _ f hf; simp at hf
  | cons f rest ih =>
    intro i h g hg hex
    simp only [visibleIdx] at h
    cases hr : visibleIdx n rest (i + 1) with
    | some j1 => rw [hr] at h; cases h
    | none =>
      rw [hr] at h
      rcases List.mem_cons.mp hg with heq | hmem
      · subst heq
        intro hn
        simp [hex, hn] at h
      · exact ih (i + 1) hr g hmem hex

theorem visibleIdx_schema {α β : Type} (n : String) :
    ∀ (fs : List (Field α)) (gs : List (Field β)) (i : Nat),
      fs.map (fun f => (f.Name, f.Exported)) = gs.map (fun f => (f.Name, f.Exported)) →
      visibleIdx n fs i = visibleIdx n gs i := by
  intro fs
  induction fs with
  | nil =>
    intro gs i h
    cases gs with
    | nil => rfl
    | cons g gs => simp at h
  | cons f rest ih =>
    intro gs i h
    cases gs with
    | nil => simp at h
    | cons g gs =>
      simp only [List.map_cons, List.cons.injEq, Prod.mk.injEq] at h
      simp only [visibleIdx, ih gs (i + 1) h.2, h.1.1, h.1.2]

theorem getStructFieldInfoLoop_maps {α : Type} (ctx : context) :
    ∀ (fs : List (Field α)) (i : Nat) (acc acc' : StructFieldInfo),
      getStructFieldInfoLoop ctx fs i acc = .ok acc' →
      (∀ n, acc'.fieldIdxs n
          = (match visibleIdx n fs i with
             | some j => some j
             | none => acc.fieldIdxs n))
        ∧ (∀ n, (acc'.unexportedFields n).isSome = true
            ↔ ((acc.unexportedFields n).isSome = true ∨ ∃ f ∈ fs, f.Name = n ∧ f.Exported = false)) := by
  intro fs
  induction fs with
  | nil =>
    intro i acc acc' h
    simp only [getStructFieldInfoLoop, Except.ok.injEq] at h
    subst h
    simp [visibleIdx]
  | cons f rest ih =>
    intro i acc acc' h
    unfold getStructFieldInfoLoop at h
    by_cases hex : f.Exported = true
    · simp only [hex, Bool.not_true, Bool.false_eq_true, if_false] at h
      cases hc : contextFromTag ctx f.Tag with
      | error e => rw [hc] at h; cases h
      | ok c =>
        rw [hc] at h
        simp only at h
        obtain ⟨h1, h2⟩ := ih (i + 1) _ acc' h
        constructor
        · intro n
          rw [h1 n]
          simp only [visibleIdx]
          cases hr : visibleIdx n rest (i + 1) with
          | some j => rfl
          | none =>
            by_cases hn : f.Name = n
            · simp [GoMap.set, hex, hn]
            · have hn' : ¬ n = f.Name := fun h => hn h.symm
              simp [GoMap.set, hn, hn']
        · intro n
          rw [h2 n]
          constructor
          · rintro (h | ⟨g, hg, hgn, hge⟩)
            · exact Or.inl h
            · exact Or.inr ⟨g, List.mem_cons_of_mem _ hg, hgn, hge⟩
          · rintro (h | ⟨g, hg, hgn, hge⟩)
            · exact Or.inl h
            · rcases List.mem_cons.mp hg with heq | hmem
              · subst heq; rw [hex] at hge; cases hge
              · exact Or.inr ⟨g, hmem, hgn, hge⟩
    · simp only [Bool.not_eq_true] at hex
      simp only [hex, Bool.not_false, if_true] at h
      obtain ⟨h1, h2⟩ := ih (i + 1) _ acc' h
      constructor
      · intro n
        rw [h1 n]
        simp only [visibleIdx]
        cases hr : visibleIdx n rest (i + 1) with
        | some j => rfl
        | none => simp [hex]
      · intro n
        rw [h2 n]
        constructor
        · rintro (h | ⟨g, hg, hgn, hge⟩)
          · by_cases hn : n = f.Name
            · exact Or.inr ⟨f, List.mem_cons_self _ _, hn.symm, hex⟩
            · simp only [GoMap.set, hn, if_false] at h
              exact Or.inl h
          · exact Or.inr ⟨g, List.mem_cons_of_mem _ hg, hgn, hge⟩
        · rintro (h | ⟨g, hg, hgn, hge⟩)
          · by_cases hn : n = f.Name
            · left; simp [GoMap.set, hn]
            · left; simp only [GoMap.set, hn, if_false]; exact h
          · rcases List.mem_cons.mp hg with heq | hmem
            · subst heq
              left; simp [GoMap.set, hgn]
            · exact Or.inr ⟨g, hmem, hgn, hge⟩

theorem getStructFieldInfo_maps {α : Type} (ctx : context) (fs : List (Field α))
    (info : StructFieldInfo) (h : getStructFieldInfo ctx fs = .ok info) :
    (∀ n, info.fieldIdxs n = visibleIdx n fs 0)
      ∧ (∀ n, (info.unexportedFields n).isSome = true ↔ ∃ f ∈ fs, f.Name = n ∧ f.Exported = false)
      ∧ info.isLenField = markLenFields ctx info.fieldIdxs fs.length := by
  unfold getStructFieldInfo at h
  split at h
  · cases h
  · rename_i acc hacc
    cases h
    obtain ⟨h1, h2⟩ := getStructFieldInfoLoop_maps ctx fs 0 _ acc hacc
    refine ⟨?_, ?_, rfl⟩
    · intro n
      simp only
      rw [h1 n]
      cases visibleIdx n fs 0 <;> simp [GoMap.empty]
    · intro n
      simp only
      rw [h2 n]
      simp [GoMap.empty]



theorem markLenFields_isSome (ctx : context) (fieldIdxs : GoMap String Nat) :
    ∀ (numField j : Nat), (markLenFields ctx fieldIdxs numField j).isSome = true
      ↔ (0 < numField ∧ j = (fieldIdxs ctx.LenField).getD 0) := by
  intro numField
  induction numField with
  | zero => intro j; simp [markLenFields, GoMap.empty]
  | succ n ih =>
    intro j
    have hstep : markLenFields ctx fieldIdxs (n + 1)
        = (markLenFields ctx fieldIdxs n).set ((fieldIdxs ctx.LenField).getD 0) () := by
      simp only [markLenFields, List.range_succ, List.foldl_append, List.foldl_cons, List.foldl_nil]
    rw [hstep]
    by_cases hj : j = (fieldIdxs ctx.LenField).getD 0
    · simp [GoMap.set, hj]
    · simp only [GoMap.set, hj, if_false]
      rw [ih j]
      simp [hj]

theorem field_name_inj {α : Type} :
    ∀ (fs : List (Field α)), (fs.map (fun f => f.Name)).Nodup →
      ∀ (i j : Nat) (hi : i < fs.length) (hj : j < fs.length),
        (fs.get ⟨i, hi⟩).Name = (fs.get ⟨j, hj⟩).Name → i = j := by
  intro fs
  induction fs with
  | nil => intro _ i j hi; simp at hi
  | cons f rest ih =>
    intro hnd i j hi hj h
    simp only [List.map_cons, List.nodup_cons, List.mem_map, not_exists, not_and] at hnd
    cases i with
    | zero =>
      cases j with
      | zero => rfl
      | succ j =>
        exfalso
        simp only [List.get_eq_getElem, List.getElem_cons_zero, List.getElem_cons_succ] at h
        exact hnd.1 _ (List.getElem_mem _) h.symm
    | succ i =>
      cases j with
      | zero =>
        exfalso
        simp only [List.get_eq_getElem, List.getElem_cons_zero, List.getElem_cons_succ] at h
        exact hnd.1 _ (List.getElem_mem _) h
      | succ j =>
        simp only [List.get_eq_getElem, List.getElem_cons_succ] at h
        have := ih hnd.2 i j (by simpa using hi) (by simpa using hj) (by simpa using h)
        omega

theorem getSliceFieldLen_error_iff (c : context) (p : Nat) (fieldIdxs : GoMap String Nat)
    (unexportedFields : GoMap String Unit) (table : GoMap Nat Int) :
    (∃ msg, getSliceFieldLen c p fieldIdxs unexportedFields table = .error (Failure.goPanic msg))
      ↔ (c.LenField = "" ∨ (unexportedFields c.LenField).isSome = true
          ∨ fieldIdxs c.LenField = none ∨ ∃ idx, fieldIdxs c.LenField = some idx ∧ p ≤ idx) := by
  unfold getSliceFieldLen
  by_cases h1 : c.LenField = ""
  · simp [h1]
  by_cases h2 : (unexportedFields c.LenField).isSome = true
  · simp [h1, h2]
  cases h3 : fieldIdxs c.LenField with
  | none => simp [h1, h2]
  | some idx =>
    by_cases h4 : p ≤ idx
    · simp [h1, h2, h4]
    · simp [h1, h2, h4]

theorem getSliceFieldLen_ok (c : context) (p idx : Nat) (fieldIdxs : GoMap String Nat)
    (unexportedFields : GoMap String Unit) (table : GoMap Nat Int)
    (h1 : c.LenField ≠ "") (h2 : (unexportedFields c.LenField).isSome = false)
    (h3 : fieldIdxs c.LenField = some idx) (h4 : idx < p) :
    getSliceFieldLen c p fieldIdxs unexportedFields table = .ok ((table idx).getD 0) := by
  unfold getSliceFieldLen
  have h5 : ¬ idx ≥ p := by omega
  simp [h1, h2, h3, h5]



/-! ## The length resolver and the length sources -/

/-- C12 (length resolver lookup). For every record (its field names not
empty and the name of a visible field borne by no other field, as in Go, where
only the blank name may repeat), every table, field position `p` and length-field
name, `getSliceFieldLen` on the maps of the record fails, with a panic, if and
only if the name names no field of the record, names a field that is not
visible, or names a field whose position is not strictly less than `p`;
otherwise it returns what the table holds for the position of the named
field: the value stored there, and 0, the value of a missing key, when none
was stored. -/
theorem length_resolver_lookup (ctx0 c : context) (fields : List (Field Val))
    (info : StructFieldInfo) (p : Nat) (table : GoMap Nat Int)
    (hinfo : getStructFieldInfo ctx0 fields = .ok info)
    (hdistinct : ∀ (i j : Nat) (hi : i < fields.length) (hj : j < fields.length),
      (fields.get ⟨i, hi⟩).Exported = true →
      (fields.get ⟨i, hi⟩).Name = (fields.get ⟨j, hj⟩).Name → i = j)
    (hnonempty : ∀ f ∈ fields, f.Name ≠ "") :
    ((∃ msg, getSliceFieldLen c p info.fieldIdxs info.unexportedFields table
          = .error (Failure.goPanic msg))
        ↔ ((∀ f ∈ fields, f.Name ≠ c.LenField)
            ∨ (∃ f ∈ fields, f.Name = c.LenField ∧ f.Exported = false)
            ∨ (∃ (i : Nat) (hi : i < fields.length),
                (fields.get ⟨i, hi⟩).Name = c.LenField ∧ p ≤ i)))
      ∧ (∀ (i : Nat) (hi : i < fields.length), (fields.get ⟨i, hi⟩).Name = c.LenField →
          (fields.get ⟨i, hi⟩).Exported = true → i < p →
          getSliceFieldLen c p info.fieldIdxs info.unexportedFields table
              = .ok ((table i).getD 0)
            ∧ (∀ v, table i = some v →
                getSliceFieldLen c p info.fieldIdxs info.unexportedFields table = .ok v)) := by
  obtain ⟨hidx, hunexp, _⟩ := getStructFieldInfo_maps ctx0 fields info hinfo
  -- a visible field of the name fixes the index that the map holds
  have hvis : ∀ (i : Nat) (hi : i < fields.length), (fields.get ⟨i, hi⟩).Name = c.LenField →
      (fields.get ⟨i, hi⟩).Exported = true → info.fieldIdxs c.LenField = some i := by
    intro i hi hn hex
    rw [hidx]
    cases hv : visibleIdx c.LenField fields 0 with
    | none =>
      exact absurd hn (visibleIdx_none c.LenField fields 0 hv _ (List.get_mem _ _ _) hex)
    | some j =>
      obtain ⟨k, hk, hj, hkn, hke⟩ := visibleIdx_some c.LenField fields 0 j hv
      have := hdistinct k i hk hi hke (by rw [hkn, hn])
      rw [hj, this, Nat.zero_add]
  constructor
  · rw [getSliceFieldLen_error_iff]
    constructor
    · rintro (h | h | h | ⟨idx, h, hp⟩)
      · left
        intro f hf hn
        exact hnonempty f hf (by rw [hn, h])
      · right; left
        exact (hunexp _).mp h
      · rw [hidx] at h
        by_cases hex : ∃ f ∈ fields, f.Name = c.LenField
        · obtain ⟨f, hf, hn⟩ := hex
          right; left
          refine ⟨f, hf, hn, ?_⟩
          cases hfe : f.Exported with
          | false => rfl
          | true => exact absurd hn (visibleIdx_none c.LenField fields 0 h f hf hfe)
        · left
          intro f hf hn
          exact hex ⟨f, hf, hn⟩
      · rw [hidx] at h
        obtain ⟨k, hk, hj, hkn, _⟩ := visibleIdx_some c.LenField fields 0 idx h
        right; right
        exact ⟨k, hk, hkn, by omega⟩
    · rintro (h | ⟨f, hf, hn, hex⟩ | ⟨i, hi, hn, hp⟩)
      · right; right; left
        rw [hidx]
        cases hv : visibleIdx c.LenField fields 0 with
        | none => rfl
        | some j =>
          obtain ⟨k, hk, _, hkn, _⟩ := visibleIdx_some c.LenField fields 0 j hv
          exact absurd hkn (h _ (List.get_mem _ _ _))
      · right; left
        exact (hunexp _).mpr ⟨f, hf, hn, hex⟩
      · cases hex : (fields.get ⟨i, hi⟩).Exported with
        | false =>
          right; left
          exact (hunexp _).mpr ⟨_, List.get_mem _ _ _, hn, hex⟩
        | true =>
          right; right; right
          exact ⟨i, hvis i hi hn hex, hp⟩
  · intro i hi hn hex hp
    have h1 : c.LenField ≠ "" := by
      rw [← hn]; exact hnonempty _ (List.get_mem _ _ _)
    have h2 : (info.unexportedFields c.LenField).isSome = false := by
      cases hu : (info.unexportedFields c.LenField).isSome with
      | false => rfl
      | true =>
        obtain ⟨f, hf, hfn, hfe⟩ := (hunexp _).mp hu
        obtain ⟨k, hk⟩ := List.get_of_mem hf
        have hki : i = k.val := hdistinct i k.val hi k.isLt hex (by
          rw [show fields.get ⟨k.val, k.isLt⟩ = f from hk, hfn, hn])
        have hfi : fields.get ⟨i, hi⟩ = f := by
          subst hki; exact hk
        rw [hfi, hfe] at hex
        cases hex
    have hok := getSliceFieldLen_ok c p i info.fieldIdxs info.unexportedFields table h1 h2
      (hvis i hi hn hex) hp
    refine ⟨hok, ?_⟩
    intro v hv
    rw [hok, hv]
    rfl

/-- C12, at the record `{A uint8; N uint8; D []byte "len=N"}`, the field `D`
at position 2 and a table that holds 5 for position 1. -/
theorem length_resolver_lookup_witness :
    ∃ info,
      getStructFieldInfo (rootContext ByteOrder.BigEndian) (lateLenFields 0 5 []) = .ok info
        ∧ (∀ (i j : Nat) (hi : i < (lateLenFields 0 5 []).length)
            (hj : j < (lateLenFields 0 5 []).length),
            ((lateLenFields 0 5 []).get ⟨i, hi⟩).Exported = true →
            ((lateLenFields 0 5 []).get ⟨i, hi⟩).Name = ((lateLenFields 0 5 []).get ⟨j, hj⟩).Name →
            i = j)
        ∧ (∀ f ∈ lateLenFields 0 5 [], f.Name ≠ "")
        ∧ getSliceFieldLen
            { TagStr := "len=N", Order := ByteOrder.BigEndian, SkipThis := false,
              LenField := "N", NullTerm := false }
            2 info.fieldIdxs info.unexportedFields (GoMap.empty.set 1 5) = .ok 5 :=
  ⟨_, rfl,
    fun i j hi hj _ h => field_name_inj (lateLenFields 0 5 []) (by decide) i j hi hj h,
    by decide,
    ((length_resolver_lookup (rootContext ByteOrder.BigEndian)
      { TagStr := "len=N", Order := ByteOrder.BigEndian, SkipThis := false,
        LenField := "N", NullTerm := false }
      (lateLenFields 0 5 []) _ 2 (GoMap.empty.set 1 5) rfl
      (fun i j hi hj _ h => field_name_inj (lateLenFields 0 5 []) (by decide) i j hi hj h)
      (by decide)).2
        1 (by decide) rfl rfl (by decide)).2 5 rfl⟩

/-- C18 (length-source marking). For every record with at least one field
and every enclosing context, the positions that `getStructFieldInfo` marks in
`isLenField` are exactly one position: that of the visible field named by the
length-field name of the enclosing context (the last such field, should
several share the name), and position 0 when no visible field of the record
has that name, as when the name is empty. The marked position is the same
for every record with the same field names and visibilities: it does not
depend on the directives of the record's own fields. -/
theorem length_source_marking (ctx : context) (fields : List (Field Val))
    (info : StructFieldInfo) (hinfo : getStructFieldInfo ctx fields = .ok info)
    (hfields : fields ≠ []) :
    (∀ j, (info.isLenField j).isSome = true ↔ j = (visibleIdx ctx.LenField fields 0).getD 0)
      ∧ ((∀ f ∈ fields, f.Exported = true → f.Name ≠ ctx.LenField) →
          ∀ j, (info.isLenField j).isSome = true ↔ j = 0)
      ∧ (ctx.LenField = "" → (∀ f ∈ fields, f.Name ≠ "") →
          ∀ j, (info.isLenField j).isSome = true ↔ j = 0)
      ∧ (∀ (p : Nat) (hp : p < fields.length), (fields.get ⟨p, hp⟩).Exported = true →
          (fields.get ⟨p, hp⟩).Name = ctx.LenField →
          (∀ (q : Nat) (hq : q < fields.length), (fields.get ⟨q, hq⟩).Exported = true →
            (fields.get ⟨q, hq⟩).Name = ctx.LenField → q = p) →
          ∀ j, (info.isLenField j).isSome = true ↔ j = p)
      ∧ (∀ (fields2 : List (Field Val)) (info2 : StructFieldInfo),
          getStructFieldInfo ctx fields2 = .ok info2 →
          fields2.map (fun f => (f.Name, f.Exported)) = fields.map (fun f => (f.Name, f.Exported)) →
          ∀ j, (info2.isLenField j).isSome = (info.isLenField j).isSome) := by
  obtain ⟨hidx, _, hlen⟩ := getStructFieldInfo_maps ctx fields info hinfo
  have hpos : 0 < fields.length := by
    cases fields with
    | nil => exact absurd rfl hfields
    | cons f rest => simp
  have hmain : ∀ j, (info.isLenField j).isSome = true
      ↔ j = (visibleIdx ctx.LenField fields 0).getD 0 := by
    intro j
    rw [hlen, markLenFields_isSome, hidx]
    simp [hpos]
  have hzero : (∀ f ∈ fields, f.Exported = true → f.Name ≠ ctx.LenField) →
      ∀ j, (info.isLenField j).isSome = true ↔ j = 0 := by
    intro hnone j
    rw [hmain j]
    cases hv : visibleIdx ctx.LenField fields 0 with
    | none => simp
    | some k =>
      obtain ⟨q, hq, _, hqn, hqe⟩ := visibleIdx_some ctx.LenField fields 0 k hv
      exact absurd hqn (hnone _ (List.get_mem _ _ _) hqe)
  refine ⟨hmain, hzero, ?_, ?_, ?_⟩
  · intro hempty hnames
    exact hzero (fun f hf _ hn => hnames f hf (by rw [hn, hempty]))
  · intro p hp hex hn huniq j
    rw [hmain j]
    cases hv : visibleIdx ctx.LenField fields 0 with
    | none => exact absurd hn (visibleIdx_none ctx.LenField fields 0 hv _ (List.get_mem _ _ _) hex)
    | some k =>
      obtain ⟨q, hq, hk, hqn, hqe⟩ := visibleIdx_some ctx.LenField fields 0 k hv
      have := huniq q hq hqe hqn
      simp only [Option.getD_some]
      rw [hk, this, Nat.zero_add]
  · intro fields2 info2 hinfo2 hschema j
    obtain ⟨hidx2, _, hlen2⟩ := getStructFieldInfo_maps ctx fields2 info2 hinfo2
    have hl : fields2.length = fields.length := by
      have := congrArg List.length hschema
      simpa using this
    have hi : info2.fieldIdxs ctx.LenField = info.fieldIdxs ctx.LenField := by
      rw [hidx2, hidx]
      exact visibleIdx_schema ctx.LenField fields2 fields 0 hschema
    rw [hlen, hlen2]
    simp only [markLenFields, hl, hi]

/-- C18, at the record `{A uint8; N uint8; D []byte "len=N"}` under the root
context: position 0 is marked, positions 1 and 2 are not. -/
theorem length_source_marking_witness :
    ∃ info,
      getStructFieldInfo (rootContext ByteOrder.BigEndian) (lateLenFields 0 2 []) = .ok info
        ∧ lateLenFields 0 2 [] ≠ []
        ∧ (∀ j, (info.isLenField j).isSome = true
            ↔ j = (visibleIdx (rootContext ByteOrder.BigEndian).LenField (lateLenFields 0 2 []) 0).getD 0)
        ∧ (visibleIdx (rootContext ByteOrder.BigEndian).LenField (lateLenFields 0 2 []) 0).getD 0 = 0 :=
  ⟨_, rfl, List.cons_ne_nil _ _,
    (length_source_marking (rootContext ByteOrder.BigEndian) (lateLenFields 0 2 []) _ rfl
      (List.cons_ne_nil _ _)).1,
    by decide⟩



/-! ## A read that fails -/

theorem readFields_cons (info : StructFieldInfo) (lv : GoMap Nat Int) (i : Nat) (r : List Nat)
    (nm : String) (ex : Bool) (tg : String) (fV : Val) (rest : List (Field Val)) :
    readFields info lv i r (⟨nm, ex, tg, fV⟩ :: rest)
      = readStep info lv i r nm ex tg fV rest (fun ctx => readSwitch info lv i r ctx fV)
          (fun r1 lv1 => readFields info lv1 (i + 1) r1 rest) := by
  cases fV <;> simp only [readFields, readSwitch]

theorem readFields_body_fails (info : StructFieldInfo) (lv : GoMap Nat Int) (i : Nat) (r : List Nat)
    (nm : String) (ex : Bool) (tg : String) (fV : Val) (rest : List (Field Val)) (c : context)
    (e : Failure) (hgo : fieldGate info i nm ex fV.kind = FieldGate.go c)
    (hfail : (readSwitch info lv i r c fV).err = some e) :
    readFields info lv i r (⟨nm, ex, tg, fV⟩ :: rest)
      = (some e, ⟨nm, ex, tg, (readSwitch info lv i r c fV).data⟩ :: rest,
          (readSwitch info lv i r c fV).r, lv) := by
  rw [readFields_cons]
  unfold readStep
  simp only [hgo, hfail]

theorem ReadFull_short (r : List Nat) (n : Nat) (h : r.length < n) :
    ReadFull r n
      = (.error (Failure.goError (if r = [] then "EOF" else "unexpected EOF")), []) := by
  unfold ReadFull
  have h1 : ¬ n ≤ r.length := by omega
  rw [if_neg h1]
  by_cases h2 : r = []
  · rw [if_pos h2, if_pos h2]
  · rw [if_neg h2, if_neg h2]

theorem readNullTerm_exhausted : ∀ (r : List Nat), 0 ∉ r →
    readNullTerm r = (.error (Failure.goError "EOF"), [])
  | [], _ => by simp [readNullTerm]
  | b :: r, h => by
    have hb : ¬ b = 0 := fun hb => h (by simp [hb])
    have hr : 0 ∉ r := fun hr => h (List.mem_cons_of_mem _ hr)
    simp only [readNullTerm, hb, if_false, readNullTerm_exhausted r hr]

theorem readElems_succ (rd : List Nat → ReadResult) (z : Val) (n : Nat) (r : List Nat) :
    readElems rd z (n + 1) r
      = (match (rd r).err with
         | some e => (some e, (rd r).data :: List.replicate n z, (rd r).r)
         | none =>
           ((readElems rd z n (rd r).r).1, (rd r).data :: (readElems rd z n (rd r).r).2.1,
             (readElems rd z n (rd r).r).2.2)) := by
  simp only [readElems]

theorem readElems_fails (rd : List Nat → ReadResult) (z : Val) (e : Failure) :
    ∀ (n : Nat) (r : List Nat) (vs : List Val) (r1 : List Nat) (m : Nat),
      readElems rd z n r = (none, vs, r1) → (rd r1).err = some e →
      readElems rd z (n + (m + 1)) r
        = (some e, vs ++ (rd r1).data :: List.replicate m z, (rd r1).r) := by
  intro n
  induction n with
  | zero =>
    intro r vs r1 m h hf
    simp only [readElems, Prod.mk.injEq, true_and] at h
    obtain ⟨h1, h2⟩ := h
    subst h1 h2
    rw [Nat.zero_add, readElems_succ, hf]
    rfl
  | succ n ih =>
    intro r vs r1 m h hf
    rw [readElems_succ] at h
    cases he : (rd r).err with
    | some e1 => rw [he] at h; simp at h
    | none =>
      rw [he] at h
      simp only [Prod.mk.injEq] at h
      obtain ⟨h1, h2, h3⟩ := h
      have hrec := ih (rd r).r (readElems rd z n (rd r).r).2.1 r1 m (by rw [← h1, ← h3]) hf
      rw [show n + 1 + (m + 1) = (n + (m + 1)) + 1 by omega, readElems_succ, he]
      simp only [hrec, ← h2, List.cons_append]

/-! ## A stream that ends too early -/

theorem ReadFull_ok (r : List Nat) (n : Nat) (h : n ≤ r.length) :
    ReadFull r n = (.ok (r.take n), r.drop n) := by
  unfold ReadFull
  rw [if_pos h]

theorem ReadFull_short_eof (r : List Nat) (n : Nat) (h : r.length < n) :
    ∃ e, ReadFull r n = (.error e, []) ∧ endOfStream (some e) := by
  refine ⟨_, ReadFull_short r n h, ?_⟩
  unfold endOfStream
  by_cases h2 : r = []
  · left; rw [if_pos h2]
  · right; rw [if_neg h2]

theorem ReadFull_append (u t : List Nat) : ReadFull (u ++ t) u.length = (.ok u, t) := by
  rw [ReadFull_ok _ _ (by simp)]
  simp

theorem binaryRead_consumes (order : ByteOrder) (v : Val) :
    Consumes (fun r => binaryRead r order v) := by
  intro r h
  simp only [binaryRead] at h ⊢
  cases hds : dataSize v with
  | none => rw [hds] at h; simp at h
  | some n =>
    rw [hds] at h
    simp only at h ⊢
    by_cases hn : n ≤ r.length
    · rw [ReadFull_ok r n hn] at h ⊢
      simp only at h ⊢
      have hlen : (r.take n).length = n := by simp [hn]
      refine ⟨r.take n, (List.take_append_drop n r).symm, ?_, ?_⟩
      · intro t
        have := ReadFull_append (r.take n) t
        rw [hlen] at this
        rw [this]
        simp only [h]
      · intro k hk
        rw [hlen] at hk
        obtain ⟨e, he, heof⟩ := ReadFull_short_eof ((r.take n).take k) n (by
          rw [List.length_take, List.length_take]; omega)
        rw [he]
        exact heof
    · obtain ⟨e, he, _⟩ := ReadFull_short_eof r n (by omega)
      rw [he] at h
      simp at h

theorem readNullTerm_cons (b : Nat) (r : List Nat) (hb : ¬ b = 0) :
    readNullTerm (b :: r)
      = (match readNullTerm r with
         | (.ok s, r1) => (.ok (b :: s), r1)
         | (.error e, r1) => (.error e, r1)) := by
  simp only [readNullTerm, hb, if_false]

theorem readNullTerm_consumes : ∀ (r s r' : List Nat), readNullTerm r = (.ok s, r') →
    r = (s ++ [0]) ++ r'
      ∧ (∀ t, readNullTerm ((s ++ [0]) ++ t) = (.ok s, t))
      ∧ (∀ k, k < (s ++ [0]).length →
          readNullTerm ((s ++ [0]).take k) = (.error (Failure.goError "EOF"), []))
  | [], s, r', h => by simp [readNullTerm] at h
  | b :: r, s, r', h => by
    by_cases hb : b = 0
    · simp only [readNullTerm, hb, if_true, Prod.mk.injEq, Except.ok.injEq] at h
      obtain ⟨h1, h2⟩ := h
      subst h1 h2 hb
      refine ⟨by simp, ?_, ?_⟩
      · intro t
        simp [readNullTerm]
      · intro k hk
        have hk0 : k = 0 := by simpa using hk
        subst hk0
        simp [readNullTerm]
    · simp only [readNullTerm, hb, if_false] at h
      cases hrec : readNullTerm r with
      | mk res r1 =>
        cases res with
        | error e => rw [hrec] at h; simp at h
        | ok s1 =>
          rw [hrec] at h
          simp only [Prod.mk.injEq, Except.ok.injEq] at h
          obtain ⟨h1, h2⟩ := h
          subst h1 h2
          obtain ⟨ih1, ih2, ih3⟩ := readNullTerm_consumes r s1 r1 hrec
          refine ⟨?_, ?_, ?_⟩
          · rw [ih1]; simp
          · intro t
            have := ih2 t
            show readNullTerm (b :: ((s1 ++ [0]) ++ t)) = _
            rw [readNullTerm_cons _ _ hb, this]
          · intro k hk
            cases k with
            | zero => simp [readNullTerm]
            | succ k =>
              have hk2 : k < (s1 ++ [0]).length := by
                simp only [List.cons_append, List.length_cons] at hk
                omega
              have := ih3 k hk2
              have htk : List.take (k + 1) (b :: s1 ++ [0]) = b :: (s1 ++ [0]).take k := by
                simp
              rw [htk, readNullTerm_cons _ _ hb, this]

theorem readString_consumes (info : StructFieldInfo) (lv : GoMap Nat Int) (i : Nat) (ctx : context)
    (s : List Nat) : Consumes (fun r => readString info lv i r ctx s) := by
  intro r h
  simp only [readString] at h ⊢
  by_cases hnt : ctx.NullTerm = true
  · simp only [hnt, if_true] at h ⊢
    cases hrec : readNullTerm r with
    | mk res r1 =>
      cases res with
      | error e => rw [hrec] at h; simp at h
      | ok s1 =>
        obtain ⟨h1, h2, h3⟩ := readNullTerm_consumes r s1 r1 hrec
        refine ⟨s1 ++ [0], h1, ?_, ?_⟩
        · intro t
          rw [h2 t]
        · intro k hk
          rw [h3 k hk]
          exact Or.inl rfl
  · simp only [hnt, Bool.false_eq_true, if_false] at h ⊢
    by_cases hlf : (ctx.LenField != "") = true
    · simp only [hlf, if_true] at h ⊢
      cases hlen : getSliceFieldLen ctx i info.fieldIdxs info.unexportedFields lv with
      | error e => rw [hlen] at h; simp at h
      | ok len =>
        rw [hlen] at h
        simp only at h ⊢
        by_cases hbad : len < 0 ∨ len.toNat > maxAlloc
        · rw [if_pos hbad] at h; simp at h
        · simp only [if_neg hbad] at h ⊢
          by_cases hn : len.toNat ≤ r.length
          · rw [ReadFull_ok r _ hn] at h ⊢
            simp only at h ⊢
            have hl : (r.take len.toNat).length = len.toNat := by simp [hn]
            refine ⟨r.take len.toNat, (List.take_append_drop _ r).symm, ?_, ?_⟩
            · intro t
              have := ReadFull_append (r.take len.toNat) t
              rw [hl] at this
              rw [this]
            · intro k hk
              rw [hl] at hk
              obtain ⟨e, he, heof⟩ := ReadFull_short_eof ((r.take len.toNat).take k) len.toNat (by
                rw [List.length_take, List.length_take]; omega)
              rw [he]
              exact heof
          · obtain ⟨e, he, _⟩ := ReadFull_short_eof r len.toNat (by omega)
            rw [he] at h
            simp at h
    · simp only [hlf, Bool.false_eq_true, if_false] at h ⊢
      exact ⟨[], by simp, fun t => by simp, fun k hk => by simp at hk⟩

theorem readElems_consumes (rd : List Nat → ReadResult) (z : Val) (hrd : Consumes rd) :
    ∀ (n : Nat) (r : List Nat), (readElems rd z n r).1 = none →
      ∃ used, r = used ++ (readElems rd z n r).2.2
        ∧ (∀ t, readElems rd z n (used ++ t) = (none, (readElems rd z n r).2.1, t))
        ∧ (∀ k, k < used.length → endOfStream (readElems rd z n (used.take k)).1) := by
  intro n
  induction n with
  | zero =>
    intro r _
    exact ⟨[], by simp [readElems], fun t => by simp [readElems], fun k hk => by simp at hk⟩
  | succ n ih =>
    intro r h
    rw [readElems_succ] at h ⊢
    cases he : (rd r).err with
    | some e => rw [he] at h; simp at h
    | none =>
      rw [he] at h
      simp only at h ⊢
      obtain ⟨u1, hu1, hloc1, htr1⟩ := hrd r he
      obtain ⟨u2, hu2, hloc2, htr2⟩ := ih (rd r).r h
      refine ⟨u1 ++ u2, ?_, ?_, ?_⟩
      · rw [List.append_assoc, ← hu2, ← hu1]
      · intro t
        rw [readElems_succ, List.append_assoc, hloc1 (u2 ++ t)]
        simp only [hloc2 t]
      · intro k hk
        rw [readElems_succ]
        by_cases hk1 : k < u1.length
        · rw [List.take_append_of_le_length (by omega)]
          have := htr1 k hk1
          cases hf : (rd (u1.take k)).err with
          | none =>
            rw [hf] at this
            cases this with
            | inl h0 => cases h0
            | inr h0 => cases h0
          | some e =>
            rw [hf] at this
            simp only
            exact this
        · have hk2 : k - u1.length < u2.length := by
            rw [List.length_append] at hk; omega
          have htk : (u1 ++ u2).take k = u1 ++ u2.take (k - u1.length) := by
            rw [List.take_append_eq_append_take, List.take_of_length_le (by omega)]
          rw [htk, hloc1 (u2.take (k - u1.length))]
          simp only
          exact htr2 _ hk2

theorem readSlice_consumes (info : StructFieldInfo) (lv : GoMap Nat Int) (i : Nat) (ctx : context)
    (z : Val) (elems : List Val) (rd : List Nat → ReadResult) (hrd : Consumes rd) :
    Consumes (fun r => readSlice info lv i r ctx z elems rd) := by
  intro r h
  simp only [readSlice] at h ⊢
  cases hlen : getSliceFieldLen ctx i info.fieldIdxs info.unexportedFields lv with
  | error e => rw [hlen] at h; simp at h
  | ok len =>
    rw [hlen] at h
    simp only at h ⊢
    by_cases hneg : len < 0
    · rw [if_pos hneg] at h; simp at h
    · simp only [if_neg hneg] at h ⊢
      by_cases hbig : len ≠ 1 ∧ len.toNat * memSize z > maxAlloc
      · rw [if_pos hbig] at h; simp at h
      · simp only [if_neg hbig] at h ⊢
        obtain ⟨used, h1, h2, h3⟩ := readElems_consumes rd z hrd len.toNat r h
        refine ⟨used, h1, ?_, h3⟩
        intro t
        rw [h2 t]

theorem endOfStream_some (o : Option Failure) (h : endOfStream o) : ∃ e, o = some e := by
  cases h with
  | inl h => exact ⟨_, h⟩
  | inr h => exact ⟨_, h⟩

theorem readStep_consumes (info : StructFieldInfo) (lv : GoMap Nat Int) (i : Nat)
    (nm : String) (ex : Bool) (tg : String) (fV : Val) (rest : List (Field Val))
    (body : List Nat → context → ReadResult) (cont : List Nat → GoMap Nat Int → FieldsRead)
    (hbody : ∀ c, Consumes (fun r => body r c))
    (hcont : ∀ lv1, ConsumesFields (fun r => cont r lv1) rest) :
    ConsumesFields (fun r => readStep info lv i r nm ex tg fV rest (body r) cont)
      (⟨nm, ex, tg, fV⟩ :: rest) := by
  intro r h
  simp only [readStep] at h ⊢
  cases hg : fieldGate info i nm ex fV.kind with
  | fail e => rw [hg] at h; simp at h
  | skip =>
    rw [hg] at h
    simp only at h ⊢
    obtain ⟨used, h1, h2, h3⟩ := hcont lv r h
    refine ⟨used, h1, ?_, ?_⟩
    · intro t
      have := h2 t
      simp only at this
      rw [this]
    · intro k hk
      obtain ⟨heof, j, hj, htake, hdrop, hlen⟩ := h3 k hk
      refine ⟨heof, j + 1, by simp only [List.length_cons]; omega, ?_, ?_, ?_⟩
      · simp only [List.take_succ_cons]
        rw [htake]
      · simp only [List.drop_succ_cons]
        exact hdrop
      · simp only [List.length_cons]
        rw [hlen]
  | go c =>
    rw [hg] at h
    simp only at h ⊢
    cases hb : (body r c).err with
    | some e => rw [hb] at h; simp at h
    | none =>
      rw [hb] at h
      simp only at h ⊢
      cases hl : recordLenField info lv i (body r c).data with
      | error e => rw [hl] at h; simp at h
      | ok lv1 =>
        rw [hl] at h
        simp only at h ⊢
        obtain ⟨u1, hu1, hloc1, htr1⟩ := hbody c r hb
        obtain ⟨u2, hu2, hloc2, htr2⟩ := hcont lv1 (body r c).r h
        simp only at hloc1 htr1 hloc2 htr2 hu1 hu2
        refine ⟨u1 ++ u2, ?_, ?_, ?_⟩
        · rw [List.append_assoc, ← hu2, ← hu1]
        · intro t
          rw [List.append_assoc, hloc1 (u2 ++ t)]
          simp only [hl, hloc2 t]
        · intro k hk
          by_cases hk1 : k < u1.length
          · rw [List.take_append_of_le_length (by omega)]
            have heof := htr1 k hk1
            obtain ⟨e, he⟩ := endOfStream_some _ heof
            rw [he] at heof
            simp only [he]
            exact ⟨heof, 0, by simp, by simp, by simp, by simp⟩
          · have hk2 : k - u1.length < u2.length := by
              rw [List.length_append] at hk; omega
            have htk : (u1 ++ u2).take k = u1 ++ u2.take (k - u1.length) := by
              rw [List.take_append_eq_append_take, List.take_of_length_le (by omega)]
            rw [htk, hloc1 (u2.take (k - u1.length))]
            simp only [hl]
            obtain ⟨heof, j, hj, htake, hdrop, hlen⟩ := htr2 _ hk2
            refine ⟨heof, j + 1, by simp only [List.length_cons]; omega, ?_, ?_, ?_⟩
            · simp only [List.take_succ_cons]
              rw [htake]
            · simp only [List.drop_succ_cons]
              exact hdrop
            · simp only [List.length_cons]
              rw [hlen]

theorem readFields_cons_consumes (info : StructFieldInfo) (lv : GoMap Nat Int) (i : Nat)
    (nm : String) (ex : Bool) (tg : String) (fV : Val) (rest : List (Field Val))
    (hbody : ∀ c, Consumes (fun r => readSwitch info lv i r c fV))
    (hrest : ∀ lv1, ConsumesFields (fun r => readFields info lv1 (i + 1) r rest) rest) :
    ConsumesFields (fun r => readFields info lv i r (⟨nm, ex, tg, fV⟩ :: rest))
      (⟨nm, ex, tg, fV⟩ :: rest) := by
  have := readStep_consumes info lv i nm ex tg fV rest
    (fun r c => readSwitch info lv i r c fV)
    (fun r1 lv1 => readFields info lv1 (i + 1) r1 rest) hbody hrest
  simp only [readFields_cons]
  exact this

mutual
theorem read_consumes : ∀ (v : Val) (ctx : context), Consumes (fun r => read ctx r v)
  | .struct fs, ctx => by
    intro r h
    simp only [read] at h ⊢
    cases hinfo : getStructFieldInfo ctx fs with
    | error e => rw [hinfo] at h; simp at h
    | ok info =>
      rw [hinfo] at h
      simp only at h ⊢
      obtain ⟨used, h1, h2, h3⟩ := readFields_consumes fs info GoMap.empty 0 r h
      simp only at h1 h2 h3
      refine ⟨used, h1, ?_, ?_⟩
      · intro t
        rw [h2 t]
      · intro k hk
        exact (h3 k hk).1
  | .scalar k x, ctx => by
    simp only [read]
    exact binaryRead_consumes _ _
  | .str s, ctx => by
    simp only [read]
    exact binaryRead_consumes _ _
  | .slice z es, ctx => by
    simp only [read]
    exact binaryRead_consumes _ _
  | .array z es, ctx => by
    simp only [read]
    exact binaryRead_consumes _ _
theorem readFields_consumes : ∀ (fs : List (Field Val)) (info : StructFieldInfo)
    (lv : GoMap Nat Int) (i : Nat), ConsumesFields (fun r => readFields info lv i r fs) fs
  | [], info, lv, i => by
    intro r _
    exact ⟨[], by simp [readFields], fun t => by simp [readFields], fun k hk => by simp at hk⟩
  | ⟨nm, ex, tg, .slice z es⟩ :: rest, info, lv, i =>
    readFields_cons_consumes info lv i nm ex tg _ rest
      (fun c => by
        simp only [readSwitch]
        exact readSlice_consumes info lv i c z es _ (read_consumes z c))
      (fun lv1 => readFields_consumes rest info lv1 (i + 1))
  | ⟨nm, ex, tg, .str s⟩ :: rest, info, lv, i =>
    readFields_cons_consumes info lv i nm ex tg _ rest
      (fun c => by
        simp only [readSwitch]
        exact readString_consumes info lv i c s)
      (fun lv1 => readFields_consumes rest info lv1 (i + 1))
  | ⟨nm, ex, tg, .scalar k x⟩ :: rest, info, lv, i =>
    readFields_cons_consumes info lv i nm ex tg _ rest
      (fun c => by
        simp only [readSwitch]
        exact read_consumes (.scalar k x) c)
      (fun lv1 => readFields_consumes rest info lv1 (i + 1))
  | ⟨nm, ex, tg, .array z es⟩ :: rest, info, lv, i =>
    readFields_cons_consumes info lv i nm ex tg _ rest
      (fun c => by
        simp only [readSwitch]
        exact read_consumes (.array z es) c)
      (fun lv1 => readFields_consumes rest info lv1 (i + 1))
  | ⟨nm, ex, tg, .struct fs⟩ :: rest, info, lv, i =>
    readFields_cons_consumes info lv i nm ex tg _ rest
      (fun c => by
        simp only [readSwitch]
        exact read_consumes (.struct fs) c)
      (fun lv1 => readFields_consumes rest info lv1 (i + 1))
end

/-- A length above the allocation limit. Reading `40 00 00 00 00 00 00 00 07`
into `{N uint64; S string "len=N"}` and into `{N uint64; D []byte "len=N"}`
resolves the length 2^62; the allocation of the buffer panics, and the byte
`07` is left in the stream. -/
theorem read_length_above_limit_panics :
    (Read [0x40, 0, 0, 0, 0, 0, 0, 0, 7] ByteOrder.BigEndian
        (.struct [⟨"N", true, "", .scalar Kind.uint64 0⟩, ⟨"S", true, "len=N", .str []⟩])).err
      = some (Failure.goPanic "runtime error: makeslice: len out of range")
    ∧ (Read [0x40, 0, 0, 0, 0, 0, 0, 0, 7] ByteOrder.BigEndian
        (.struct [⟨"N", true, "", .scalar Kind.uint64 0⟩, ⟨"S", true, "len=N", .str []⟩])).r = [7]
    ∧ (Read [0x40, 0, 0, 0, 0, 0, 0, 0, 7] ByteOrder.BigEndian (wideLenRecord 0 [])).err
      = some (Failure.goPanic "runtime: allocation size out of range")
    ∧ (Read [0x40, 0, 0, 0, 0, 0, 0, 0, 7] ByteOrder.BigEndian (wideLenRecord 0 [])).r = [7] := by
  decide!

/-- C15 (read failure propagation without rollback). Whenever `read` succeeds
on a record and a stream `r` (`Read` is `read` in the root context), it fails
on every stream that ends before the last byte that this read consumes, that
is on `r` cut after `k` bytes for every `k` below the number of bytes consumed:
wherever the cut falls, before or part-way through a fixed-width scalar,
before the zero terminator of a null-terminated string, part-way through a
length-sized string or slice, at any depth of nesting. The failure is `io.EOF`
or `io.ErrUnexpectedEOF`, and there is no rollback: for some field `j` the
fields before `j` hold the values that the complete read decodes for them, and
the fields after `j` are as they were before the call. Moreover, in the walk
over a record whose directives parse, when the fields before a visible field
not marked skip have been read and the read of that field fails in any way,
`read` returns that failure; the fields before it keep the values decoded for
them, the failing field holds what was read into it, the fields after it are
untouched. A stream that is exhausted makes the read of a field fail: one
shorter than a fixed-width scalar, one without a zero byte at a
null-terminated string, one shorter than a length-sized string whose buffer
can be allocated, and one that fails an element of a slice whose elements can
be allocated, after the elements before it have been read. -/
theorem read_failure_propagates :
    (∀ (ctx : context) (fields : List (Field Val)) (r : List Nat) (k : Nat),
        (read ctx r (.struct fields)).err = none →
        k + (read ctx r (.struct fields)).r.length < r.length →
        endOfStream (read ctx (r.take k) (.struct fields)).err
          ∧ ∃ (j : Nat) (full cut : List (Field Val)), j < fields.length
              ∧ (read ctx r (.struct fields)).data = .struct full
              ∧ (read ctx (r.take k) (.struct fields)).data = .struct cut
              ∧ cut.length = fields.length
              ∧ cut.take j = full.take j
              ∧ cut.drop (j + 1) = fields.drop (j + 1))
      ∧ (∀ (ctx c : context) (pre post : List (Field Val)) (nm tg : String) (ex : Bool) (fV : Val)
        (info : StructFieldInfo) (r : List Nat) (e : Failure),
        getStructFieldInfo ctx (pre ++ ⟨nm, ex, tg, fV⟩ :: post) = .ok info →
        (readFields info GoMap.empty 0 r pre).1 = none →
        fieldGate info pre.length nm ex fV.kind = FieldGate.go c →
        (readSwitch info (readFields info GoMap.empty 0 r pre).2.2.2 pre.length
            (readFields info GoMap.empty 0 r pre).2.2.1 c fV).err = some e →
        read ctx r (.struct (pre ++ ⟨nm, ex, tg, fV⟩ :: post))
          = ⟨some e,
              .struct ((readFields info GoMap.empty 0 r pre).2.1
                ++ ⟨nm, ex, tg, (readSwitch info (readFields info GoMap.empty 0 r pre).2.2.2
                      pre.length (readFields info GoMap.empty 0 r pre).2.2.1 c fV).data⟩ :: post),
              (readSwitch info (readFields info GoMap.empty 0 r pre).2.2.2 pre.length
                (readFields info GoMap.empty 0 r pre).2.2.1 c fV).r⟩)
      ∧ (∀ (info : StructFieldInfo) (lv : GoMap Nat Int) (i : Nat) (c : context) (r : List Nat)
          (k : Kind) (x : Int) (n : Nat), k.size = some n → r.length < n →
          readSwitch info lv i r c (.scalar k x)
            = ⟨some (Failure.goError (if r = [] then "EOF" else "unexpected EOF")),
                .scalar k x, []⟩)
      ∧ (∀ (info : StructFieldInfo) (lv : GoMap Nat Int) (i : Nat) (c : context) (r s : List Nat),
          c.NullTerm = true → 0 ∉ r →
          readSwitch info lv i r c (.str s) = ⟨some (Failure.goError "EOF"), .str s, []⟩)
      ∧ (∀ (info : StructFieldInfo) (lv : GoMap Nat Int) (i : Nat) (c : context) (r s : List Nat)
          (len : Int), c.NullTerm = false → c.LenField ≠ "" →
          getSliceFieldLen c i info.fieldIdxs info.unexportedFields lv = .ok len →
          len.toNat ≤ maxAlloc → (r.length : Int) < len →
          readSwitch info lv i r c (.str s)
            = ⟨some (Failure.goError (if r = [] then "EOF" else "unexpected EOF")), .str s, []⟩)
      ∧ (∀ (info : StructFieldInfo) (lv : GoMap Nat Int) (i : Nat) (c : context) (r : List Nat)
          (z : Val) (elems vs : List Val) (n m : Nat) (r1 : List Nat) (e : Failure),
          getSliceFieldLen c i info.fieldIdxs info.unexportedFields lv
            = .ok ((n + (m + 1) : Nat) : Int) →
          (n + (m + 1)) * memSize z ≤ maxAlloc →
          readElems (fun r0 => read c r0 z) z n r = (none, vs, r1) →
          (read c r1 z).err = some e →
          readSwitch info lv i r c (.slice z elems)
            = ⟨some e, .slice z (vs ++ (read c r1 z).data :: List.replicate m z),
                (read c r1 z).r⟩) := by
  refine ⟨?_, ?_, ?_, ?_, ?_, ?_⟩
  · intro ctx fields r k h hk
    simp only [read] at h hk ⊢
    cases hinfo : getStructFieldInfo ctx fields with
    | error e => rw [hinfo] at h; simp at h
    | ok info =>
      rw [hinfo] at h hk
      simp only at h hk ⊢
      obtain ⟨used, h1, h2, h3⟩ := readFields_consumes fields info GoMap.empty 0 r h
      simp only at h1 h2 h3
      have hlen : r.length = used.length + (readFields info GoMap.empty 0 r fields).2.2.1.length := by
        conv_lhs => rw [h1]
        rw [List.length_append]
      have hk2 : k < used.length := by omega
      have htk : r.take k = used.take k := by
        conv_lhs => rw [h1]
        rw [List.take_append_of_le_length (by omega)]
      obtain ⟨heof, j, hj, htake, hdrop, hl⟩ := h3 k hk2
      rw [htk]
      exact ⟨heof, j, _, _, hj, rfl, rfl, hl, htake, hdrop⟩
  · intro ctx c pre post nm tg ex fV info r e hinfo hpre hgo hfail
    have happ := readFields_append info (⟨nm, ex, tg, fV⟩ :: post) pre GoMap.empty 0 r
      (readFields info GoMap.empty 0 r pre).2.1 (readFields info GoMap.empty 0 r pre).2.2.1
      (readFields info GoMap.empty 0 r pre).2.2.2 (by rw [← hpre])
    rw [Nat.zero_add] at happ
    rw [readFields_body_fails info _ _ _ nm ex tg fV post c e hgo hfail] at happ
    simp only [read, hinfo, happ]
  · intro info lv i c r k x n hk hlt
    simp only [readSwitch, read, binaryRead, dataSize, sizeof, hk, ReadFull_short r n hlt]
  · intro info lv i c r s hnt h0
    simp only [readSwitch, readString, hnt, if_true, readNullTerm_exhausted r h0]
  · intro info lv i c r s len hnt hlf hlen hmax hlt
    have hbad : ¬ (len < 0 ∨ len.toNat > maxAlloc) := by omega
    have hshort : r.length < len.toNat := by omega
    simp only [readSwitch, readString, hnt, Bool.false_eq_true, if_false, bne_iff_ne, ne_eq, hlf,
      not_false_eq_true, if_true, hlen, if_neg hbad, ReadFull_short r _ hshort]
  · intro info lv i c r z elems vs n m r1 e hlen hmax hvs hf
    have hneg : ¬ ((n + (m + 1) : Nat) : Int) < 0 := by omega
    have hbig : ¬ (((n + (m + 1) : Nat) : Int) ≠ 1 ∧ (n + (m + 1)) * memSize z > maxAlloc) := by
      omega
    have := readElems_fails (fun r0 => read c r0 z) z e n r vs r1 m hvs hf
    simp only [readSwitch, readSlice, hlen, hneg, hbig, if_false, Int.toNat_ofNat, this]

/-- C15, at the record of the repository. The stream
`00 00 00 02 07 09 48 69 00` is read completely; cut after 5 bytes it ends
after the first element of `Data`, and `Read` fails with `io.EOF`, `Size`
keeping the value 2 and `Data` its first element. At the record
`{N uint8; S string "nt"}` and the stream `05 48 69`, which ends before the
zero terminator of `S`, the failure is returned and `N` keeps the value 5. -/
theorem read_failure_propagates_witness :
    (Read [0, 0, 0, 2, 7, 9, 0x48, 0x69, 0] ByteOrder.BigEndian (sizedRecord 0 [] [])).err = none
      ∧ (endOfStream (read (rootContext ByteOrder.BigEndian)
            (List.take 5 [0, 0, 0, 2, 7, 9, 0x48, 0x69, 0]) (.struct (sizedFields 0 [] []))).err
          ∧ ∃ (j : Nat) (full cut : List (Field Val)), j < (sizedFields 0 [] []).length
              ∧ (read (rootContext ByteOrder.BigEndian) [0, 0, 0, 2, 7, 9, 0x48, 0x69, 0]
                  (.struct (sizedFields 0 [] []))).data = .struct full
              ∧ (read (rootContext ByteOrder.BigEndian)
                  (List.take 5 [0, 0, 0, 2, 7, 9, 0x48, 0x69, 0])
                  (.struct (sizedFields 0 [] []))).data = .struct cut
              ∧ cut.length = (sizedFields 0 [] []).length
              ∧ cut.take j = full.take j
              ∧ cut.drop (j + 1) = (sizedFields 0 [] []).drop (j + 1))
      ∧ (Read [0, 0, 0, 2, 7] ByteOrder.BigEndian (sizedRecord 0 [] [])).err
        = some (Failure.goError "EOF")
      ∧ (Read [0, 0, 0, 2, 7] ByteOrder.BigEndian (sizedRecord 0 [] [])).data
        = sizedRecord 2 [byteVal 7, byteVal 0] []
      ∧ (Read [0, 0, 0, 2, 7, 9, 0x48, 0x69, 0] ByteOrder.BigEndian (sizedRecord 0 [] [])).data
        = sizedRecord 2 [byteVal 7, byteVal 9] [0x48, 0x69]
      ∧ (∃ info c,
        getStructFieldInfo (rootContext ByteOrder.BigEndian)
            ([⟨"N", true, "", byteVal 0⟩] ++ ⟨"S", true, "nt", .str []⟩ :: []) = .ok info
          ∧ (readFields info GoMap.empty 0 [5, 0x48, 0x69] [⟨"N", true, "", byteVal 0⟩]).1 = none
          ∧ fieldGate info 1 "S" true Kind.string = FieldGate.go c
          ∧ read (rootContext ByteOrder.BigEndian) [5, 0x48, 0x69]
              (.struct ([⟨"N", true, "", byteVal 0⟩] ++ ⟨"S", true, "nt", .str []⟩ :: []))
            = ⟨some (Failure.goError "EOF"),
                .struct ((readFields info GoMap.empty 0 [5, 0x48, 0x69]
                    [⟨"N", true, "", byteVal 0⟩]).2.1
                  ++ ⟨"S", true, "nt",
                      (readSwitch info
                        (readFields info GoMap.empty 0 [5, 0x48, 0x69]
                          [⟨"N", true, "", byteVal 0⟩]).2.2.2 1
                        (readFields info GoMap.empty 0 [5, 0x48, 0x69]
                          [⟨"N", true, "", byteVal 0⟩]).2.2.1 c (.str [])).data⟩ :: []),
                (readSwitch info
                  (readFields info GoMap.empty 0 [5, 0x48, 0x69] [⟨"N", true, "", byteVal 0⟩]).2.2.2 1
                  (readFields info GoMap.empty 0 [5, 0x48, 0x69] [⟨"N", true, "", byteVal 0⟩]).2.2.1
                  c (.str [])).r⟩)
      ∧ (Read [5, 0x48, 0x69] ByteOrder.BigEndian
          (.struct [⟨"N", true, "", byteVal 0⟩, ⟨"S", true, "nt", .str []⟩])).err
        = some (Failure.goError "EOF")
      ∧ (Read [5, 0x48, 0x69] ByteOrder.BigEndian
          (.struct [⟨"N", true, "", byteVal 0⟩, ⟨"S", true, "nt", .str []⟩])).data
        = .struct [⟨"N", true, "", byteVal 5⟩, ⟨"S", true, "nt", .str []⟩] :=
  ⟨by decide!,
    read_failure_propagates.1 (rootContext ByteOrder.BigEndian) (sizedFields 0 [] [])
      [0, 0, 0, 2, 7, 9, 0x48, 0x69, 0] 5 (by decide!) (by decide!),
    by decide!, Val.eq_of_beq _ _ (by decide!), Val.eq_of_beq _ _ (by decide!),
    ⟨_, _, rfl, rfl, rfl,
      read_failure_propagates.2.1 (rootContext ByteOrder.BigEndian) _
        [⟨"N", true, "", byteVal 0⟩] [] "S" "nt" true (.str []) _ [5, 0x48, 0x69]
        (Failure.goError "EOF") rfl rfl rfl rfl⟩,
    by decide!, Val.eq_of_beq _ _ (by decide!)⟩



/-! ## A walk that has failed stays failed -/

theorem readFields_append_fail (info : StructFieldInfo) (rest : List (Field Val)) (e : Failure) :
    ∀ (pre : List (Field Val)) (lv : GoMap Nat Int) (i : Nat) (r : List Nat),
      (readFields info lv i r pre).1 = some e →
      (readFields info lv i r (pre ++ rest)).1 = some e := by
  intro pre
  induction pre with
  | nil => intro lv i r h; simp [readFields] at h
  | cons f pre1 ih =>
    intro lv i r h
    obtain ⟨nm, ex, tg, v⟩ := f
    rw [List.cons_append, readFields_cons]
    rw [readFields_cons] at h
    unfold readStep at h ⊢
    cases hg : fieldGate info i nm ex v.kind with
    | fail e1 => rw [hg] at h; exact h
    | skip =>
      rw [hg] at h
      exact ih lv (i + 1) r h
    | go c =>
      rw [hg] at h
      simp only at h ⊢
      cases hb : (readSwitch info lv i r c v).err with
      | some e1 => rw [hb] at h; exact h
      | none =>
        rw [hb] at h
        simp only at h ⊢
        cases hl : recordLenField info lv i (readSwitch info lv i r c v).data with
        | error e1 => rw [hl] at h; exact h
        | ok lv1 =>
          rw [hl] at h
          exact ih lv1 (i + 1) _ h

theorem writeStep_append_fail (info : StructFieldInfo) (i : Nat) (nm : String) (ex : Bool)
    (kind : Kind) (body : context → WriteResult) (cont1 cont2 : WriteResult) (e : Failure)
    (hcont : cont1.err = some e → cont2.err = some e)
    (h : (writeStep info i nm ex kind body cont1).err = some e) :
    (writeStep info i nm ex kind body cont2).err = some e := by
  unfold writeStep at h ⊢
  cases hg : fieldGate info i nm ex kind with
  | fail e1 => rw [hg] at h; exact h
  | skip => rw [hg] at h; exact hcont h
  | go c =>
    rw [hg] at h
    simp only at h ⊢
    cases hb : (body c).err with
    | some e1 => rw [hb] at h; exact h
    | none =>
      rw [hb] at h
      exact hcont h

theorem writeFields_append_fail (info : StructFieldInfo) (lv : GoMap Nat Int)
    (rest : List (Field Val)) (e : Failure) :
    ∀ (pre : List (Field Val)) (i : Nat),
      (writeFields info lv i pre).err = some e →
      (writeFields info lv i (pre ++ rest)).err = some e := by
  intro pre
  induction pre with
  | nil => intro i h; simp [writeFields] at h
  | cons f pre1 ih =>
    intro i h
    obtain ⟨nm, ex, tg, v⟩ := f
    cases v with
    | scalar k x =>
      simp only [writeFields, List.cons_append] at h ⊢
      exact writeStep_append_fail info i nm ex _ _ _ _ e (ih (i + 1)) h
    | str s =>
      simp only [writeFields, List.cons_append] at h ⊢
      exact writeStep_append_fail info i nm ex _ _ _ _ e (ih (i + 1)) h
    | slice z es =>
      simp only [writeFields, List.cons_append] at h ⊢
      exact writeStep_append_fail info i nm ex _ _ _ _ e (ih (i + 1)) h
    | array z es =>
      simp only [writeFields, List.cons_append] at h ⊢
      exact writeStep_append_fail info i nm ex _ _ _ _ e (ih (i + 1)) h
    | struct fs =>
      simp only [writeFields, List.cons_append] at h ⊢
      exact writeStep_append_fail info i nm ex _ _ _ _ e (ih (i + 1)) h

theorem contextFromTag_skip (parent : context) :
    contextFromTag parent "-"
      = .ok { TagStr := "-", Order := parent.Order, SkipThis := true, LenField := "",
              NullTerm := false } := by
  rfl

theorem fieldMustValid_skip_rejects (order : ByteOrder) (kind : Kind) (nm : String)
    (hk : kind = Kind.string ∨ kind = Kind.slice) :
    ∃ msg, (context.mk "-" order true "" false).fieldMustValid kind nm
      = .error (Failure.goPanic msg) := by
  rcases hk with hk | hk <;> subst hk <;> simp [context.fieldMustValid]

/-! ## A string or slice marked skip -/

/-- C19 (string and slice fields cannot be skipped), evaluated where it
fails. On `{N uint8; S string "-"}` and an empty stream `Read` fails with the
error of the stream, `EOF`, which is no configuration error: the field `S` is
never reached. -/
theorem skipped_string_not_reached :
    (Read [] ByteOrder.BigEndian (skippedStringRecord 0 [])).err = some (Failure.goError "EOF")
      ∧ (Read [7] ByteOrder.BigEndian (skippedStringRecord 0 [])).err
        = some (Failure.goPanic "binpat: string field S must have a len or nt property") := by
  decide!

/-- C19, amended. For every context parsed from the directive `-`,
`fieldMustValid` rejects the field when its kind is string or slice. So `read`
and `write` never succeed on a record that has a visible string or slice
field tagged `-`; they fail with that configuration error as soon as the walk
reaches the field, the fields before it having been read or written without
failure (and, for `write`, the pre-pass having passed), instead of leaving the
field untouched. A failure of an earlier field comes first. -/
theorem skipped_string_or_slice_rejected :
    (∀ (parent c : context) (kind : Kind) (nm : String),
        contextFromTag parent "-" = .ok c → (kind = Kind.string ∨ kind = Kind.slice) →
        ∃ msg, c.fieldMustValid kind nm = .error (Failure.goPanic msg))
      ∧ (∀ (ctx : context) (pre post : List (Field Val)) (nm : String) (fV : Val),
          (fV.kind = Kind.string ∨ fV.kind = Kind.slice) →
          (∀ r, (read ctx r (.struct (pre ++ ⟨nm, true, "-", fV⟩ :: post))).err ≠ none)
            ∧ (write ctx (.struct (pre ++ ⟨nm, true, "-", fV⟩ :: post))).err ≠ none
            ∧ (∀ (info : StructFieldInfo) (r : List Nat),
                getStructFieldInfo ctx (pre ++ ⟨nm, true, "-", fV⟩ :: post) = .ok info →
                (readFields info GoMap.empty 0 r pre).1 = none →
                ∃ msg, read ctx r (.struct (pre ++ ⟨nm, true, "-", fV⟩ :: post))
                  = ⟨some (Failure.goPanic msg),
                      .struct ((readFields info GoMap.empty 0 r pre).2.1
                        ++ ⟨nm, true, "-", fV⟩ :: post),
                      (readFields info GoMap.empty 0 r pre).2.2.1⟩)
            ∧ (∀ (info : StructFieldInfo) (lv : GoMap Nat Int),
                getStructFieldInfo ctx (pre ++ ⟨nm, true, "-", fV⟩ :: post) = .ok info →
                writePrepass info (pre ++ ⟨nm, true, "-", fV⟩ :: post) 0 GoMap.empty = .ok lv →
                (writeFields info lv 0 pre).err = none →
                ∃ msg, write ctx (.struct (pre ++ ⟨nm, true, "-", fV⟩ :: post))
                  = ⟨some (Failure.goPanic msg), (writeFields info lv 0 pre).w⟩)) := by
  constructor
  · intro parent c kind nm hc hk
    rw [contextFromTag_skip] at hc
    cases hc
    exact fieldMustValid_skip_rejects parent.Order kind nm hk
  · intro ctx pre post nm fV hk
    -- the gate at the field, for any schema of the record
    have hgate : ∀ info, getStructFieldInfo ctx (pre ++ ⟨nm, true, "-", fV⟩ :: post) = .ok info →
        ∃ msg, fieldGate info (0 + pre.length) nm true fV.kind
          = FieldGate.fail (Failure.goPanic msg) := by
      intro info hinfo
      have hres := getStructFieldInfo_resolve ctx _ info hinfo
      have hat := (ctxsResolve_append ctx info.childCtxs _ pre 0 hres).1 rfl
      rw [contextFromTag_skip] at hat
      have hc := Except.ok.inj hat
      obtain ⟨msg, hmsg⟩ := fieldMustValid_skip_rejects ctx.Order fV.kind nm hk
      exact ⟨msg, fieldGate_invalid info _ nm fV.kind _ (by rw [← hc]; exact hmsg)⟩
    have hread : ∀ (info : StructFieldInfo) (r : List Nat),
        getStructFieldInfo ctx (pre ++ ⟨nm, true, "-", fV⟩ :: post) = .ok info →
        (readFields info GoMap.empty 0 r pre).1 = none →
        ∃ msg, read ctx r (.struct (pre ++ ⟨nm, true, "-", fV⟩ :: post))
          = ⟨some (Failure.goPanic msg),
              .struct ((readFields info GoMap.empty 0 r pre).2.1 ++ ⟨nm, true, "-", fV⟩ :: post),
              (readFields info GoMap.empty 0 r pre).2.2.1⟩ := by
      intro info r hinfo hpre
      obtain ⟨msg, hg⟩ := hgate info hinfo
      have happ := readFields_append info (⟨nm, true, "-", fV⟩ :: post) pre GoMap.empty 0 r
        (readFields info GoMap.empty 0 r pre).2.1 (readFields info GoMap.empty 0 r pre).2.2.1
        (readFields info GoMap.empty 0 r pre).2.2.2 (by rw [← hpre])
      rw [readFields_invalid info _ _ _ nm true "-" fV post _ hg] at happ
      exact ⟨msg, by simp only [read, hinfo, happ]⟩
    have hwrite : ∀ (info : StructFieldInfo) (lv : GoMap Nat Int),
        getStructFieldInfo ctx (pre ++ ⟨nm, true, "-", fV⟩ :: post) = .ok info →
        writePrepass info (pre ++ ⟨nm, true, "-", fV⟩ :: post) 0 GoMap.empty = .ok lv →
        (writeFields info lv 0 pre).err = none →
        ∃ msg, write ctx (.struct (pre ++ ⟨nm, true, "-", fV⟩ :: post))
          = ⟨some (Failure.goPanic msg), (writeFields info lv 0 pre).w⟩ := by
      intro info lv hinfo hpp hpre
      obtain ⟨msg, hg⟩ := hgate info hinfo
      have happ := writeFields_append info lv (⟨nm, true, "-", fV⟩ :: post) pre 0
        (writeFields info lv 0 pre).w (by rw [← hpre])
      rw [writeFields_invalid info lv _ nm true "-" fV post _ hg] at happ
      exact ⟨msg, by simp only [write, hinfo, hpp, happ, List.append_nil]⟩
    refine ⟨?_, ?_, hread, hwrite⟩
    · intro r
      cases hinfo : getStructFieldInfo ctx (pre ++ ⟨nm, true, "-", fV⟩ :: post) with
      | error e => simp [read, hinfo]
      | ok info =>
        cases hpre : (readFields info GoMap.empty 0 r pre).1 with
        | none =>
          obtain ⟨msg, h⟩ := hread info r hinfo hpre
          rw [h]; simp
        | some e =>
          have := readFields_append_fail info (⟨nm, true, "-", fV⟩ :: post) e pre GoMap.empty 0 r hpre
          simp [read, hinfo, this]
    · cases hinfo : getStructFieldInfo ctx (pre ++ ⟨nm, true, "-", fV⟩ :: post) with
      | error e => simp [write, hinfo]
      | ok info =>
        cases hpp : writePrepass info (pre ++ ⟨nm, true, "-", fV⟩ :: post) 0 GoMap.empty with
        | error e => simp [write, hinfo, hpp]
        | ok lv =>
          cases hpre : (writeFields info lv 0 pre).err with
          | none =>
            obtain ⟨msg, h⟩ := hwrite info lv hinfo hpp hpre
            rw [h]; simp
          | some e =>
            have := writeFields_append_fail info lv (⟨nm, true, "-", fV⟩ :: post) e pre 0 hpre
            simp [write, hinfo, hpp, this]

/-- C19 amended, at the directive `-` on a string under the root context, and
at the record `{N uint8; S string "-"}` with the stream `07`. -/
theorem skipped_string_or_slice_rejected_witness :
    contextFromTag (rootContext ByteOrder.BigEndian) "-"
        = .ok { TagStr := "-", Order := ByteOrder.BigEndian, SkipThis := true, LenField := "",
                NullTerm := false }
      ∧ (Kind.string = Kind.string ∨ Kind.string = Kind.slice)
      ∧ (∃ msg, (context.mk "-" ByteOrder.BigEndian true "" false).fieldMustValid Kind.string "S"
          = .error (Failure.goPanic msg))
      ∧ (Read [7] ByteOrder.BigEndian (skippedStringRecord 0 [])).err
        = some (Failure.goPanic "binpat: string field S must have a len or nt property")
      ∧ (Read [7] ByteOrder.BigEndian (skippedStringRecord 0 [])).r = [] :=
  ⟨rfl, Or.inl rfl,
    skipped_string_or_slice_rejected.1 (rootContext ByteOrder.BigEndian) _ Kind.string "S" rfl
      (Or.inl rfl),
    by decide!, by decide!⟩

/-! ## The bytes of one field among its siblings -/

theorem layoutFields_cons (ctx : context) (nm : String) (ex : Bool) (tg : String) (fV : Val)
    (rest : List (Field Val)) :
    layoutFields ctx (⟨nm, ex, tg, fV⟩ :: rest)
      = layoutField ctx ex tg (fun c => fieldLayout c fV) ++ layoutFields ctx rest := by
  cases fV <;> simp only [layoutFields, fieldLayout]

theorem layoutFields_append (ctx : context) (post : List (Field Val)) :
    ∀ (pre : List (Field Val)),
      layoutFields ctx (pre ++ post) = layoutFields ctx pre ++ layoutFields ctx post := by
  intro pre
  induction pre with
  | nil => simp [layoutFields]
  | cons f pre1 ih =>
    obtain ⟨nm, ex, tg, v⟩ := f
    rw [List.cons_append, layoutFields_cons, layoutFields_cons, ih, List.append_assoc]

theorem layoutField_go (ctx c : context) (tg : String) (body : context → List Nat)
    (hparse : contextFromTag ctx tg = .ok c) (hskip : c.SkipThis = false) :
    layoutField ctx true tg body = body c := by
  unfold layoutField
  simp only [Bool.not_true, Bool.false_eq_true, if_false, hparse, hskip]

theorem write_field_layout (ctx c : context) (pre post : List (Field Val)) (nm tg : String)
    (fV : Val) (w : List Nat) (hparse : contextFromTag ctx tg = .ok c) (hskip : c.SkipThis = false)
    (h : write ctx (.struct (pre ++ ⟨nm, true, tg, fV⟩ :: post)) = ⟨none, w⟩) :
    w = layoutFields ctx pre ++ fieldLayout c fV ++ layoutFields ctx post := by
  have := write_layout ctx _ w h
  rw [this]
  simp only [layout]
  rw [layoutFields_append, layoutFields_cons, layoutField_go ctx c tg _ hparse hskip,
    List.append_assoc]

theorem readFields_prefix_ok (info : StructFieldInfo) (rest pre : List (Field Val))
    (lv : GoMap Nat Int) (i : Nat) (r : List Nat)
    (h : (readFields info lv i r (pre ++ rest)).1 = none) :
    (readFields info lv i r pre).1 = none := by
  cases hp : (readFields info lv i r pre).1 with
  | none => rfl
  | some e =>
    rw [readFields_append_fail info rest e pre lv i r hp] at h
    cases h

theorem read_field_value (ctx c : context) (pre post : List (Field Val)) (nm tg : String)
    (fV : Val) (r : List Nat) (info : StructFieldInfo)
    (hparse : contextFromTag ctx tg = .ok c) (hskip : c.SkipThis = false)
    (hinfo : getStructFieldInfo ctx (pre ++ ⟨nm, true, tg, fV⟩ :: post) = .ok info)
    (h : (read ctx r (.struct (pre ++ ⟨nm, true, tg, fV⟩ :: post))).err = none) :
    (readSwitch info (readFields info GoMap.empty 0 r pre).2.2.2 pre.length
        (readFields info GoMap.empty 0 r pre).2.2.1 c fV).err = none
      ∧ ∃ post1, (read ctx r (.struct (pre ++ ⟨nm, true, tg, fV⟩ :: post))).data
          = .struct ((readFields info GoMap.empty 0 r pre).2.1
              ++ ⟨nm, true, tg,
                  (readSwitch info (readFields info GoMap.empty 0 r pre).2.2.2 pre.length
                    (readFields info GoMap.empty 0 r pre).2.2.1 c fV).data⟩ :: post1) := by
  simp only [read, hinfo] at h ⊢
  have hpre := readFields_prefix_ok info _ pre GoMap.empty 0 r h
  have happ := readFields_append info (⟨nm, true, tg, fV⟩ :: post) pre GoMap.empty 0 r
    (readFields info GoMap.empty 0 r pre).2.1 (readFields info GoMap.empty 0 r pre).2.2.1
    (readFields info GoMap.empty 0 r pre).2.2.2 (by rw [← hpre])
  rw [Nat.zero_add] at happ
  rw [happ] at h ⊢
  simp only at h ⊢
  have hres := getStructFieldInfo_resolve ctx _ info hinfo
  have hget := (ctxsResolve_append ctx info.childCtxs (⟨nm, true, tg, fV⟩ :: post) pre 0 hres).1 rfl
  simp only [Nat.zero_add] at hget
  rw [hparse] at hget
  have hc : info.childCtxs.getD pre.length context.zero = c := by
    cases hget; rfl
  rw [readFields_cons] at h ⊢
  unfold readStep at h ⊢
  cases hv : c.fieldMustValid fV.kind nm with
  | error e =>
    rw [fieldGate_invalid info pre.length nm fV.kind e (by rw [hc]; exact hv)] at h
    simp at h
  | ok u =>
    have hg := fieldGate_go info pre.length nm fV.kind u (by rw [hc]; exact hv) (by rw [hc]; exact hskip)
    rw [hc] at hg
    rw [hg] at h ⊢
    simp only at h ⊢
    cases hb : (readSwitch info (readFields info GoMap.empty 0 r pre).2.2.2 pre.length
        (readFields info GoMap.empty 0 r pre).2.2.1 c fV).err with
    | some e => rw [hb] at h; simp at h
    | none =>
      rw [hb] at h
      simp only at h ⊢
      cases hl : recordLenField info (readFields info GoMap.empty 0 r pre).2.2.2 pre.length
          (readSwitch info (readFields info GoMap.empty 0 r pre).2.2.2 pre.length
            (readFields info GoMap.empty 0 r pre).2.2.1 c fV).data with
      | error e => rw [hl] at h; simp at h
      | ok lv1 =>
        simp only [true_and]
        exact ⟨_, rfl⟩

theorem readSwitch_scalar_ok (info : StructFieldInfo) (lv : GoMap Nat Int) (i : Nat) (r : List Nat)
    (c : context) (k : Kind) (x : Int) (n : Nat) (hk : k.size = some n)
    (h : (readSwitch info lv i r c (.scalar k x)).err = none) :
    n ≤ r.length
      ∧ readSwitch info lv i r c (.scalar k x)
        = ⟨none, .scalar k (decodeScalar c.Order k (r.take n)), r.drop n⟩ := by
  simp only [readSwitch, read, binaryRead, dataSize, sizeof, hk] at h ⊢
  by_cases hn : n ≤ r.length
  · rw [ReadFull_ok r n hn]
    simp only [decodeValue, hk, Bool.false_eq_true, if_false, List.take_take, Nat.min_self]
    exact ⟨hn, trivial⟩
  · rw [ReadFull_short r n (by omega)] at h
    simp at h

/-- C7 (per-field byte order override), evaluated where it fails. In the
record `{A uint8; Arr [1]struct{W uint16 "le"}}` the field `W` has the
directive `le`, yet under big-endian `Write` encodes `W = 5` as `00 05` and
`Read` decodes `05 00` as 1280: the array goes to the primitive codec as a
whole, which knows no directives. In `{A uint8; In struct{W uint16 "le"}}`,
where the same record is a field, `W` is little-endian: `05 00` and 5. -/
theorem byte_order_ignored_inside_array :
    Write ByteOrder.BigEndian (arrayOfWords 1 5) = ⟨none, [1, 0, 5]⟩
      ∧ (Read [1, 5, 0] ByteOrder.BigEndian (arrayOfWords 0 0)).err = none
      ∧ (Read [1, 5, 0] ByteOrder.BigEndian (arrayOfWords 0 0)).data = arrayOfWords 1 1280
      ∧ encodeScalar ByteOrder.LittleEndian Kind.uint16 5 = [5, 0]
      ∧ Write ByteOrder.BigEndian (wordInRecord 1 5) = ⟨none, [1, 5, 0]⟩
      ∧ (Read [1, 5, 0] ByteOrder.BigEndian (wordInRecord 0 0)).err = none
      ∧ (Read [1, 5, 0] ByteOrder.BigEndian (wordInRecord 0 0)).data = wordInRecord 1 5 :=
  ⟨by decide!, by decide!, Val.eq_of_beq _ _ (by decide!), by decide!, by decide!, by decide!,
    Val.eq_of_beq _ _ (by decide!)⟩

/-- C7, amended. In a record that the walker walks (the record handed to
`Read` or `Write` with the root context of the byte order asked for, a nested
record field with the context of that field, an element of a slice field), let
a visible field not marked skip have the directive `tg`, and let `o` be the
byte order that `tg` names by its last token `le`, `be` or `ne`, or the order
of the enclosing context when it names none. Then the context of the field has
the order `o`. When `write` succeeds, the bytes emitted are the layout of the
fields before, the bytes of the field, and the layout of the fields after: for
a scalar field its encoding in the order `o`, for a nested record the layout of
its fields, and for a slice that of its elements, with the context of the
field as the enclosing one. When `read`
succeeds, a scalar field holds the decoding in the order `o` of the bytes that
follow those of the fields before it, and a nested record is read with the
context of the field. The layout of a nested record of enclosing order `o`
encodes a scalar field in the order named by that field's own directive, or in
`o`. The bytes and the values of the siblings are stated without the directive
`tg`, so that an override does not reach them. -/
theorem field_byte_order (ctx c : context) (pre post : List (Field Val)) (nm tg : String)
    (hparse : contextFromTag ctx tg = .ok c) (hskip : c.SkipThis = false) :
    c.Order = (tagOrder tg).getD ctx.Order
      ∧ (∀ (k : Kind) (x : Int) (w : List Nat),
          write ctx (.struct (pre ++ ⟨nm, true, tg, .scalar k x⟩ :: post)) = ⟨none, w⟩ →
          w = layoutFields ctx pre ++ encodeScalar ((tagOrder tg).getD ctx.Order) k x
                ++ layoutFields ctx post)
      ∧ (∀ (fs : List (Field Val)) (w : List Nat),
          write ctx (.struct (pre ++ ⟨nm, true, tg, .struct fs⟩ :: post)) = ⟨none, w⟩ →
          w = layoutFields ctx pre ++ layoutFields c fs ++ layoutFields ctx post)
      ∧ (∀ (z : Val) (es : List Val) (w : List Nat),
          write ctx (.struct (pre ++ ⟨nm, true, tg, .slice z es⟩ :: post)) = ⟨none, w⟩ →
          w = layoutFields ctx pre ++ layoutElems c es ++ layoutFields ctx post)
      ∧ (∀ (k : Kind) (x : Int) (n : Nat) (r : List Nat) (info : StructFieldInfo),
          k.size = some n →
          getStructFieldInfo ctx (pre ++ ⟨nm, true, tg, .scalar k x⟩ :: post) = .ok info →
          (read ctx r (.struct (pre ++ ⟨nm, true, tg, .scalar k x⟩ :: post))).err = none →
          n ≤ (readFields info GoMap.empty 0 r pre).2.2.1.length
            ∧ ∃ post1, (read ctx r (.struct (pre ++ ⟨nm, true, tg, .scalar k x⟩ :: post))).data
              = .struct ((readFields info GoMap.empty 0 r pre).2.1
                  ++ ⟨nm, true, tg, .scalar k (decodeScalar ((tagOrder tg).getD ctx.Order) k
                        ((readFields info GoMap.empty 0 r pre).2.2.1.take n))⟩ :: post1))
      ∧ (∀ (fs : List (Field Val)) (r : List Nat) (info : StructFieldInfo),
          getStructFieldInfo ctx (pre ++ ⟨nm, true, tg, .struct fs⟩ :: post) = .ok info →
          (read ctx r (.struct (pre ++ ⟨nm, true, tg, .struct fs⟩ :: post))).err = none →
          ∃ post1, (read ctx r (.struct (pre ++ ⟨nm, true, tg, .struct fs⟩ :: post))).data
            = .struct ((readFields info GoMap.empty 0 r pre).2.1
                ++ ⟨nm, true, tg,
                    (read c (readFields info GoMap.empty 0 r pre).2.2.1 (.struct fs)).data⟩ :: post1))
      ∧ (∀ (c2 : context) (pre2 post2 : List (Field Val)) (nm2 tg2 : String) (k : Kind) (x : Int),
          contextFromTag c tg2 = .ok c2 → c2.SkipThis = false →
          layoutFields c (pre2 ++ ⟨nm2, true, tg2, .scalar k x⟩ :: post2)
            = layoutFields c pre2
                ++ encodeScalar ((tagOrder tg2).getD ((tagOrder tg).getD ctx.Order)) k x
                ++ layoutFields c post2) := by
  have ho := contextFromTag_order ctx c tg hparse
  refine ⟨ho, ?_, ?_, ?_, ?_, ?_, ?_⟩
  · intro k x w h
    have := write_field_layout ctx c pre post nm tg _ w hparse hskip h
    simpa only [fieldLayout, layout, ho] using this
  · intro fs w h
    have := write_field_layout ctx c pre post nm tg _ w hparse hskip h
    simpa only [fieldLayout, layout] using this
  · intro z es w h
    have := write_field_layout ctx c pre post nm tg _ w hparse hskip h
    simpa only [fieldLayout] using this
  · intro k x n r info hk hinfo h
    obtain ⟨hb, post1, hd⟩ := read_field_value ctx c pre post nm tg _ r info hparse hskip hinfo h
    obtain ⟨hn, hsw⟩ := readSwitch_scalar_ok info _ _ _ c k x n hk hb
    refine ⟨hn, post1, ?_⟩
    rw [hd, hsw, ho]
  · intro fs r info hinfo h
    obtain ⟨_, post1, hd⟩ := read_field_value ctx c pre post nm tg _ r info hparse hskip hinfo h
    exact ⟨post1, by rw [hd]; rfl⟩
  · intro c2 pre2 post2 nm2 tg2 k x hparse2 hskip2
    rw [layoutFields_append, layoutFields_cons, layoutField_go c c2 tg2 _ hparse2 hskip2,
      List.append_assoc]
    simp only [fieldLayout, layout, contextFromTag_order c c2 tg2 hparse2, ho]

/-- C7, at the record `{A int32; B int32 "le"; C int32}` under big-endian:
`Write` of `{1, 1, 1}` gives `00 00 00 01 01 00 00 00 00 00 00 01`, the field
`B` little-endian between its big-endian siblings, and `Read` of these bytes
gives `{1, 1, 1}` back, `B` being the little-endian decoding of the four
bytes that follow those of `A`. -/
theorem field_byte_order_witness :
    contextFromTag (rootContext ByteOrder.BigEndian) "le"
        = .ok ⟨"le", ByteOrder.LittleEndian, false, "", false⟩
      ∧ Write ByteOrder.BigEndian (.struct (orderFields 1 1 1))
        = ⟨none, [0, 0, 0, 1, 1, 0, 0, 0, 0, 0, 0, 1]⟩
      ∧ [0, 0, 0, 1, 1, 0, 0, 0, 0, 0, 0, 1]
        = layoutFields (rootContext ByteOrder.BigEndian) [⟨"A", true, "", Val.scalar Kind.int32 1⟩]
            ++ encodeScalar ((tagOrder "le").getD (rootContext ByteOrder.BigEndian).Order)
                Kind.int32 1
            ++ layoutFields (rootContext ByteOrder.BigEndian) [⟨"C", true, "", Val.scalar Kind.int32 1⟩]
      ∧ encodeScalar ((tagOrder "le").getD (rootContext ByteOrder.BigEndian).Order) Kind.int32 1
        = [1, 0, 0, 0]
      ∧ (∃ info,
          getStructFieldInfo (rootContext ByteOrder.BigEndian)
              ([⟨"A", true, "", Val.scalar Kind.int32 0⟩]
                ++ ⟨"B", true, "le", Val.scalar Kind.int32 0⟩
                  :: [⟨"C", true, "", Val.scalar Kind.int32 0⟩]) = .ok info
            ∧ 4 ≤ (readFields info GoMap.empty 0 [0, 0, 0, 1, 1, 0, 0, 0, 0, 0, 0, 1]
                    [⟨"A", true, "", Val.scalar Kind.int32 0⟩]).2.2.1.length
            ∧ ∃ post1,
                (read (rootContext ByteOrder.BigEndian) [0, 0, 0, 1, 1, 0, 0, 0, 0, 0, 0, 1]
                  (.struct ([⟨"A", true, "", Val.scalar Kind.int32 0⟩]
                    ++ ⟨"B", true, "le", Val.scalar Kind.int32 0⟩
                      :: [⟨"C", true, "", Val.scalar Kind.int32 0⟩]))).data
                = .struct ((readFields info GoMap.empty 0 [0, 0, 0, 1, 1, 0, 0, 0, 0, 0, 0, 1]
                      [⟨"A", true, "", Val.scalar Kind.int32 0⟩]).2.1
                    ++ ⟨"B", true, "le", Val.scalar Kind.int32
                        (decodeScalar ((tagOrder "le").getD (rootContext ByteOrder.BigEndian).Order)
                          Kind.int32
                          ((readFields info GoMap.empty 0 [0, 0, 0, 1, 1, 0, 0, 0, 0, 0, 0, 1]
                            [⟨"A", true, "", Val.scalar Kind.int32 0⟩]).2.2.1.take 4))⟩ :: post1))
      ∧ decodeScalar ((tagOrder "le").getD (rootContext ByteOrder.BigEndian).Order) Kind.int32
          [1, 0, 0, 0] = 1
      ∧ (Read [0, 0, 0, 1, 1, 0, 0, 0, 0, 0, 0, 1] ByteOrder.BigEndian
          (.struct (orderFields 0 0 0))).err = none
      ∧ (Read [0, 0, 0, 1, 1, 0, 0, 0, 0, 0, 0, 1] ByteOrder.BigEndian
          (.struct (orderFields 0 0 0))).data = .struct (orderFields 1 1 1) :=
  ⟨rfl, by decide!,
    (field_byte_order (rootContext ByteOrder.BigEndian)
      ⟨"le", ByteOrder.LittleEndian, false, "", false⟩
      [⟨"A", true, "", Val.scalar Kind.int32 1⟩] [⟨"C", true, "", Val.scalar Kind.int32 1⟩] "B" "le"
      rfl rfl).2.1 Kind.int32 1 _ (by decide!),
    by decide!,
    ⟨_, rfl,
      (field_byte_order (rootContext ByteOrder.BigEndian)
        ⟨"le", ByteOrder.LittleEndian, false, "", false⟩
        [⟨"A", true, "", Val.scalar Kind.int32 0⟩] [⟨"C", true, "", Val.scalar Kind.int32 0⟩] "B" "le"
        rfl rfl).2.2.2.2.1 Kind.int32 0 4 [0, 0, 0, 1, 1, 0, 0, 0, 0, 0, 0, 1] _ rfl rfl
        (by decide!)⟩,
    by decide!, by decide!, Val.eq_of_beq _ _ (by decide!)⟩

end Binpat
